import Mathlib

/-!
# Reddit-Clone: the in-memory engine and the live server tables

A shallow embedding of `reddit-clone/engine/engine.go` (the `Engine` store), of the
vote / create / search handlers of `reddit-clone-2/reddit-clone/server/main.go` (the `Server`
tables) and of the loop `Hub.run` of `reddit-clone-2/reddit-clone/server/websocket/hub.go`.

Modelling conventions
* A Go `map[string]V` is an association list `GoMap V`.  A key is bound at most once by the
  operations below (`mapSet` overwrites in place, otherwise appends), lookup returns the first
  binding.  The order in which `range` visits a map is not fixed by Go; every operation that
  ranges over `e.subreddits` therefore takes the visiting sequence as an argument (`iter`), and
  theorems quantify over every permutation of the map.
* `*User` and `*Subreddit` objects are created once, stored under their name in `e.users` /
  `e.subreddits`, and never removed or overwritten, so a pointer to one of them is represented by
  that key (`UserRef`, `SubRef`) and the map itself holds the object.  `nil` is `none`.
* `*Post` and `*Comment` objects live in append-only heaps (`postHeap`, `commentHeap`); a pointer
  is the index at which the object was allocated.  The slices `[]*Post`, `[]*Comment` only ever
  receive freshly allocated, non-nil pointers, so they are lists of indices.  An index outside
  the heap has no counterpart in Go, where a pointer always refers to a live object; the scans
  pass over such an index, and the statements below name the objects they speak about.
* A `*DirectMessage` is never modified after its creation and is held only by an inbox slice
  of `e.messages`, so the inboxes hold the messages themselves.
* `sort.Slice` is not stable.  The operations that call it take a rearrangement `shuffle` of
  the slice as an argument and put the rearranged slice in order without moving equal elements
  past each other; every ordered rearrangement of the slice is obtained from some `shuffle`
  (`sortNewestFirst_complete`), and theorems quantify over every `shuffle`.
* `rand.Int()` and `time.Now()` are inputs of the operation that calls them (`rnd`, `now`);
  `time.Time` is a natural number whose zero value is `0`.
* A Go `int` is 64 bits wide.  The `++` and `--` of `Upvote` on the tallies and on `Karma`
  are computed in the integers and wrapped around (`wrapInt`); statements that give the new
  value as the old one plus or minus one name the bound they need.  The counters of the server
  tables start at 0 and move by one per request; they are integers.
* An operation that can dereference a nil pointer returns `Option`; `none` is the Go runtime
  failure.  The mutex and the `fmt.Print` calls have no counterpart: every operation is one
  atomic step on the store.
* A `*Client` is the index of the client object in the list `sessions` of the hub state; the
  buffered channel `send` is the list of payloads waiting in it together with the flag
  `closed`.  Closing a closed channel and sending on a closed channel are Go runtime failures
  (`none`).  The hub loop handles one event at a time.
-/

namespace Reddit

/-! ## Go maps -/

/-- Association list standing for a Go `map[string]V`. -/
abbrev GoMap (V : Type) := List (String × V)

/-- The assignment `m[k] = v`: overwrite the binding of `k`, or add one. -/
def mapSet {V : Type} : GoMap V → String → V → GoMap V
  | [], k, v => [(k, v)]
  | (k', v') :: m, k, v => if k' == k then (k, v) :: m else (k', v') :: mapSet m k v

/-- In-place update through a pointer stored under `k` (no effect when `k` is unbound). -/
def mapModify {V : Type} : GoMap V → String → (V → V) → GoMap V
  | [], _, _ => []
  | (k', v') :: m, k, f => if k' == k then (k', f v') :: m else (k', v') :: mapModify m k f

/-- The builtin `delete(m, k)`. -/
def mapDelete {V : Type} (m : GoMap V) (k : String) : GoMap V :=
  m.filter (fun kv => !(kv.1 == k))

/-! ## Data model (`engine.go`, lines 11-65) -/

abbrev UserRef := String
abbrev SubRef := String
abbrev PostRef := Nat
abbrev CommentRef := Nat

structure User where
  Username : String
  Karma : Int
  Posts : List PostRef
  Comments : List CommentRef
  Connected : Bool
deriving DecidableEq, Repr

structure Subreddit where
  Name : String
  Posts : List PostRef
  Members : GoMap UserRef
deriving DecidableEq, Repr

structure Post where
  ID : String
  Author : Option UserRef
  Subreddit : Option SubRef
  Content : String
  Timestamp : Nat
  Upvotes : Int
  Downvotes : Int
  Comments : List CommentRef
  IsRepost : Bool
  OriginalPost : Option PostRef
deriving DecidableEq, Repr

structure Comment where
  ID : String
  Author : Option UserRef
  Content : String
  Timestamp : Nat
  Parent : Option PostRef
  ReplyTo : Option CommentRef
  Replies : List CommentRef
  Upvotes : Int
  Downvotes : Int
deriving DecidableEq, Repr

structure DirectMessage where
  ID : String
  From : Option UserRef
  To : Option UserRef
  Content : String
  Timestamp : Nat
  ReplyTo : String
deriving DecidableEq, Repr

structure Engine where
  subreddits : GoMap Subreddit
  users : GoMap User
  messages : GoMap (List DirectMessage)
  postHeap : List Post
  commentHeap : List Comment
deriving DecidableEq, Repr

/-- NewEngine: three empty maps, nothing allocated. -/
def NewEngine : Engine :=
  { subreddits := [], users := [], messages := [], postHeap := [], commentHeap := [] }

/-! ## Operations -/

/-- RegisterAccount (`engine.go` 205-217). -/
def RegisterAccount (e : Engine) (username : String) : Option UserRef × Engine :=
  match e.users.lookup username with
  | some _ => (none, e)
  | none =>
    let user : User :=
      { Username := username, Karma := 0, Posts := [], Comments := [], Connected := false }
    (some username, { e with users := mapSet e.users username user })

/-- CreateSubreddit (`engine.go` 192-202). -/
def CreateSubreddit (e : Engine) (name : String) : Engine :=
  match e.subreddits.lookup name with
  | some _ => e
  | none => { e with subreddits := mapSet e.subreddits name { Name := name, Posts := [], Members := [] } }

/-- JoinSubreddit (`engine.go` 220-238): `subreddit.Members[username] = user`. -/
def JoinSubreddit (e : Engine) (username subredditName : String) : Engine :=
  match e.users.lookup username with
  | none => e
  | some _ =>
    match e.subreddits.lookup subredditName with
    | none => e
    | some _ =>
      let join : Subreddit → Subreddit :=
        fun s => { s with Members := mapSet s.Members username username }
      { e with subreddits := mapModify e.subreddits subredditName join }

/-- LeaveSubreddit (`engine.go` 67-76): `delete(subreddit.Members, username)`. -/
def LeaveSubreddit (e : Engine) (username subredditName : String) : Engine :=
  match e.subreddits.lookup subredditName with
  | none => e
  | some _ =>
    let leave : Subreddit → Subreddit :=
      fun s => { s with Members := mapDelete s.Members username }
    { e with subreddits := mapModify e.subreddits subredditName leave }

/-- SetUserConnection (`engine.go` 173-180). -/
def SetUserConnection (e : Engine) (username : String) (connected : Bool) : Engine :=
  match e.users.lookup username with
  | none => e
  | some _ => { e with users := mapModify e.users username (fun u => { u with Connected := connected }) }

/-- The loop `for _, p := range posts { if p.ID == id { post = p; break } }`:
the first pointer of `posts` whose post carries the identifier `id`, with that post. -/
def firstPostWithID (heap : List Post) (posts : List PostRef) (id : String) :
    Option (PostRef × Post) :=
  posts.findSome? (fun r =>
    match heap[r]? with
    | some p => if p.ID == id then some (r, p) else none
    | none => none)

/-- The nested loop of `Upvote` (326-334) and `Repost` (141-149) over `e.subreddits`: the inner
`break` leaves only the inner loop, so a match in a subreddit visited later replaces an
earlier one. -/
def findPost (heap : List Post) (iter : GoMap Subreddit) (id : String) : Option (PostRef × Post) :=
  iter.foldl (fun post kv =>
    match firstPostWithID heap kv.2.Posts id with
    | some found => some found
    | none => post) none

/-- PostInSubreddit (`engine.go` 241-270).  `rnd` is the value of `rand.Int()`; the post is
allocated at the end of the heap and `Timestamp` is left at its zero value. -/
def PostInSubreddit (e : Engine) (rnd : Nat) (subredditName username content : String) :
    Option PostRef × Engine :=
  match e.users.lookup username with
  | none => (none, e)
  | some _ =>
    match e.subreddits.lookup subredditName with
    | none => (none, e)
    | some _ =>
      let post : Post :=
        { ID := toString rnd, Author := some username, Subreddit := some subredditName,
          Content := content, Timestamp := 0, Upvotes := 0, Downvotes := 0, Comments := [],
          IsRepost := false, OriginalPost := none }
      let r : PostRef := e.postHeap.length
      (some r,
        { e with
          postHeap := e.postHeap ++ [post]
          subreddits := mapModify e.subreddits subredditName
            (fun s => { s with Posts := s.Posts ++ [r] })
          users := mapModify e.users username (fun u => { u with Posts := u.Posts ++ [r] }) })

/-- CommentOnPost (`engine.go` 273-312).  The comment gets no `ID` and no `Timestamp`
(both stay at their zero values). -/
def CommentOnPost (e : Engine) (subredditName postID username content : String) :
    Option CommentRef × Engine :=
  match e.users.lookup username with
  | none => (none, e)
  | some _ =>
    match e.subreddits.lookup subredditName with
    | none => (none, e)
    | some subreddit =>
      match firstPostWithID e.postHeap subreddit.Posts postID with
      | none => (none, e)
      | some (pr, post) =>
        let comment : Comment :=
          { ID := "", Author := some username, Content := content, Timestamp := 0,
            Parent := some pr, ReplyTo := none, Replies := [], Upvotes := 0, Downvotes := 0 }
        let c : CommentRef := e.commentHeap.length
        (some c,
          { e with
            commentHeap := e.commentHeap ++ [comment]
            postHeap := e.postHeap.set pr { post with Comments := post.Comments ++ [c] }
            users := mapModify e.users username
              (fun u => { u with Comments := u.Comments ++ [c] }) })

/-- The loop `for _, comment := range comments { if comment.ID == id { ...; break } }`. -/
def firstCommentWithID (heap : List Comment) (comments : List CommentRef) (id : String) :
    Option (CommentRef × Comment) :=
  comments.findSome? (fun r =>
    match heap[r]? with
    | some c => if c.ID == id then some (r, c) else none
    | none => none)

/-- The lookup of `ReplyToComment` (104-117): `(parentPost, parentComment)` after the loops.
Only `post.Comments`, the top-level comments of a matching post, is scanned. -/
def findParent (e : Engine) (iter : GoMap Subreddit) (postID parentCommentID : String) :
    Option (PostRef × Post) × Option (CommentRef × Comment) :=
  iter.foldl (fun acc kv =>
    match firstPostWithID e.postHeap kv.2.Posts postID with
    | none => acc
    | some (pr, post) =>
      (some (pr, post),
        match firstCommentWithID e.commentHeap post.Comments parentCommentID with
        | some found => some found
        | none => acc.2)) (none, none)

/-- ReplyToComment (`engine.go` 91-135).  `iter` is the order in which `e.subreddits` is
visited, `rnd` and `now` are `rand.Int()` and `time.Now()`. -/
def ReplyToComment (e : Engine) (iter : GoMap Subreddit) (rnd now : Nat)
    (postID parentCommentID username content : String) : Option CommentRef × Engine :=
  match e.users.lookup username with
  | none => (none, e)
  | some _ =>
    match findParent e iter postID parentCommentID with
    | (some (pr, _), some (cr, parentComment)) =>
      let reply : Comment :=
        { ID := "comment-" ++ toString rnd, Author := some username, Content := content,
          Timestamp := now, Parent := some pr, ReplyTo := some cr, Replies := [],
          Upvotes := 0, Downvotes := 0 }
      let r : CommentRef := e.commentHeap.length
      (some r,
        { e with
          commentHeap :=
            e.commentHeap.set cr { parentComment with Replies := parentComment.Replies ++ [r] }
              ++ [reply]
          users := mapModify e.users username
            (fun u => { u with Comments := u.Comments ++ [r] }) })
    | _ => (none, e)

/-- Recursive helper findComment (`engine.go` 491-504), which no operation calls.  The Go
function recurses through `Replies` and along the slice; `fuel` bounds the number of nested
calls (one per comment visited on the way to the result). -/
def findComment (heap : List Comment) : Nat → List CommentRef → String → Option CommentRef
  | 0, _, _ => none
  | _ + 1, [], _ => none
  | fuel + 1, r :: rest, commentID =>
    match heap[r]? with
    | none => findComment heap fuel rest commentID
    | some comment =>
      if comment.ID == commentID then some r
      else
        match findComment heap fuel comment.Replies commentID with
        | some found => some found
        | none => findComment heap fuel rest commentID

/-- Repost (`engine.go` 137-171).  `e.users[username]` and `e.subreddits[subredditName]` are
read without a check; appending through a nil `subreddit` or `user` is a nil dereference
(`none`). -/
def Repost (e : Engine) (iter : GoMap Subreddit) (rnd now : Nat)
    (originalPostID username subredditName : String) : Option (Option PostRef × Engine) :=
  match findPost e.postHeap iter originalPostID with
  | none => some (none, e)
  | some (o, originalPost) =>
    match e.subreddits.lookup subredditName with
    | none => none
    | some _ =>
      match e.users.lookup username with
      | none => none
      | some _ =>
        let repost : Post :=
          { ID := "post-" ++ toString rnd, Author := some username,
            Content := originalPost.Content, Subreddit := some subredditName, Timestamp := now,
            Upvotes := 0, Downvotes := 0, Comments := [], IsRepost := true,
            OriginalPost := some o }
        let r : PostRef := e.postHeap.length
        some (some r,
          { e with
            postHeap := e.postHeap ++ [repost]
            subreddits := mapModify e.subreddits subredditName
              (fun s => { s with Posts := s.Posts ++ [r] })
            users := mapModify e.users username (fun u => { u with Posts := u.Posts ++ [r] }) })

/-- Largest value of a Go `int` (64 bits). -/
def maxInt : Int := 9223372036854775807

/-- Smallest value of a Go `int` (64 bits). -/
def minInt : Int := -9223372036854775808

/-- The value a Go `int` holds after an arithmetic result `x`: `x` itself when it is between
`minInt` and `maxInt`, otherwise `x` wrapped around by a multiple of `2^64`. -/
def wrapInt (x : Int) : Int :=
  (x + 9223372036854775808) % 18446744073709551616 - 9223372036854775808

/-- The statements `x.Karma++` (`d = 1`) and `x.Karma--` (`d = -1`) on a user object. -/
def addKarma (d : Int) (u : User) : User :=
  { u with Karma := wrapInt (u.Karma + d) }

/-- The update `ptr.Karma += d` through a pointer field that may be nil. -/
def karmaThrough (users : GoMap User) (d : Int) : Option UserRef → Option (GoMap User)
  | none => none
  | some k => some (mapModify users k (addKarma d))

/-- Innermost loop of the comment branch of `Upvote` (353-358): the first comment `c` of the
slice with `c.Parent.ID == id`.  The outer `none` is the dereference of a nil `c.Parent`. -/
def firstCommentOnPostID (e : Engine) (id : String) :
    List CommentRef → Option (Option (CommentRef × Comment))
  | [] => some none
  | r :: rest =>
    match e.commentHeap[r]? with
    | none => firstCommentOnPostID e id rest
    | some c =>
      match c.Parent with
      | none => none
      | some pr =>
        match e.postHeap[pr]? with
        | none => firstCommentOnPostID e id rest
        | some parent =>
          if parent.ID == id then some (some (r, c)) else firstCommentOnPostID e id rest

/-- The three nested loops of the comment branch of `Upvote` (350-360); `break` leaves only the
innermost loop, so a later post with a match replaces an earlier one. -/
def findVotedComment (e : Engine) (iter : GoMap Subreddit) (id : String) :
    Option (Option (CommentRef × Comment)) :=
  iter.foldl (fun acc kv =>
    kv.2.Posts.foldl (fun acc pr =>
      match acc with
      | none => none
      | some comment =>
        match e.postHeap[pr]? with
        | none => some comment
        | some p =>
          match firstCommentOnPostID e id p.Comments with
          | none => none
          | some (some found) => some (some found)
          | some none => some comment) acc) (some none)

/-- Upvote (`engine.go` 316-373).  `iter` and `iter2` are the orders in which the two `range`
loops visit `e.subreddits`.  Nothing records who has voted: every call moves the counters,
which are Go `int`s (`wrapInt`). -/
def Upvote (e : Engine) (iter iter2 : GoMap Subreddit) (postID : String) (upvote : Bool)
    (username : String) : Option Engine :=
  match e.users.lookup username with
  | none => some e
  | some _ =>
    match findPost e.postHeap iter postID with
    | some (pr, post) =>
      if upvote then
        (karmaThrough e.users 1 post.Author).map (fun users =>
          { e with
            postHeap := e.postHeap.set pr { post with Upvotes := wrapInt (post.Upvotes + 1) }
            users := mapModify users username (addKarma 1) })
      else
        (karmaThrough e.users (-1) post.Author).map (fun users =>
          { e with
            postHeap :=
              e.postHeap.set pr { post with Downvotes := wrapInt (post.Downvotes + 1) }
            users := mapModify users username (addKarma (-1)) })
    | none =>
      match findVotedComment e iter2 postID with
      | none => none
      | some none => some e
      | some (some (cr, comment)) =>
        if upvote then
          (karmaThrough e.users 1 comment.Author).map (fun users =>
            { e with
              commentHeap :=
                e.commentHeap.set cr { comment with Upvotes := wrapInt (comment.Upvotes + 1) }
              users := mapModify users username (addKarma 1) })
        else
          (karmaThrough e.users (-1) comment.Author).map (fun users =>
            { e with
              commentHeap :=
                e.commentHeap.set cr
                  { comment with Downvotes := wrapInt (comment.Downvotes + 1) }
              users := mapModify users username (addKarma (-1)) })

/-- SendDirectMessage (`engine.go` 376-400).  The message gets no `ID` and no `Timestamp`. -/
def SendDirectMessage (e : Engine) (fromUsername toUsername content : String) : Engine :=
  match e.users.lookup fromUsername with
  | none => e
  | some _ =>
    match e.users.lookup toUsername with
    | none => e
    | some _ =>
      let message : DirectMessage :=
        { ID := "", From := some fromUsername, To := some toUsername, Content := content,
          Timestamp := 0, ReplyTo := "" }
      { e with messages := mapSet e.messages toUsername
                 ((e.messages.lookup toUsername).getD [] ++ [message]) }

/-- GetDirectMessages (`engine.go` 403-408); a missing key yields the nil (empty) slice. -/
def GetDirectMessages (e : Engine) (username : String) : List DirectMessage :=
  (e.messages.lookup username).getD []

/-- The lookup of `ReplyToDirectMessage` (429-439) over `e.messages`, visited in the order
`iter`: the message found and its sender. -/
def findMessage (iter : GoMap (List DirectMessage)) (messageID : String) : Option DirectMessage :=
  iter.foldl (fun found kv =>
    match kv.2.find? (fun msg => msg.ID == messageID) with
    | some msg => some msg
    | none => found) none

/-- ReplyToDirectMessage (`engine.go` 418-457).  The reply is filed under
`toUser.Username`, the name stored in the original sender's user object. -/
def ReplyToDirectMessage (e : Engine) (iter : GoMap (List DirectMessage)) (rnd now : Nat)
    (messageID fromUsername content : String) : Engine :=
  match e.users.lookup fromUsername with
  | none => e
  | some _ =>
    match findMessage iter messageID with
    | none => e
    | some originalMessage =>
      match originalMessage.From with
      | none => e
      | some toUser =>
        match e.users.lookup toUser with
        | none => e
        | some toUserObj =>
          let reply : DirectMessage :=
            { ID := "msg-" ++ toString rnd, From := some fromUsername, To := some toUser,
              Content := content, Timestamp := now, ReplyTo := messageID }
          { e with messages := mapSet e.messages toUserObj.Username
                     ((e.messages.lookup toUserObj.Username).getD [] ++ [reply]) }

/-- GetFeed (`engine.go` 78-89): the posts of every subreddit that has `username` as a member
key, concatenated in visiting order. -/
def GetFeed (iter : GoMap Subreddit) (username : String) : List PostRef :=
  iter.foldl (fun feed kv =>
    if (kv.2.Members.lookup username).isSome then feed ++ kv.2.Posts else feed) []

/-- The `Timestamp` read through a post pointer. -/
def postTime (heap : List Post) (r : PostRef) : Nat :=
  match heap[r]? with
  | some p => p.Timestamp
  | none => 0

/-- The order asked of `sort.Slice` in `GetUserFeed` (479-481) by
`less(i, j) = feed[i].Timestamp.After(feed[j].Timestamp)`: `a` may stand before `b` when `b` is
not strictly newer than `a`. -/
def NotOlder (heap : List Post) (a b : PostRef) : Prop :=
  postTime heap b ≤ postTime heap a

instance (heap : List Post) : DecidableRel (NotOlder heap) :=
  fun a b => inferInstanceAs (Decidable (postTime heap b ≤ postTime heap a))

instance (heap : List Post) : IsTotal PostRef (NotOlder heap) :=
  ⟨fun a b => Nat.le_total (postTime heap b) (postTime heap a)⟩

instance (heap : List Post) : IsTrans PostRef (NotOlder heap) :=
  ⟨fun _ _ _ hab hbc => Nat.le_trans hbc hab⟩

/-- The call `sort.Slice(feed, less)`.  The sort is not stable: Go leaves open in which order
elements that compare equal come out.  `shuffle` stands for that freedom; it rearranges the
slice in any way, and the rearranged slice is then put in order without moving equal elements
past each other.  Every ordered rearrangement of the slice arises from some `shuffle`. -/
def sortNewestFirst (heap : List Post) (shuffle : List PostRef → List PostRef)
    (feed : List PostRef) : List PostRef :=
  List.insertionSort (NotOlder heap) (shuffle feed)

/-- GetUserFeed (`engine.go` 460-488).  The collecting loop (472-476) is the loop of `GetFeed`;
`iter` is the order in which it visits `e.subreddits`, `shuffle` the freedom of the sort. -/
def GetUserFeed (e : Engine) (iter : GoMap Subreddit) (shuffle : List PostRef → List PostRef)
    (username : String) (limit : Int) : List PostRef :=
  match e.users.lookup username with
  | none => []
  | some _ =>
    let feed := sortNewestFirst e.postHeap shuffle (GetFeed iter username)
    if limit > 0 ∧ (feed.length : Int) > limit then feed.take limit.toNat else feed

/-- The call `sort.Slice(slice, less)` in general: `r a b` says that `less(b, a)` is false, so
that `a` may stand before `b`; `shuffle` is the freedom of the unstable sort, as in
`sortNewestFirst`. -/
def sortSlice {α : Type} (r : α → α → Prop) [DecidableRel r] (shuffle : List α → List α)
    (slice : List α) : List α :=
  List.insertionSort r (shuffle slice)

/-- The order asked of `sort.Slice` in `GetPopularSubreddits` (516-518) by
`less(i, j) = len(subreddits[i].Members) > len(subreddits[j].Members)`: `a` may stand before
`b` when `b` does not have more members than `a`. -/
def NotFewerMembers (a b : SubRef × Subreddit) : Prop :=
  b.2.Members.length ≤ a.2.Members.length

instance : DecidableRel NotFewerMembers :=
  fun a b => inferInstanceAs (Decidable (b.2.Members.length ≤ a.2.Members.length))

instance : IsTotal (SubRef × Subreddit) NotFewerMembers :=
  ⟨fun a b => Nat.le_total b.2.Members.length a.2.Members.length⟩

instance : IsTrans (SubRef × Subreddit) NotFewerMembers :=
  ⟨fun _ _ _ hab hbc => Nat.le_trans hbc hab⟩

/-- GetPopularSubreddits (`engine.go` 507-521).  The loop copies the subreddit pointers in the
order `iter` in which the map is visited; each pointer is given with the object it points to.
`shuffle` is the freedom of the unstable sort. -/
def GetPopularSubreddits (iter : GoMap Subreddit)
    (shuffle : List (SubRef × Subreddit) → List (SubRef × Subreddit)) :
    List (SubRef × Subreddit) :=
  sortSlice NotFewerMembers shuffle iter

/-- The store states the engine can be in: `NewEngine`, and every state an operation returns
when called on such a state, with any arguments, any random draw, any clock reading and any
visiting order of the maps.  A call that ends in a nil dereference produces no state. -/
inductive Reachable : Engine → Prop
  | init : Reachable NewEngine
  | registerAccount {e : Engine} (username : String) :
      Reachable e → Reachable (RegisterAccount e username).2
  | createSubreddit {e : Engine} (name : String) :
      Reachable e → Reachable (CreateSubreddit e name)
  | joinSubreddit {e : Engine} (username subredditName : String) :
      Reachable e → Reachable (JoinSubreddit e username subredditName)
  | leaveSubreddit {e : Engine} (username subredditName : String) :
      Reachable e → Reachable (LeaveSubreddit e username subredditName)
  | setUserConnection {e : Engine} (username : String) (connected : Bool) :
      Reachable e → Reachable (SetUserConnection e username connected)
  | postInSubreddit {e : Engine} (rnd : Nat) (subredditName username content : String) :
      Reachable e → Reachable (PostInSubreddit e rnd subredditName username content).2
  | commentOnPost {e : Engine} (subredditName postID username content : String) :
      Reachable e → Reachable (CommentOnPost e subredditName postID username content).2
  | replyToComment {e : Engine} (iter : GoMap Subreddit) (rnd now : Nat)
      (postID parentCommentID username content : String) :
      Reachable e → iter.Perm e.subreddits →
      Reachable (ReplyToComment e iter rnd now postID parentCommentID username content).2
  | repost {e e' : Engine} (iter : GoMap Subreddit) (rnd now : Nat)
      (originalPostID username subredditName : String) (r : Option PostRef) :
      Reachable e → iter.Perm e.subreddits →
      Repost e iter rnd now originalPostID username subredditName = some (r, e') →
      Reachable e'
  | upvote {e e' : Engine} (iter iter2 : GoMap Subreddit) (postID : String) (upvote : Bool)
      (username : String) :
      Reachable e → iter.Perm e.subreddits → iter2.Perm e.subreddits →
      Upvote e iter iter2 postID upvote username = some e' →
      Reachable e'
  | sendDirectMessage {e : Engine} (fromUsername toUsername content : String) :
      Reachable e → Reachable (SendDirectMessage e fromUsername toUsername content)
  | replyToDirectMessage {e : Engine} (iter : GoMap (List DirectMessage)) (rnd now : Nat)
      (messageID fromUsername content : String) :
      Reachable e → iter.Perm e.messages →
      Reachable (ReplyToDirectMessage e iter rnd now messageID fromUsername content)

/-! ## A concrete run

The end-to-end scenario of the specification: alice and bob register, alice creates and joins
"golang" and posts "hello" (the random draw is 7), bob joins and comments "nice", alice replies
to that comment (the random draw is 3). -/

def demoUsers : Engine :=
  (RegisterAccount (RegisterAccount NewEngine "alice").2 "bob").2

def demoSub : Engine :=
  JoinSubreddit (JoinSubreddit (CreateSubreddit demoUsers "golang") "alice" "golang") "bob" "golang"

def demoPost : Engine :=
  (PostInSubreddit demoSub 7 "golang" "alice" "hello").2

def demoComment : Engine :=
  (CommentOnPost demoPost "golang" "7" "bob" "nice").2

def demoReply : Engine :=
  (ReplyToComment demoComment demoComment.subreddits 3 100 "7" "" "alice" "thanks").2

/-- The store after bob reposts post "7" into "golang" (random draw 9, clock reading 100). -/
def demoRepost : Engine :=
  match Repost demoPost demoPost.subreddits 9 100 "7" "bob" "golang" with
  | some (_, e) => e
  | none => demoPost

/-- The store after alice comments on post "7" as well: two top-level comments. -/
def demoTwoComments : Engine :=
  (CommentOnPost demoComment "golang" "7" "alice" "again").2

/-- The store after alice has sent bob two direct messages. -/
def demoTwoMessages : Engine :=
  SendDirectMessage (SendDirectMessage demoUsers "alice" "bob" "hi") "alice" "bob" "again"

/-- The store after bob has posted "world" in "golang" as well (random draw 8): two posts
made with `PostInSubreddit`. -/
def demoTwoPosts : Engine :=
  (PostInSubreddit demoPost 8 "golang" "bob" "world").2

/-- A store with two subreddits without members, "a" created before "b". -/
def demoTwoSubs : Engine :=
  CreateSubreddit (CreateSubreddit NewEngine "a") "b"

/-- A store with three subreddits created in the order "a", "b", "c"; alice has joined "b",
the other two have no member. -/
def demoThreeSubs : Engine :=
  JoinSubreddit
    (CreateSubreddit (CreateSubreddit (CreateSubreddit
      (RegisterAccount NewEngine "alice").2 "a") "b") "c")
    "alice" "b"

/-- The user `username` casts the votes `votes` on the target `postID`, one call of `Upvote`
after the other and nothing in between (each call visits the map in its stored order). -/
def castVotes (e : Engine) (postID username : String) : List Bool → Option Engine
  | [] => some e
  | b :: votes =>
    (Upvote e e.subreddits e.subreddits postID b username).bind
      (fun e' => castVotes e' postID username votes)

/-! ## The live server (`server/main.go`, `models/models.go`)

The tables of `Server` are maps from a UUID to a pointer that is stored nowhere else, so a
table holds the objects themselves.  A `uuid.UUID` is represented by its canonical text.  The
arguments of a handler are what it extracts from the request: the path identifier after
`uuid.Parse` (`none` when parsing fails), the JSON body after decoding (`none` when decoding
fails), the `X-User` header, and the value of `uuid.New()`.  A handler returns the HTTP status
with the new tables. -/

abbrev UUID := String

namespace models

structure User where
  Username : String
  PasswordHash : String
  Karma : Int
  CreatedAt : Nat
  Subreddits : List String
deriving DecidableEq, Repr

structure Post where
  ID : UUID
  Title : String
  Content : String
  AuthorName : String
  SubredditName : String
  CreatedAt : Nat
  Score : Int
  CommentsCount : Int
  Upvotes : Int
  Downvotes : Int
deriving DecidableEq, Repr

structure Comment where
  ID : UUID
  Content : String
  AuthorName : String
  PostID : UUID
  ParentID : Option UUID
  CreatedAt : Nat
  Score : Int
  Upvotes : Int
  Downvotes : Int
  RepliesCount : Int
deriving DecidableEq, Repr

structure DirectMessage where
  ID : UUID
  FromUser : String
  ToUser : String
  Content : String
  CreatedAt : Nat
  ReadAt : Option Nat
deriving DecidableEq, Repr

end models

structure Server where
  posts : GoMap models.Post
  comments : GoMap models.Comment
  messages : GoMap models.DirectMessage
  users : GoMap models.User
deriving DecidableEq, Repr

/-- NewServer: four empty tables. -/
def NewServer : Server :=
  { posts := [], comments := [], messages := [], users := [] }

/-- Handler handleCreatePost (`main.go` 278-304); `body` is `(title, content, subreddit)`. -/
def handleCreatePost (s : Server) (newID : UUID) (body : Option (String × String × String))
    (xUser : String) : Nat × Server :=
  match body with
  | none => (400, s)
  | some (title, content, subreddit) =>
    let post : models.Post :=
      { ID := newID, Title := title, Content := content, SubredditName := subreddit,
        AuthorName := xUser, CreatedAt := 0, Score := 0, CommentsCount := 0, Upvotes := 0,
        Downvotes := 0 }
    (201, { s with posts := mapSet s.posts post.ID post })

/-- Handler handleCreateComment (`main.go` 236-276); `body` is `(content, parent_id)`. -/
def handleCreateComment (s : Server) (postID : Option UUID)
    (body : Option (String × Option UUID)) (newID : UUID) (xUser : String) : Nat × Server :=
  match postID with
  | none => (400, s)
  | some postID =>
    match body with
    | none => (400, s)
    | some (content, parentID) =>
      let comment : models.Comment :=
        { ID := newID, Content := content, PostID := postID, ParentID := parentID,
          AuthorName := xUser, CreatedAt := 0, Score := 0, Upvotes := 0, Downvotes := 0,
          RepliesCount := 0 }
      let comments := mapSet s.comments comment.ID comment
      match s.posts.lookup postID with
      | some _ =>
        let count : models.Post → models.Post :=
          fun post => { post with CommentsCount := post.CommentsCount + 1 }
        (201, { s with comments := comments, posts := mapModify s.posts postID count })
      | none => (201, { s with comments := comments })

/-- Handler handleVotePost (`main.go` 325-369); `body` is the field `is_upvote`. -/
def handleVotePost (s : Server) (postID : Option UUID) (body : Option Bool)
    (username : String) : Nat × Server :=
  match postID with
  | none => (400, s)
  | some postID =>
    match body with
    | none => (400, s)
    | some isUpvote =>
      if username == "" then (401, s)
      else
        match s.posts.lookup postID with
        | none => (404, s)
        | some _ =>
          let up : models.Post → models.Post :=
            fun post => { post with Upvotes := post.Upvotes + 1, Score := post.Score + 1 }
          let down : models.Post → models.Post :=
            fun post => { post with Downvotes := post.Downvotes + 1, Score := post.Score - 1 }
          if isUpvote then (200, { s with posts := mapModify s.posts postID up })
          else (200, { s with posts := mapModify s.posts postID down })

/-- Handler handleVoteComment (`main.go` 371-415). -/
def handleVoteComment (s : Server) (commentID : Option UUID) (body : Option Bool)
    (username : String) : Nat × Server :=
  match commentID with
  | none => (400, s)
  | some commentID =>
    match body with
    | none => (400, s)
    | some isUpvote =>
      if username == "" then (401, s)
      else
        match s.comments.lookup commentID with
        | none => (404, s)
        | some _ =>
          let up : models.Comment → models.Comment :=
            fun c => { c with Upvotes := c.Upvotes + 1, Score := c.Score + 1 }
          let down : models.Comment → models.Comment :=
            fun c => { c with Downvotes := c.Downvotes + 1, Score := c.Score - 1 }
          if isUpvote then (200, { s with comments := mapModify s.comments commentID up })
          else (200, { s with comments := mapModify s.comments commentID down })

/-- A request routed to one of the four handlers above (`routes`, `main.go` 113-121). -/
inductive Request where
  | createPost (newID : UUID) (body : Option (String × String × String)) (xUser : String)
  | createComment (postID : Option UUID) (body : Option (String × Option UUID)) (newID : UUID)
      (xUser : String)
  | votePost (postID : Option UUID) (body : Option Bool) (username : String)
  | voteComment (commentID : Option UUID) (body : Option Bool) (username : String)

/-- The tables after the server has handled one request. -/
def serve (s : Server) : Request → Server
  | .createPost newID body xUser => (handleCreatePost s newID body xUser).2
  | .createComment postID body newID xUser => (handleCreateComment s postID body newID xUser).2
  | .votePost postID body username => (handleVotePost s postID body username).2
  | .voteComment commentID body username => (handleVoteComment s commentID body username).2

/-- The tables after a sequence of requests, handled one at a time. -/
def serveAll (s : Server) (requests : List Request) : Server :=
  requests.foldl serve s

/-- The tables after alice has created the post "Go tips" in "golang" and bob the post "Rust"
in "rust". -/
def demoServer : Server :=
  (handleCreatePost
    (handleCreatePost NewServer "id-1" (some ("Go tips", "hello", "golang")) "alice").2
    "id-2" (some ("Rust", "borrow", "rust")) "bob").2

/-- A stand-in for `strings.Contains` in concrete runs: the characters of `sub` occur in `s`
one after the other. -/
def containsChars (s sub : String) : Bool :=
  decide (sub.data <:+: s.data)

/-- The order asked of `sort.Slice` in `handleSearch` (159-161) by
`less(i, j) = results[i].CreatedAt.After(results[j].CreatedAt)`. -/
def NotCreatedBefore (a b : models.Post) : Prop :=
  b.CreatedAt ≤ a.CreatedAt

instance : DecidableRel NotCreatedBefore :=
  fun a b => inferInstanceAs (Decidable (b.CreatedAt ≤ a.CreatedAt))

instance : IsTotal models.Post NotCreatedBefore :=
  ⟨fun a b => Nat.le_total b.CreatedAt a.CreatedAt⟩

instance : IsTrans models.Post NotCreatedBefore :=
  ⟨fun _ _ _ hab hbc => Nat.le_trans hbc hab⟩

/-- Handler handleSearch (`main.go` 136-166).  `lower` and `contains` are `strings.ToLower` and
`strings.Contains` of the Go library, `q` is the URL parameter, `iter` the order in which
`s.posts` is visited, `shuffle` the freedom of the unstable sort.  The handler returns the
HTTP status and the posts it encodes. -/
def handleSearch (lower : String → String) (contains : String → String → Bool)
    (iter : GoMap models.Post) (shuffle : List models.Post → List models.Post) (q : String) :
    Nat × List models.Post :=
  if q == "" then (400, [])
  else
    let query := lower q
    let results := iter.foldl (fun results kv =>
      if contains (lower kv.2.Title) query || contains (lower kv.2.Content) query ||
          contains (lower kv.2.SubredditName) query then results ++ [kv.2]
      else results) []
    (200, sortSlice NotCreatedBefore shuffle results)

/-! ## The broadcast hub (`server/websocket/hub.go`)

A `*Client` is the index of the client object in `sessions`; of a client object the hub uses
the `username` and the channel `send`, which is represented by the payloads it buffers and by
whether it has been closed.  The map `clients` (`map[*Client]bool`, every value `true`) is the
list of its keys.  The three channels of the hub carry the events of `HubEvent`; the loop of
`run` handles one event at a time.  Closing a closed channel and sending on a closed channel
are Go runtime failures (`none`). -/

abbrev ClientRef := Nat
abbrev Payload := List Nat

structure Client where
  username : String
  send : List Payload
  closed : Bool
deriving DecidableEq, Repr

structure Hub where
  clients : List ClientRef
  userMap : GoMap ClientRef
  sessions : List Client
deriving DecidableEq, Repr

/-- Capacity of the channel `send` made by `serveWs` (`make(chan []byte, 256)`, line 88). -/
def sendCapacity : Nat := 256

/-- Function newHub (28-36): empty maps; no client object exists yet. -/
def newHub : Hub :=
  { clients := [], userMap := [], sessions := [] }

/-- The register case of `run` (41-45).  A pointer to no client object is not handled. -/
def hubRegister (h : Hub) (c : ClientRef) : Hub :=
  match h.sessions[c]? with
  | none => h
  | some client =>
    { h with
      clients := if c ∈ h.clients then h.clients else h.clients ++ [c]
      userMap := mapSet h.userMap client.username c }

/-- The statement `close(client.send)`; closing a closed channel fails. -/
def closeSend (sessions : List Client) (c : ClientRef) : Option (List Client) :=
  match sessions[c]? with
  | none => some sessions
  | some client =>
    if client.closed then none else some (sessions.set c { client with closed := true })

/-- The unregister case of `run` (47-54). -/
def hubUnregister (h : Hub) (c : ClientRef) : Option Hub :=
  if c ∈ h.clients then
    match h.sessions[c]? with
    | none => some h
    | some client =>
      (closeSend h.sessions c).map (fun sessions =>
        { clients := h.clients.erase c
          userMap := mapDelete h.userMap client.username
          sessions := sessions })
  else some h

/-- The body of the loop in the broadcast case of `run` (59-65) for one client: the
non-blocking send, and the drop of the client when its channel is full. -/
def deliver (h : Hub) (message : Payload) (c : ClientRef) : Option Hub :=
  match h.sessions[c]? with
  | none => some h
  | some client =>
    if client.closed then none
    else if client.send.length < sendCapacity then
      some { h with sessions := h.sessions.set c { client with send := client.send ++ [message] } }
    else
      (closeSend h.sessions c).map (fun sessions =>
        { clients := h.clients.erase c
          userMap := mapDelete h.userMap client.username
          sessions := sessions })

/-- The loop `for client := range h.clients` of the broadcast case, over the keys in the order
in which they are visited.  Only the key being visited is deleted, so every key present at the
start is visited once. -/
def deliverAll (message : Payload) : Hub → List ClientRef → Option Hub
  | h, [] => some h
  | h, c :: rest =>
    match deliver h message c with
    | none => none
    | some h' => deliverAll message h' rest

/-- The events the hub reacts to, and the two things that happen to a client object outside
the loop of `run`: its creation by `serveWs` (87-88), and the writer taking one payload out of
`send`.  A broadcast carries the order `order` in which the map `clients` is visited. -/
inductive HubEvent where
  | connect (username : String)
  | register (c : ClientRef)
  | unregister (c : ClientRef)
  | broadcast (message : Payload) (order : List ClientRef → List ClientRef)
  | receive (c : ClientRef)

/-- One event. -/
def hubStep (h : Hub) : HubEvent → Option Hub
  | .connect username =>
    some { h with sessions := h.sessions ++ [{ username := username, send := [], closed := false }] }
  | .register c => some (hubRegister h c)
  | .unregister c => hubUnregister h c
  | .broadcast message order => deliverAll message h (order h.clients)
  | .receive c =>
    match h.sessions[c]? with
    | none => some h
    | some client => some { h with sessions := h.sessions.set c { client with send := client.send.tail } }

/-- A sequence of events, one after the other; `none` when a runtime failure ends the run. -/
def hubRun : Hub → List HubEvent → Option Hub
  | h, [] => some h
  | h, ev :: rest =>
    match hubStep h ev with
    | none => none
    | some h' => hubRun h' rest

/-- The clients delivered to the hub by the register events of a sequence, in order. -/
def registered : List HubEvent → List ClientRef
  | [] => []
  | .register c :: rest => c :: registered rest
  | _ :: rest => registered rest

/-- The visiting orders carried by the broadcast events are rearrangements of the keys. -/
def OrdersValid : List HubEvent → Prop
  | [] => True
  | .broadcast _ order :: rest => (∀ l, (order l).Perm l) ∧ OrdersValid rest
  | _ :: rest => OrdersValid rest

/-! ## Predicates used in the statements -/

/-- The post at `pr` is the only post listed in a subreddit that carries the identifier `id`. -/
def OnlyPostWithID (e : Engine) (id : String) (pr : PostRef) : Prop :=
  ∀ kv ∈ e.subreddits, ∀ r ∈ kv.2.Posts, (e.postHeap[r]?).map (fun q => q.ID) = some id → r = pr

instance (e : Engine) (id : String) (pr : PostRef) : Decidable (OnlyPostWithID e id pr) := by
  unfold OnlyPostWithID
  infer_instance

/-- The comment at `cr` is the only allocated comment that carries the identifier `id`. -/
def OnlyCommentWithID (e : Engine) (id : String) (cr : CommentRef) : Prop :=
  ∀ (r : CommentRef) (c : Comment), e.commentHeap[r]? = some c → c.ID = id → r = cr

/-- Every comment pointer in the comment list of a post refers to an allocated comment whose
`Parent` is that very post. -/
def ParentLinked (e : Engine) : Prop :=
  ∀ (pr : PostRef) (p : Post), e.postHeap[pr]? = some p →
    ∀ cr ∈ p.Comments, ∃ c, e.commentHeap[cr]? = some c ∧ c.Parent = some pr

/-- No key is bound twice. -/
def KeysNodup {V : Type} (m : GoMap V) : Prop :=
  (m.map (fun kv => kv.1)).Nodup

/-- Every member entry of every subreddit maps a username to the pointer of that user. -/
def MembersSelf (e : Engine) : Prop :=
  ∀ kv ∈ e.subreddits, ∀ m ∈ kv.2.Members, m.2 = m.1

/-- Every post pointer listed by a subreddit refers to an allocated post whose `Subreddit` is
that subreddit. -/
def PostsHome (e : Engine) : Prop :=
  ∀ kv ∈ e.subreddits, ∀ pr ∈ kv.2.Posts,
    (e.postHeap[pr]?).bind (fun p => p.Subreddit) = some kv.1

/-- The post lists of the subreddits that have `username` as a member key, one after the
other in the stored order of the map. -/
def memberPosts (e : Engine) (username : String) : List PostRef :=
  (e.subreddits.filter (fun kv => (kv.2.Members.lookup username).isSome)).flatMap
    (fun kv => kv.2.Posts)

/-- The subreddit table is well formed: no name is bound twice, member entries point to the
user they are filed under, and listed posts belong to the subreddit that lists them. -/
def StoreInv (e : Engine) : Prop :=
  KeysNodup e.subreddits ∧ MembersSelf e ∧ PostsHome e

/-- The lower-cased query is contained in the lower-cased title, content or subreddit name of
the post. -/
def searchMatches (lower : String → String) (contains : String → String → Bool) (q : String)
    (p : models.Post) : Bool :=
  contains (lower p.Title) (lower q) || contains (lower p.Content) (lower q) ||
    contains (lower p.SubredditName) (lower q)

/-- The user table and the member maps fit together: a user object carries the name it is
stored under, no member map binds a key twice, and every member key is a registered name. -/
def RegistryInv (users : GoMap User) (subreddits : GoMap Subreddit) : Prop :=
  (∀ kv ∈ users, kv.2.Username = kv.1) ∧
  (∀ kv ∈ subreddits, KeysNodup kv.2.Members) ∧
  (∀ kv ∈ subreddits, ∀ m ∈ kv.2.Members, (users.lookup m.1).isSome = true)

/-- The name under which a client object was created, read through its pointer. -/
def nameOf (sessions : List Client) (c : ClientRef) : Option String :=
  (sessions[c]?).map (fun client => client.username)

/-- The channel `send` of the client holds as many payloads as it has room for. -/
def queueFull (sessions : List Client) (c : ClientRef) : Bool :=
  match sessions[c]? with
  | some client => decide (sendCapacity ≤ client.send.length)
  | none => false

/-- What one broadcast of `message` does to a client whose channel is open: the payload is
queued, or, when there is no room, the channel is closed. -/
def afterBroadcast (message : Payload) (client : Client) : Client :=
  if client.send.length < sendCapacity then { client with send := client.send ++ [message] }
  else { client with closed := true }

/-- The maps of the hub fit together: `clients` lists no client twice, and every entry of
`userMap` files a listed client under the name of that client. -/
def HubInv (h : Hub) : Prop :=
  h.clients.Nodup ∧
  (∀ kv ∈ h.userMap, kv.2 ∈ h.clients ∧ nameOf h.sessions kv.2 = some kv.1)

instance (h : Hub) : Decidable (HubInv h) := by
  unfold HubInv
  infer_instance

/-- Every listed client exists and its channel `send` is open. -/
def MembersOpen (h : Hub) : Prop :=
  ∀ c ∈ h.clients, (h.sessions[c]?).map (fun client => client.closed) = some false

instance (h : Hub) : Decidable (MembersOpen h) := by
  unfold MembersOpen
  infer_instance

/-- No client that is listed, and no client whose channel is closed, is delivered to the hub
by a register event of the sequence `events`. -/
def NotRegisteredAgain (h : Hub) (events : List HubEvent) : Prop :=
  ∀ c, (c ∈ h.clients ∨ (h.sessions[c]?).map (fun client => client.closed) = some true) →
    c ∉ registered events

/-- A hub with two listed clients: "a", whose channel is full, and "b", whose channel is
empty. -/
def demoHubFull : Hub :=
  { clients := [0, 1]
    userMap := [("a", 0), ("b", 1)]
    sessions := [{ username := "a", send := List.replicate 256 [], closed := false },
                 { username := "b", send := [], closed := false }] }

/-- Two clients created under the same name "n", neither delivered to the hub yet. -/
def demoHubTwoSessions : Hub :=
  { clients := [], userMap := []
    sessions := [{ username := "n", send := [], closed := false },
                 { username := "n", send := [], closed := false }] }

/-- Two clients created under the same name "n" and registered one after the other. -/
def demoHubSameName : Hub :=
  hubRegister (hubRegister
    { clients := [], userMap := []
      sessions := [{ username := "n", send := [], closed := false },
                   { username := "n", send := [], closed := false }] } 0) 1

/-- Every stored post and every stored comment has `Score = Upvotes - Downvotes`. -/
def ScoreConsistent (s : Server) : Prop :=
  (∀ kv ∈ s.posts, kv.2.Score = kv.2.Upvotes - kv.2.Downvotes) ∧
  (∀ kv ∈ s.comments, kv.2.Score = kv.2.Upvotes - kv.2.Downvotes)

/-! ## Lemmas on maps -/

theorem lookup_cons_self {V : Type} (m : GoMap V) (k : String) (v : V) :
    List.lookup k ((k, v) :: m) = some v := by
  simp [List.lookup]

theorem lookup_cons_ne {V : Type} (m : GoMap V) (k k' : String) (v : V) (h : k ≠ k') :
    List.lookup k ((k', v) :: m) = List.lookup k m := by
  have hb : (k == k') = false := by simpa using h
  simp [List.lookup, hb]

theorem lookup_mapSet_self {V : Type} (m : GoMap V) (k : String) (v : V) :
    (mapSet m k v).lookup k = some v := by
  induction m with
  | nil => simp [mapSet, lookup_cons_self]
  | cons kv m ih =>
    obtain ⟨k', v'⟩ := kv
    by_cases h : k' = k
    · simp [mapSet, h, lookup_cons_self]
    · have h' : k ≠ k' := fun hh => h hh.symm
      simp [mapSet, h, lookup_cons_ne _ _ _ _ h', ih]

theorem lookup_mapSet_ne {V : Type} (m : GoMap V) (k k' : String) (v : V) (hne : k' ≠ k) :
    (mapSet m k v).lookup k' = m.lookup k' := by
  induction m with
  | nil => simp [mapSet, lookup_cons_ne _ _ _ _ hne]
  | cons kv m ih =>
    obtain ⟨k₀, v₀⟩ := kv
    by_cases h : k₀ = k
    · subst h
      simp [mapSet, lookup_cons_ne _ _ _ _ hne]
    · by_cases h2 : k' = k₀
      · subst h2
        simp [mapSet, h, lookup_cons_self]
      · simp [mapSet, h, lookup_cons_ne _ _ _ _ h2, ih]

theorem lookup_mapModify_self {V : Type} (m : GoMap V) (k : String) (f : V → V) :
    (mapModify m k f).lookup k = (m.lookup k).map f := by
  induction m with
  | nil => simp [mapModify]
  | cons kv m ih =>
    obtain ⟨k', v'⟩ := kv
    by_cases h : k' = k
    · subst h
      simp [mapModify, lookup_cons_self]
    · have h' : k ≠ k' := fun hh => h hh.symm
      simp [mapModify, h, lookup_cons_ne _ _ _ _ h', ih]

theorem lookup_mapModify_ne {V : Type} (m : GoMap V) (k k' : String) (f : V → V)
    (hne : k' ≠ k) : (mapModify m k f).lookup k' = m.lookup k' := by
  induction m with
  | nil => simp [mapModify]
  | cons kv m ih =>
    obtain ⟨k₀, v₀⟩ := kv
    by_cases h : k₀ = k
    · subst h
      simp [mapModify, lookup_cons_ne _ _ _ _ hne]
    · by_cases h2 : k' = k₀
      · subst h2
        simp [mapModify, h, lookup_cons_self]
      · simp [mapModify, h, lookup_cons_ne _ _ _ _ h2, ih]

/-! ## Lemmas on the post lookup -/

theorem firstPostWithID_some {heap : List Post} {posts : List PostRef} {id : String}
    {r : PostRef} {p : Post} (h : firstPostWithID heap posts id = some (r, p)) :
    r ∈ posts ∧ heap[r]? = some p ∧ p.ID = id := by
  unfold firstPostWithID at h
  obtain ⟨r', hr', hq⟩ := List.exists_of_findSome?_eq_some h
  cases hh : heap[r']? with
  | none => simp [hh] at hq
  | some q =>
    simp only [hh] at hq
    by_cases hid : q.ID = id
    · simp [hid] at hq
      obtain ⟨h1, h2⟩ := hq
      subst h1; subst h2
      exact ⟨hr', hh, hid⟩
    · simp [hid] at hq

theorem firstPostWithID_none {heap : List Post} {posts : List PostRef} {id : String} :
    firstPostWithID heap posts id = none ↔
      ∀ r ∈ posts, ∀ p, heap[r]? = some p → p.ID ≠ id := by
  unfold firstPostWithID
  rw [List.findSome?_eq_none_iff]
  constructor
  · intro h r hr p hp hid
    have := h r hr
    simp [hp, hid] at this
  · intro h r hr
    cases hh : heap[r]? with
    | none => rfl
    | some q => simp [h r hr q hh]

theorem findPost_foldl_some {heap : List Post} {id : String} {r : PostRef} {p : Post}
    (iter : GoMap Subreddit) (acc : Option (PostRef × Post))
    (h : iter.foldl (fun post kv =>
        match firstPostWithID heap kv.2.Posts id with
        | some found => some found
        | none => post) acc = some (r, p)) :
    acc = some (r, p) ∨ ∃ kv ∈ iter, firstPostWithID heap kv.2.Posts id = some (r, p) := by
  induction iter generalizing acc with
  | nil => exact Or.inl h
  | cons kv iter ih =>
    rw [List.foldl_cons] at h
    rcases ih _ h with h1 | ⟨kv', hkv', h2⟩
    · cases hf : firstPostWithID heap kv.2.Posts id with
      | none =>
        rw [hf] at h1
        exact Or.inl h1
      | some found =>
        rw [hf] at h1
        exact Or.inr ⟨kv, List.mem_cons_self _ _, by rw [hf]; exact h1⟩
    · exact Or.inr ⟨kv', List.mem_cons_of_mem _ hkv', h2⟩

theorem findPost_foldl_none {heap : List Post} {id : String}
    (iter : GoMap Subreddit) (acc : Option (PostRef × Post)) :
    iter.foldl (fun post kv =>
        match firstPostWithID heap kv.2.Posts id with
        | some found => some found
        | none => post) acc = none ↔
      acc = none ∧ ∀ kv ∈ iter, firstPostWithID heap kv.2.Posts id = none := by
  induction iter generalizing acc with
  | nil => simp
  | cons kv iter ih =>
    rw [List.foldl_cons, ih]
    cases hf : firstPostWithID heap kv.2.Posts id with
    | none => simp [hf]
    | some found => simp [hf]

theorem findPost_some {heap : List Post} {iter : GoMap Subreddit} {id : String}
    {r : PostRef} {p : Post} (h : findPost heap iter id = some (r, p)) :
    ∃ kv ∈ iter, r ∈ kv.2.Posts ∧ heap[r]? = some p ∧ p.ID = id := by
  rcases findPost_foldl_some iter none h with h1 | ⟨kv, hkv, h2⟩
  · cases h1
  · exact ⟨kv, hkv, firstPostWithID_some h2⟩

theorem findPost_none {heap : List Post} {iter : GoMap Subreddit} {id : String} :
    findPost heap iter id = none ↔
      ∀ kv ∈ iter, ∀ r ∈ kv.2.Posts, ∀ p, heap[r]? = some p → p.ID ≠ id := by
  unfold findPost
  rw [findPost_foldl_none]
  constructor
  · rintro ⟨-, h⟩ kv hkv
    exact firstPostWithID_none.mp (h kv hkv)
  · intro h
    exact ⟨rfl, fun kv hkv => firstPostWithID_none.mpr (h kv hkv)⟩

/-- With distinct identifiers the lookup of `Upvote` returns the listed post that carries the
identifier, whatever the visiting order. -/
theorem findPost_of_only {e : Engine} {iter : GoMap Subreddit} {kv : String × Subreddit}
    {pr : PostRef} {p : Post} (hperm : iter.Perm e.subreddits) (hkv : kv ∈ e.subreddits)
    (hpr : pr ∈ kv.2.Posts) (hp : e.postHeap[pr]? = some p)
    (honly : OnlyPostWithID e p.ID pr) :
    findPost e.postHeap iter p.ID = some (pr, p) := by
  cases hf : findPost e.postHeap iter p.ID with
  | none =>
    have := findPost_none.mp hf kv (hperm.mem_iff.mpr hkv) pr hpr p hp
    exact absurd rfl this
  | some found =>
    obtain ⟨r, q⟩ := found
    obtain ⟨kv', hkv', hr, hq, hid⟩ := findPost_some hf
    have hrp : r = pr := honly kv' (hperm.mem_iff.mp hkv') r hr (by simp [hq, hid])
    subst hrp
    rw [hp] at hq
    cases hq
    rfl

/-! ## Registration -/

/-- C1: registering a username that is already registered returns nil and leaves the whole
store (users with their karma, posts and comments, subreddits, inboxes) exactly as it was. -/
theorem registerAccount_existing (e : Engine) (username : String) (u : User)
    (h : e.users.lookup username = some u) :
    RegisterAccount e username = (none, e) := by
  simp [RegisterAccount, h]

theorem registerAccount_existing_witness :
    demoUsers.users.lookup "alice"
        = some { Username := "alice", Karma := 0, Posts := [], Comments := [], Connected := false }
      ∧ RegisterAccount demoUsers "alice" = (none, demoUsers) :=
  ⟨by decide, registerAccount_existing demoUsers "alice"
    { Username := "alice", Karma := 0, Posts := [], Comments := [], Connected := false }
    (by decide)⟩

/-! ## Voting on a post -/

theorem upvote_post_up {e : Engine} {iter : GoMap Subreddit} (iter2 : GoMap Subreddit)
    {id v a : String} {vu : User} {pr : PostRef} {p : Post}
    (hv : e.users.lookup v = some vu) (hfind : findPost e.postHeap iter id = some (pr, p))
    (hauthor : p.Author = some a) :
    Upvote e iter iter2 id true v = some
      { e with
        postHeap := e.postHeap.set pr { p with Upvotes := wrapInt (p.Upvotes + 1) }
        users := mapModify (mapModify e.users a (addKarma 1)) v (addKarma 1) } := by
  simp [Upvote, hv, hfind, hauthor, karmaThrough]

theorem upvote_post_down {e : Engine} {iter : GoMap Subreddit} (iter2 : GoMap Subreddit)
    {id v a : String} {vu : User} {pr : PostRef} {p : Post}
    (hv : e.users.lookup v = some vu) (hfind : findPost e.postHeap iter id = some (pr, p))
    (hauthor : p.Author = some a) :
    Upvote e iter iter2 id false v = some
      { e with
        postHeap := e.postHeap.set pr { p with Downvotes := wrapInt (p.Downvotes + 1) }
        users := mapModify (mapModify e.users a (addKarma (-1))) v (addKarma (-1)) } := by
  simp [Upvote, hv, hfind, hauthor, karmaThrough]

theorem lt_length_of_lookup_some {α : Type} {l : List α} {i : Nat} {x : α}
    (h : l[i]? = some x) : i < l.length := by
  rcases Nat.lt_or_ge i l.length with h' | h'
  · exact h'
  · rw [List.getElem?_eq_none h'] at h
    cases h

/-- At the bounds the counter wraps around. -/
theorem wrapInt_at_bounds :
    wrapInt (maxInt + 1) = minInt ∧ wrapInt (minInt + -1) = maxInt := by
  decide

/-- C3: in the concrete run, bob votes on alice's post "7".  After two upvotes the post has
two upvotes and alice has karma 2, while after the last vote alone it has one upvote and alice
karma 1; after an upvote followed by a downvote both tallies are 1, while after the last vote
alone the upvote tally is 0.  Every call moves the counters; no earlier vote is revised. -/
theorem castVotes_repeated_vote_counts_again :
    ((castVotes demoPost "7" "bob" [true, true]).bind (fun e => e.postHeap[0]?)).map
        (fun p => (p.Upvotes, p.Downvotes)) = some (2, 0) ∧
    ((castVotes demoPost "7" "bob" [true]).bind (fun e => e.postHeap[0]?)).map
        (fun p => (p.Upvotes, p.Downvotes)) = some (1, 0) ∧
    ((castVotes demoPost "7" "bob" [true, true]).bind (fun e => e.users.lookup "alice")).map
        (fun u => u.Karma) = some 2 ∧
    ((castVotes demoPost "7" "bob" [true]).bind (fun e => e.users.lookup "alice")).map
        (fun u => u.Karma) = some 1 ∧
    ((castVotes demoPost "7" "bob" [true, false]).bind (fun e => e.postHeap[0]?)).map
        (fun p => (p.Upvotes, p.Downvotes)) = some (1, 1) ∧
    ((castVotes demoPost "7" "bob" [false]).bind (fun e => e.postHeap[0]?)).map
        (fun p => (p.Upvotes, p.Downvotes)) = some (0, 1) := by
  decide

/-! ## Voting on a comment -/

/-- C5: in the concrete run the store holds the top-level comment with identifier "" and the
reply with identifier "comment-3".  A vote by the registered user bob whose target is either
identifier, up or down, returns the store as it was: no tally of either comment and no karma
moves. -/
theorem upvote_comment_identifier_not_applied :
    demoReply.commentHeap.map (fun c => (c.ID, c.Upvotes, c.Downvotes))
      = [("", 0, 0), ("comment-3", 0, 0)] ∧
    Upvote demoReply demoReply.subreddits demoReply.subreddits "comment-3" true "bob"
      = some demoReply ∧
    Upvote demoReply demoReply.subreddits demoReply.subreddits "comment-3" false "bob"
      = some demoReply ∧
    Upvote demoReply demoReply.subreddits demoReply.subreddits "" true "bob"
      = some demoReply ∧
    Upvote demoReply demoReply.subreddits demoReply.subreddits "" false "bob"
      = some demoReply := by
  decide

/-! ## Replying to a reply -/

/-- C10: in the concrete run the reply "comment-3" hangs below the top-level comment of post
"7", and the tree search `findComment` reaches it from the post's comment list.  Yet
`ReplyToComment` with "comment-3" as parent returns nil and leaves the store as it was. -/
theorem replyToComment_nested_parent_fails :
    (demoReply.postHeap[0]?).map (fun p => (p.ID, p.Comments)) = some ("7", [0]) ∧
    (demoReply.commentHeap[0]?).map (fun c => c.Replies) = some [1] ∧
    (demoReply.commentHeap[1]?).map (fun c => c.ID) = some "comment-3" ∧
    findComment demoReply.commentHeap 2 [0] "comment-3" = some 1 ∧
    ReplyToComment demoReply demoReply.subreddits 4 101 "7" "comment-3" "bob" "deep"
      = (none, demoReply) := by
  decide

/-! ## The score of stored posts and comments (live server) -/

theorem mem_mapSet {V : Type} {m : GoMap V} {k : String} {v : V} {kv : String × V}
    (h : kv ∈ mapSet m k v) : kv = (k, v) ∨ kv ∈ m := by
  induction m with
  | nil =>
    simp [mapSet] at h
    exact Or.inl h
  | cons kv' m ih =>
    obtain ⟨k', v'⟩ := kv'
    by_cases hk : k' = k
    · simp [mapSet, hk] at h
      rcases h with h | h
      · exact Or.inl h
      · exact Or.inr (List.mem_cons_of_mem _ h)
    · simp [mapSet, hk] at h
      rcases h with h | h
      · exact Or.inr (h ▸ List.mem_cons_self _ _)
      · rcases ih h with h | h
        · exact Or.inl h
        · exact Or.inr (List.mem_cons_of_mem _ h)

theorem mem_mapModify {V : Type} {m : GoMap V} {k : String} {f : V → V} {kv : String × V}
    (h : kv ∈ mapModify m k f) : kv ∈ m ∨ ∃ v, (kv.1, v) ∈ m ∧ kv.2 = f v := by
  induction m with
  | nil => simp [mapModify] at h
  | cons kv' m ih =>
    obtain ⟨k', v'⟩ := kv'
    by_cases hk : k' = k
    · simp [mapModify, hk] at h
      rcases h with h | h
      · exact Or.inr ⟨v', by simp [h, hk], by simp [h]⟩
      · exact Or.inl (List.mem_cons_of_mem _ h)
    · simp [mapModify, hk] at h
      rcases h with h | h
      · exact Or.inl (h ▸ List.mem_cons_self _ _)
      · rcases ih h with h | ⟨v, hv, hf⟩
        · exact Or.inl (List.mem_cons_of_mem _ h)
        · exact Or.inr ⟨v, List.mem_cons_of_mem _ hv, hf⟩

theorem scoreConsistent_serve (s : Server) (req : Request) (h : ScoreConsistent s) :
    ScoreConsistent (serve s req) := by
  obtain ⟨hp, hc⟩ := h
  cases req with
  | createPost newID body xUser =>
    cases body with
    | none => exact ⟨hp, hc⟩
    | some b =>
      obtain ⟨title, content, subreddit⟩ := b
      refine ⟨?_, hc⟩
      intro kv hkv
      rcases mem_mapSet hkv with h | h
      · subst h
        simp
      · exact hp kv h
  | createComment postID body newID xUser =>
    cases postID with
    | none => exact ⟨hp, hc⟩
    | some postID =>
      cases body with
      | none => exact ⟨hp, hc⟩
      | some b =>
        obtain ⟨content, parentID⟩ := b
        have hc' : ∀ kv ∈ mapSet s.comments newID
            ({ ID := newID, Content := content, PostID := postID, ParentID := parentID,
               AuthorName := xUser, CreatedAt := 0, Score := 0, Upvotes := 0, Downvotes := 0,
               RepliesCount := 0 } : models.Comment),
            kv.2.Score = kv.2.Upvotes - kv.2.Downvotes := by
          intro kv hkv
          rcases mem_mapSet hkv with h | h
          · subst h
            simp
          · exact hc kv h
        cases hl : s.posts.lookup postID with
        | none =>
          simp only [serve, handleCreateComment, hl]
          exact ⟨hp, hc'⟩
        | some post =>
          simp only [serve, handleCreateComment, hl]
          refine ⟨?_, hc'⟩
          intro kv hkv
          rcases mem_mapModify hkv with h | ⟨v, hv, hf⟩
          · exact hp kv h
          · have := hp _ hv
            simp only at this
            rw [hf]
            exact this
  | votePost postID body username =>
    cases postID with
    | none => exact ⟨hp, hc⟩
    | some postID =>
      cases body with
      | none => exact ⟨hp, hc⟩
      | some isUpvote =>
        by_cases hu : username = ""
        · simp only [serve, handleVotePost, hu, beq_self_eq_true, if_true]
          exact ⟨hp, hc⟩
        · have hb : (username == "") = false := by simpa using hu
          cases hl : s.posts.lookup postID with
          | none =>
            simp only [serve, handleVotePost, hb, hl]
            exact ⟨hp, hc⟩
          | some post =>
            cases isUpvote
            all_goals
              simp only [serve, handleVotePost, hb, hl]
              refine ⟨?_, hc⟩
              intro kv hkv
              rcases mem_mapModify hkv with h | ⟨v, hv, hf⟩
              · exact hp kv h
              · have := hp _ hv
                simp only at this
                rw [hf]
                simp only
                omega
  | voteComment commentID body username =>
    cases commentID with
    | none => exact ⟨hp, hc⟩
    | some commentID =>
      cases body with
      | none => exact ⟨hp, hc⟩
      | some isUpvote =>
        by_cases hu : username = ""
        · simp only [serve, handleVoteComment, hu, beq_self_eq_true, if_true]
          exact ⟨hp, hc⟩
        · have hb : (username == "") = false := by simpa using hu
          cases hl : s.comments.lookup commentID with
          | none =>
            simp only [serve, handleVoteComment, hb, hl]
            exact ⟨hp, hc⟩
          | some c =>
            cases isUpvote
            all_goals
              simp only [serve, handleVoteComment, hb, hl]
              refine ⟨hp, ?_⟩
              intro kv hkv
              rcases mem_mapModify hkv with h | ⟨v, hv, hf⟩
              · exact hc kv h
              · have := hc _ hv
                simp only at this
                rw [hf]
                simp only
                omega

theorem scoreConsistent_serveAll (requests : List Request) (s : Server)
    (h : ScoreConsistent s) : ScoreConsistent (serveAll s requests) := by
  induction requests generalizing s with
  | nil => exact h
  | cons req requests ih => exact ih _ (scoreConsistent_serve s req h)

/-- C4: after any sequence of create-post, create-comment, vote-post and vote-comment requests
handled by a freshly started server, every post in the post table and every comment in the
comment table has `Score = Upvotes - Downvotes`. -/
theorem server_score_eq_upvotes_sub_downvotes (requests : List Request) :
    (∀ kv ∈ (serveAll NewServer requests).posts,
        kv.2.Score = kv.2.Upvotes - kv.2.Downvotes) ∧
    (∀ kv ∈ (serveAll NewServer requests).comments,
        kv.2.Score = kv.2.Upvotes - kv.2.Downvotes) :=
  scoreConsistent_serveAll requests NewServer
    ⟨fun _ h => absurd h (List.not_mem_nil _), fun _ h => absurd h (List.not_mem_nil _)⟩

/-! ## Creating posts and comments -/

theorem postInSubreddit_eq {e : Engine} (rnd : Nat) {s a : String} (content : String)
    {sub : Subreddit} {u : User}
    (hs : e.subreddits.lookup s = some sub) (hu : e.users.lookup a = some u) :
    PostInSubreddit e rnd s a content = (some e.postHeap.length,
      { e with
        postHeap := e.postHeap ++
          [{ ID := toString rnd, Author := some a, Subreddit := some s, Content := content,
             Timestamp := 0, Upvotes := 0, Downvotes := 0, Comments := [], IsRepost := false,
             OriginalPost := none }]
        subreddits := mapModify e.subreddits s
          (fun x => { x with Posts := x.Posts ++ [e.postHeap.length] })
        users := mapModify e.users a
          (fun x => { x with Posts := x.Posts ++ [e.postHeap.length] }) }) := by
  simp only [PostInSubreddit, hs, hu]

/-- C7: for an existing subreddit `s` and a registered user `a`, `PostInSubreddit` returns a
freshly allocated post with the given content, author `a`, subreddit `s` and zero tallies; all
older posts are untouched, and the post lists of `s` and of `a` are the old lists with the new
post appended at the end.  If `s` or `a` is unknown it returns nil and the store is unchanged. -/
theorem postInSubreddit_appends (e : Engine) (rnd : Nat) (s a content : String) :
    (∀ sub u, e.subreddits.lookup s = some sub → e.users.lookup a = some u →
      ∃ e' post, PostInSubreddit e rnd s a content = (some e.postHeap.length, e') ∧
        e.postHeap[e.postHeap.length]? = none ∧
        e'.postHeap = e.postHeap ++ [post] ∧
        e'.postHeap[e.postHeap.length]? = some post ∧
        post.Content = content ∧ post.Author = some a ∧ post.Subreddit = some s ∧
        post.Upvotes = 0 ∧ post.Downvotes = 0 ∧
        e'.subreddits.lookup s = some { sub with Posts := sub.Posts ++ [e.postHeap.length] } ∧
        e'.users.lookup a = some { u with Posts := u.Posts ++ [e.postHeap.length] }) ∧
    (e.subreddits.lookup s = none ∨ e.users.lookup a = none →
      PostInSubreddit e rnd s a content = (none, e)) := by
  constructor
  · intro sub u hs hu
    refine ⟨_, _, postInSubreddit_eq rnd content hs hu, ?_, rfl, ?_, rfl, rfl, rfl, rfl, rfl,
      ?_, ?_⟩
    · simp
    · simp
    · simp [lookup_mapModify_self, hs]
    · simp [lookup_mapModify_self, hu]
  · rintro (hs | hu)
    · cases hu : e.users.lookup a <;> simp [PostInSubreddit, hs, hu]
    · simp [PostInSubreddit, hu]

theorem postInSubreddit_appends_witness :
    (∃ e' post, PostInSubreddit demoSub 7 "golang" "alice" "hello" = (some 0, e') ∧
        demoSub.postHeap[0]? = none ∧
        e'.postHeap = demoSub.postHeap ++ [post] ∧
        e'.postHeap[0]? = some post ∧
        post.Content = "hello" ∧ post.Author = some "alice" ∧ post.Subreddit = some "golang" ∧
        post.Upvotes = 0 ∧ post.Downvotes = 0 ∧
        e'.subreddits.lookup "golang" = some
          { Name := "golang", Posts := [0], Members := [("alice", "alice"), ("bob", "bob")] } ∧
        e'.users.lookup "alice" = some
          { Username := "alice", Karma := 0, Posts := [0], Comments := [], Connected := false }) ∧
    PostInSubreddit demoSub 7 "rust" "alice" "hello" = (none, demoSub) :=
  ⟨(postInSubreddit_appends demoSub 7 "golang" "alice" "hello").1
      { Name := "golang", Posts := [], Members := [("alice", "alice"), ("bob", "bob")] }
      { Username := "alice", Karma := 0, Posts := [], Comments := [], Connected := false }
      (by decide) (by decide),
    (postInSubreddit_appends demoSub 7 "rust" "alice" "hello").2 (Or.inl (by decide))⟩

theorem firstPostWithID_of_only {heap : List Post} {posts : List PostRef} {id : String}
    {pr : PostRef} {p : Post} (hpr : pr ∈ posts) (hp : heap[pr]? = some p) (hid : p.ID = id)
    (honly : ∀ r ∈ posts, (heap[r]?).map (fun q => q.ID) = some id → r = pr) :
    firstPostWithID heap posts id = some (pr, p) := by
  cases hf : firstPostWithID heap posts id with
  | none => exact absurd hid (firstPostWithID_none.mp hf pr hpr p hp)
  | some found =>
    obtain ⟨r, q⟩ := found
    obtain ⟨hr, hq, hqid⟩ := firstPostWithID_some hf
    have hrp : r = pr := honly r hr (by simp [hq, hqid])
    subst hrp
    rw [hp] at hq
    cases hq
    rfl

theorem commentOnPost_eq {e : Engine} {s postID a : String} (content : String)
    {sub : Subreddit} {u : User} {pr : PostRef} {p : Post}
    (hu : e.users.lookup a = some u) (hs : e.subreddits.lookup s = some sub)
    (hfind : firstPostWithID e.postHeap sub.Posts postID = some (pr, p)) :
    CommentOnPost e s postID a content = (some e.commentHeap.length,
      { e with
        commentHeap := e.commentHeap ++
          [{ ID := "", Author := some a, Content := content, Timestamp := 0, Parent := some pr,
             ReplyTo := none, Replies := [], Upvotes := 0, Downvotes := 0 }]
        postHeap := e.postHeap.set pr { p with Comments := p.Comments ++ [e.commentHeap.length] }
        users := mapModify e.users a
          (fun x => { x with Comments := x.Comments ++ [e.commentHeap.length] }) }) := by
  simp only [CommentOnPost, hu, hs, hfind]

/-- C8: a registered user `a` comments on the post `p` of the existing subreddit `s` that
carries the identifier `postID`.  `CommentOnPost` returns a freshly allocated comment by `a`
with the given content and parent `p`; the comment list of `p` is the old list with that comment
appended (one element longer), no other field of `p` and no other post changes.  If the user,
the subreddit or the post is unknown, it returns nil and the store is unchanged. -/
theorem commentOnPost_appends (e : Engine) (s postID a content : String) :
    (∀ sub u pr p, e.users.lookup a = some u → e.subreddits.lookup s = some sub →
      pr ∈ sub.Posts → e.postHeap[pr]? = some p → p.ID = postID →
      (∀ r ∈ sub.Posts, (e.postHeap[r]?).map (fun q => q.ID) = some postID → r = pr) →
      ∃ e' comment, CommentOnPost e s postID a content = (some e.commentHeap.length, e') ∧
        e.commentHeap[e.commentHeap.length]? = none ∧
        e'.commentHeap = e.commentHeap ++ [comment] ∧
        e'.commentHeap[e.commentHeap.length]? = some comment ∧
        comment.Author = some a ∧ comment.Content = content ∧ comment.Parent = some pr ∧
        e'.postHeap[pr]? = some { p with Comments := p.Comments ++ [e.commentHeap.length] } ∧
        (∀ p', e'.postHeap[pr]? = some p' → p'.Comments.length = p.Comments.length + 1) ∧
        (∀ r, r ≠ pr → e'.postHeap[r]? = e.postHeap[r]?)) ∧
    (e.users.lookup a = none ∨ e.subreddits.lookup s = none ∨
        (∃ sub, e.subreddits.lookup s = some sub ∧
          ∀ r ∈ sub.Posts, (e.postHeap[r]?).map (fun q => q.ID) ≠ some postID) →
      CommentOnPost e s postID a content = (none, e)) := by
  constructor
  · intro sub u pr p hu hs hpr hp hid honly
    have hfind := firstPostWithID_of_only hpr hp hid honly
    have hlt : pr < e.postHeap.length := lt_length_of_lookup_some hp
    have hpost : (e.postHeap.set pr
        { p with Comments := p.Comments ++ [e.commentHeap.length] })[pr]?
          = some { p with Comments := p.Comments ++ [e.commentHeap.length] } := by
      simp [List.getElem?_set, hlt]
    refine ⟨_, _, commentOnPost_eq content hu hs hfind, ?_, rfl, ?_, rfl, rfl, rfl,
      hpost, ?_, ?_⟩
    · simp
    · simp
    · intro p' hp'
      simp only at hp'
      rw [hpost] at hp'
      cases hp'
      simp
    · intro r hr
      simp [List.getElem?_set, Ne.symm hr]
  · rintro (hu | hs | ⟨sub, hs, hno⟩)
    · simp [CommentOnPost, hu]
    · cases hu : e.users.lookup a <;> simp [CommentOnPost, hs, hu]
    · have hnone : firstPostWithID e.postHeap sub.Posts postID = none :=
        firstPostWithID_none.mpr (fun r hr p hp hid => hno r hr (by simp [hp, hid]))
      cases hu : e.users.lookup a <;> simp [CommentOnPost, hs, hu, hnone]

theorem commentOnPost_appends_witness :
    (∃ e' comment, CommentOnPost demoPost "golang" "7" "bob" "nice" = (some 0, e') ∧
        demoPost.commentHeap[0]? = none ∧
        e'.commentHeap = demoPost.commentHeap ++ [comment] ∧
        e'.commentHeap[0]? = some comment ∧
        comment.Author = some "bob" ∧ comment.Content = "nice" ∧ comment.Parent = some 0 ∧
        e'.postHeap[0]? = some
          { ID := "7", Author := some "alice", Subreddit := some "golang", Content := "hello",
            Timestamp := 0, Upvotes := 0, Downvotes := 0, Comments := [0], IsRepost := false,
            OriginalPost := none } ∧
        (∀ p', e'.postHeap[0]? = some p' → p'.Comments.length = 0 + 1) ∧
        (∀ r, r ≠ 0 → e'.postHeap[r]? = demoPost.postHeap[r]?)) ∧
    CommentOnPost demoPost "golang" "8" "bob" "nice" = (none, demoPost) :=
  ⟨(commentOnPost_appends demoPost "golang" "7" "bob" "nice").1
      { Name := "golang", Posts := [0], Members := [("alice", "alice"), ("bob", "bob")] }
      { Username := "bob", Karma := 0, Posts := [], Comments := [], Connected := false }
      0
      { ID := "7", Author := some "alice", Subreddit := some "golang", Content := "hello",
        Timestamp := 0, Upvotes := 0, Downvotes := 0, Comments := [], IsRepost := false,
        OriginalPost := none }
      (by decide) (by decide) (by decide) (by decide) (by decide) (by decide),
    (commentOnPost_appends demoPost "golang" "8" "bob" "nice").2
      (Or.inr (Or.inr ⟨{ Name := "golang", Posts := [0],
                         Members := [("alice", "alice"), ("bob", "bob")] },
        by decide, by decide⟩))⟩

/-! ## Heap lemmas and the parent link of top-level comments -/

theorem lookup_set_some {α : Type} {l : List α} {i j : Nat} {a x : α}
    (h : (l.set i a)[j]? = some x) : (j = i ∧ x = a) ∨ (j ≠ i ∧ l[j]? = some x) := by
  by_cases hij : i = j
  · subst hij
    left
    have hlt : i < (l.set i a).length := lt_length_of_lookup_some h
    rw [List.length_set] at hlt
    simp [List.getElem?_set, hlt] at h
    exact ⟨rfl, h.symm⟩
  · right
    simp [List.getElem?_set, hij] at h
    exact ⟨fun hh => hij hh.symm, h⟩

theorem lookup_append_singleton_some {α : Type} {l : List α} {j : Nat} {a x : α}
    (h : (l ++ [a])[j]? = some x) : l[j]? = some x ∨ (j = l.length ∧ x = a) := by
  rcases Nat.lt_or_ge j l.length with hlt | hge
  · left
    rwa [List.getElem?_append_left hlt] at h
  · right
    rw [List.getElem?_append_right hge] at h
    have hj : j - l.length = 0 := by
      rcases Nat.eq_zero_or_pos (j - l.length) with h0 | hpos
      · exact h0
      · cases hk : j - l.length with
        | zero => rfl
        | succ k => simp [hk] at h
    rw [hj] at h
    simp at h
    exact ⟨by omega, h.symm⟩

theorem lookup_append_of_some {α : Type} {l : List α} {j : Nat} {x : α} (a : List α)
    (h : l[j]? = some x) : (l ++ a)[j]? = some x := by
  rw [List.getElem?_append_left (lt_length_of_lookup_some h)]
  exact h

theorem parentLinked_of_heaps_eq {e e' : Engine} (h : ParentLinked e)
    (hp : e'.postHeap = e.postHeap) (hc : e'.commentHeap = e.commentHeap) : ParentLinked e' := by
  intro pr p hpr cr hcr
  rw [hp] at hpr
  rw [hc]
  exact h pr p hpr cr hcr

theorem parentLinked_append_post {e e' : Engine} (h : ParentLinked e) {post : Post}
    (hp : e'.postHeap = e.postHeap ++ [post]) (hc : e'.commentHeap = e.commentHeap)
    (hcs : post.Comments = []) :
    ParentLinked e' := by
  intro pr p hpr cr hcr
  rw [hp] at hpr
  rw [hc]
  rcases lookup_append_singleton_some hpr with hold | ⟨-, hnew⟩
  · exact h pr p hold cr hcr
  · subst hnew
    rw [hcs] at hcr
    cases hcr

theorem parentLinked_set_post {e e' : Engine} (h : ParentLinked e) {pr₀ : PostRef}
    {post post' : Post} (h₀ : e.postHeap[pr₀]? = some post)
    (hp : e'.postHeap = e.postHeap.set pr₀ post') (hc : e'.commentHeap = e.commentHeap)
    (hcs : post'.Comments = post.Comments) :
    ParentLinked e' := by
  intro pr p hpr cr hcr
  rw [hp] at hpr
  rw [hc]
  rcases lookup_set_some hpr with ⟨hj, hx⟩ | ⟨-, hold⟩
  · subst hj; subst hx
    rw [hcs] at hcr
    exact h pr post h₀ cr hcr
  · exact h pr p hold cr hcr

theorem parentLinked_comment {e e' : Engine} (h : ParentLinked e) {pr₀ : PostRef}
    {post : Post} {comment : Comment} (h₀ : e.postHeap[pr₀]? = some post)
    (hp : e'.postHeap = e.postHeap.set pr₀
      { post with Comments := post.Comments ++ [e.commentHeap.length] })
    (hc : e'.commentHeap = e.commentHeap ++ [comment])
    (hparent : comment.Parent = some pr₀) :
    ParentLinked e' := by
  intro pr p hpr cr hcr
  rw [hp] at hpr
  rw [hc]
  rcases lookup_set_some hpr with ⟨hj, hx⟩ | ⟨-, hold⟩
  · subst hj; subst hx
    simp only [List.mem_append, List.mem_singleton] at hcr
    rcases hcr with hcr | hcr
    · obtain ⟨c, hc1, hc2⟩ := h pr post h₀ cr hcr
      exact ⟨c, lookup_append_of_some _ hc1, hc2⟩
    · subst hcr
      exact ⟨comment, by simp, hparent⟩
  · obtain ⟨c, hc1, hc2⟩ := h pr p hold cr hcr
    exact ⟨c, lookup_append_of_some _ hc1, hc2⟩

theorem parentLinked_reply {e e' : Engine} (h : ParentLinked e) {cr₀ : CommentRef}
    {parent parent' reply : Comment} (h₀ : e.commentHeap[cr₀]? = some parent)
    (hp : e'.postHeap = e.postHeap)
    (hc : e'.commentHeap = e.commentHeap.set cr₀ parent' ++ [reply])
    (hparent : parent'.Parent = parent.Parent) :
    ParentLinked e' := by
  intro pr p hpr cr hcr
  rw [hp] at hpr
  rw [hc]
  obtain ⟨c, hc1, hc2⟩ := h pr p hpr cr hcr
  by_cases hcc : cr = cr₀
  · subst hcc
    rw [h₀] at hc1
    cases hc1
    refine ⟨parent', lookup_append_of_some _ ?_, by rw [hparent]; exact hc2⟩
    simp [List.getElem?_set, lt_length_of_lookup_some h₀]
  · refine ⟨c, lookup_append_of_some _ ?_, hc2⟩
    simp [List.getElem?_set, Ne.symm hcc, hc1]

/-! ## The comment branch of `Upvote` -/

theorem firstCommentOnPostID_of_linked {e : Engine} {id : String} {pr : PostRef} {p : Post}
    (cs : List CommentRef) (hp : e.postHeap[pr]? = some p) (hid : p.ID ≠ id)
    (hcs : ∀ cr ∈ cs, ∃ c, e.commentHeap[cr]? = some c ∧ c.Parent = some pr) :
    firstCommentOnPostID e id cs = some none := by
  induction cs with
  | nil => rfl
  | cons cr cs ih =>
    obtain ⟨c, hc1, hc2⟩ := hcs cr (List.mem_cons_self _ _)
    have ih' := ih (fun x hx => hcs x (List.mem_cons_of_mem _ hx))
    simp [firstCommentOnPostID, hc1, hc2, hp, hid, ih']

theorem findVotedComment_inner {e : Engine} {id : String} (hl : ParentLinked e)
    (posts : List PostRef) (acc : Option (CommentRef × Comment))
    (hno : ∀ r ∈ posts, ∀ p, e.postHeap[r]? = some p → p.ID ≠ id) :
    posts.foldl (fun acc pr =>
      match acc with
      | none => none
      | some comment =>
        match e.postHeap[pr]? with
        | none => some comment
        | some p =>
          match firstCommentOnPostID e id p.Comments with
          | none => none
          | some (some found) => some (some found)
          | some none => some comment) (some acc) = some acc := by
  induction posts with
  | nil => rfl
  | cons pr posts ih =>
    have ih' := ih (fun x hx => hno x (List.mem_cons_of_mem _ hx))
    rw [List.foldl_cons]
    cases hp : e.postHeap[pr]? with
    | none => simpa [hp] using ih'
    | some p =>
      have hscan := firstCommentOnPostID_of_linked p.Comments hp
        (hno pr (List.mem_cons_self _ _) p hp) (hl pr p hp)
      simpa [hp, hscan] using ih'

/-- When no listed post carries the identifier, the comment loops of `Upvote` find nothing:
every top-level comment they inspect has a listed post as parent. -/
theorem findVotedComment_of_no_post {e : Engine} {id : String} (hl : ParentLinked e)
    (iter : GoMap Subreddit)
    (hno : ∀ kv ∈ iter, ∀ r ∈ kv.2.Posts, ∀ p, e.postHeap[r]? = some p → p.ID ≠ id) :
    findVotedComment e iter id = some none := by
  unfold findVotedComment
  generalize (none : Option (CommentRef × Comment)) = acc
  induction iter with
  | nil => rfl
  | cons kv iter ih =>
    rw [List.foldl_cons, findVotedComment_inner hl kv.2.Posts acc (hno kv (List.mem_cons_self _ _))]
    exact ih (fun x hx => hno x (List.mem_cons_of_mem _ hx))

theorem upvote_of_no_post {e : Engine} {iter iter2 : GoMap Subreddit} (hl : ParentLinked e)
    (hperm : iter.Perm e.subreddits) (hperm2 : iter2.Perm e.subreddits)
    (id : String) (b : Bool) (v : String)
    (hno : ∀ kv ∈ e.subreddits, ∀ r ∈ kv.2.Posts, ∀ p, e.postHeap[r]? = some p → p.ID ≠ id) :
    Upvote e iter iter2 id b v = some e := by
  have h1 : findPost e.postHeap iter id = none :=
    findPost_none.mpr (fun kv hkv => hno kv (hperm.mem_iff.mp hkv))
  have h2 : findVotedComment e iter2 id = some none :=
    findVotedComment_of_no_post hl iter2 (fun kv hkv => hno kv (hperm2.mem_iff.mp hkv))
  cases hv : e.users.lookup v <;> simp [Upvote, hv, h1, h2]

theorem upvote_of_unregistered (e : Engine) (iter iter2 : GoMap Subreddit) (id : String)
    (b : Bool) {v : String} (hv : e.users.lookup v = none) :
    Upvote e iter iter2 id b v = some e := by
  simp [Upvote, hv]

theorem parentLinked_upvote {e e' : Engine} {iter iter2 : GoMap Subreddit} {id : String}
    {b : Bool} {v : String} (hl : ParentLinked e)
    (hperm : iter.Perm e.subreddits) (hperm2 : iter2.Perm e.subreddits)
    (h : Upvote e iter iter2 id b v = some e') : ParentLinked e' := by
  cases hv : e.users.lookup v with
  | none =>
    rw [upvote_of_unregistered e iter iter2 id b hv] at h
    cases h
    exact hl
  | some vu =>
    cases hf : findPost e.postHeap iter id with
    | none =>
      have hno := findPost_none.mp hf
      rw [upvote_of_no_post hl hperm hperm2 id b v
        (fun kv hkv => hno kv (hperm.mem_iff.mpr hkv))] at h
      cases h
      exact hl
    | some found =>
      obtain ⟨pr, post⟩ := found
      obtain ⟨-, -, -, hpost, -⟩ := findPost_some hf
      cases ha : post.Author with
      | none => cases b <;> simp [Upvote, hv, hf, ha, karmaThrough] at h
      | some a =>
        cases b
        · rw [upvote_post_down iter2 hv hf ha] at h
          cases h
          exact parentLinked_set_post hl hpost rfl rfl rfl
        · rw [upvote_post_up iter2 hv hf ha] at h
          cases h
          exact parentLinked_set_post hl hpost rfl rfl rfl

/-! ## The parent lookup of `ReplyToComment` -/

theorem firstCommentWithID_some {heap : List Comment} {comments : List CommentRef}
    {id : String} {r : CommentRef} {c : Comment}
    (h : firstCommentWithID heap comments id = some (r, c)) :
    r ∈ comments ∧ heap[r]? = some c ∧ c.ID = id := by
  unfold firstCommentWithID at h
  obtain ⟨r', hr', hq⟩ := List.exists_of_findSome?_eq_some h
  cases hh : heap[r']? with
  | none => simp [hh] at hq
  | some q =>
    simp only [hh] at hq
    by_cases hid : q.ID = id
    · simp [hid] at hq
      obtain ⟨h1, h2⟩ := hq
      subst h1; subst h2
      exact ⟨hr', hh, hid⟩
    · simp [hid] at hq

theorem findParent_foldl {e : Engine} {postID cid : String} (iter : GoMap Subreddit)
    (acc : Option (PostRef × Post) × Option (CommentRef × Comment))
    {pr : PostRef} {post : Post} {cr : CommentRef} {c : Comment}
    (hacc : ∀ x, acc.2 = some x → acc.1 ≠ none ∧ e.commentHeap[x.1]? = some x.2 ∧ x.2.ID = cid)
    (h : iter.foldl (fun acc kv =>
      match firstPostWithID e.postHeap kv.2.Posts postID with
      | none => acc
      | some (pr, post) =>
        (some (pr, post),
          match firstCommentWithID e.commentHeap post.Comments cid with
          | some found => some found
          | none => acc.2)) acc = (some (pr, post), some (cr, c))) :
    e.commentHeap[cr]? = some c ∧ c.ID = cid := by
  induction iter generalizing acc with
  | nil =>
    simp only [List.foldl_nil] at h
    have := hacc (cr, c) (by rw [h])
    exact this.2
  | cons kv iter ih =>
    rw [List.foldl_cons] at h
    refine ih _ ?_ h
    intro x hx
    cases hf : firstPostWithID e.postHeap kv.2.Posts postID with
    | none =>
      rw [hf] at hx
      exact hacc x hx
    | some found =>
      obtain ⟨pr', post'⟩ := found
      rw [hf] at hx
      simp only at hx
      cases hc : firstCommentWithID e.commentHeap post'.Comments cid with
      | none =>
        rw [hc] at hx
        simp only at hx
        have := hacc x hx
        simp only [hf]
        exact ⟨by simp, this.2⟩
      | some found' =>
        rw [hc] at hx
        simp only [Option.some.injEq] at hx
        subst hx
        obtain ⟨-, h1, h2⟩ := firstCommentWithID_some hc
        simp only [hf]
        exact ⟨by simp, h1, h2⟩

theorem findParent_some {e : Engine} {iter : GoMap Subreddit} {postID cid : String}
    {pr : PostRef} {post : Post} {cr : CommentRef} {c : Comment}
    (h : findParent e iter postID cid = (some (pr, post), some (cr, c))) :
    e.commentHeap[cr]? = some c ∧ c.ID = cid :=
  findParent_foldl iter (none, none) (fun x hx => by cases hx) h

/-- The two outcomes of `ReplyToComment`: nil with the store unchanged, or a reply allocated at
the end of the comment heap and appended to the reply list of a comment that carries the
parent identifier. -/
theorem replyToComment_cases (e : Engine) (iter : GoMap Subreddit) (rnd now : Nat)
    (postID cid username content : String) :
    ReplyToComment e iter rnd now postID cid username content = (none, e) ∨
    ∃ pr cr parent, e.commentHeap[cr]? = some parent ∧ parent.ID = cid ∧
      ReplyToComment e iter rnd now postID cid username content =
        (some e.commentHeap.length,
          { e with
            commentHeap :=
              e.commentHeap.set cr
                  { parent with Replies := parent.Replies ++ [e.commentHeap.length] }
                ++ [{ ID := "comment-" ++ toString rnd, Author := some username,
                      Content := content, Timestamp := now, Parent := some pr,
                      ReplyTo := some cr, Replies := [], Upvotes := 0, Downvotes := 0 }]
            users := mapModify e.users username
              (fun u => { u with Comments := u.Comments ++ [e.commentHeap.length] }) }) := by
  cases hu : e.users.lookup username with
  | none => left; simp [ReplyToComment, hu]
  | some u =>
    rcases hf : findParent e iter postID cid with ⟨_ | ⟨pr, post⟩, _ | ⟨cr, parent⟩⟩
    · left; simp [ReplyToComment, hu, hf]
    · left; simp [ReplyToComment, hu, hf]
    · left; simp [ReplyToComment, hu, hf]
    · right
      obtain ⟨h1, h2⟩ := findParent_some hf
      exact ⟨pr, cr, parent, h1, h2, by simp only [ReplyToComment, hu, hf]⟩

/-! ## Reachable stores keep the parent link -/

theorem parentLinked_postInSubreddit {e : Engine} (hl : ParentLinked e) (rnd : Nat)
    (s a content : String) : ParentLinked (PostInSubreddit e rnd s a content).2 := by
  cases hu : e.users.lookup a with
  | none => simpa [PostInSubreddit, hu] using hl
  | some u =>
    cases hs : e.subreddits.lookup s with
    | none => simpa [PostInSubreddit, hu, hs] using hl
    | some sub =>
      rw [postInSubreddit_eq rnd content hs hu]
      exact parentLinked_append_post hl rfl rfl rfl

theorem parentLinked_commentOnPost {e : Engine} (hl : ParentLinked e)
    (s postID a content : String) : ParentLinked (CommentOnPost e s postID a content).2 := by
  cases hu : e.users.lookup a with
  | none => simpa [CommentOnPost, hu] using hl
  | some u =>
    cases hs : e.subreddits.lookup s with
    | none => simpa [CommentOnPost, hu, hs] using hl
    | some sub =>
      cases hf : firstPostWithID e.postHeap sub.Posts postID with
      | none => simpa [CommentOnPost, hu, hs, hf] using hl
      | some found =>
        obtain ⟨pr, p⟩ := found
        rw [commentOnPost_eq content hu hs hf]
        exact parentLinked_comment hl (firstPostWithID_some hf).2.1 rfl rfl rfl

theorem parentLinked_replyToComment {e : Engine} (hl : ParentLinked e)
    (iter : GoMap Subreddit) (rnd now : Nat) (postID cid username content : String) :
    ParentLinked (ReplyToComment e iter rnd now postID cid username content).2 := by
  rcases replyToComment_cases e iter rnd now postID cid username content with
    h | ⟨pr, cr, parent, h1, -, h⟩
  · rw [h]
    exact hl
  · rw [h]
    exact parentLinked_reply hl h1 rfl rfl rfl

theorem parentLinked_repost {e e' : Engine} (hl : ParentLinked e)
    {iter : GoMap Subreddit} {rnd now : Nat} {originalPostID username subredditName : String}
    {r : Option PostRef}
    (h : Repost e iter rnd now originalPostID username subredditName = some (r, e')) :
    ParentLinked e' := by
  unfold Repost at h
  cases hf : findPost e.postHeap iter originalPostID with
  | none =>
    simp only [hf, Option.some.injEq, Prod.mk.injEq] at h
    rw [← h.2]
    exact hl
  | some found =>
    obtain ⟨o, originalPost⟩ := found
    cases hs : e.subreddits.lookup subredditName with
    | none => simp [hf, hs] at h
    | some sub =>
      cases hu : e.users.lookup username with
      | none => simp [hf, hs, hu] at h
      | some u =>
        simp only [hf, hs, hu, Option.some.injEq, Prod.mk.injEq] at h
        rw [← h.2]
        exact parentLinked_append_post hl rfl rfl rfl

/-- In every reachable store each top-level comment of a post has that post as `Parent`. -/
theorem reachable_parentLinked {e : Engine} (h : Reachable e) : ParentLinked e := by
  induction h with
  | init =>
    intro pr p hp
    simp [NewEngine] at hp
  | registerAccount username _ ih =>
    refine parentLinked_of_heaps_eq ih ?_ ?_ <;>
      (unfold RegisterAccount; split <;> rfl)
  | createSubreddit name _ ih =>
    refine parentLinked_of_heaps_eq ih ?_ ?_ <;>
      (unfold CreateSubreddit; split <;> rfl)
  | joinSubreddit username subredditName _ ih =>
    refine parentLinked_of_heaps_eq ih ?_ ?_ <;>
      (unfold JoinSubreddit; repeat' split) <;> rfl
  | leaveSubreddit username subredditName _ ih =>
    refine parentLinked_of_heaps_eq ih ?_ ?_ <;>
      (unfold LeaveSubreddit; split <;> rfl)
  | setUserConnection username connected _ ih =>
    refine parentLinked_of_heaps_eq ih ?_ ?_ <;>
      (unfold SetUserConnection; split <;> rfl)
  | postInSubreddit rnd subredditName username content _ ih =>
    exact parentLinked_postInSubreddit ih rnd subredditName username content
  | commentOnPost subredditName postID username content _ ih =>
    exact parentLinked_commentOnPost ih subredditName postID username content
  | replyToComment iter rnd now postID parentCommentID username content _ _ ih =>
    exact parentLinked_replyToComment ih iter rnd now postID parentCommentID username content
  | repost iter rnd now originalPostID username subredditName r _ _ hres ih =>
    exact parentLinked_repost ih hres
  | upvote iter iter2 postID upvote username _ hperm hperm2 hres ih =>
    exact parentLinked_upvote ih hperm hperm2 hres
  | sendDirectMessage fromUsername toUsername content _ ih =>
    refine parentLinked_of_heaps_eq ih ?_ ?_ <;>
      (unfold SendDirectMessage; repeat' split) <;> rfl
  | replyToDirectMessage iter rnd now messageID fromUsername content _ _ ih =>
    refine parentLinked_of_heaps_eq ih ?_ ?_ <;>
      (unfold ReplyToDirectMessage; repeat' split) <;> rfl

/-- C6: in every reachable store, for every visiting order of the map, a call of `Upvote` by
a username that is not registered, or with a target identifier carried by no listed post and
by no comment, returns normally with the store exactly as it was: no tally and no karma
differs. -/
theorem upvote_unknown_voter_or_target_unchanged (e : Engine) (iter iter2 : GoMap Subreddit)
    (target : String) (upvote : Bool) (username : String)
    (hreach : Reachable e)
    (hperm : iter.Perm e.subreddits) (hperm2 : iter2.Perm e.subreddits)
    (hunknown : e.users.lookup username = none ∨
      ((∀ kv ∈ e.subreddits, ∀ r ∈ kv.2.Posts,
          (e.postHeap[r]?).map (fun p => p.ID) ≠ some target) ∧
        (∀ c ∈ e.commentHeap, c.ID ≠ target))) :
    Upvote e iter iter2 target upvote username = some e := by
  rcases hunknown with hv | ⟨hpost, -⟩
  · exact upvote_of_unregistered e iter iter2 target upvote hv
  · exact upvote_of_no_post (reachable_parentLinked hreach) hperm hperm2 target upvote username
      (fun kv hkv r hr p hp hid => hpost kv hkv r hr (by simp [hp, hid]))

theorem reachable_demoComment : Reachable demoComment :=
  Reachable.commentOnPost "golang" "7" "bob" "nice"
    (Reachable.postInSubreddit 7 "golang" "alice" "hello"
      (Reachable.joinSubreddit "bob" "golang"
        (Reachable.joinSubreddit "alice" "golang"
          (Reachable.createSubreddit "golang"
            (Reachable.registerAccount "bob"
              (Reachable.registerAccount "alice" Reachable.init))))))

theorem reachable_demoReply : Reachable demoReply :=
  Reachable.replyToComment demoComment.subreddits 3 100 "7" "" "alice" "thanks"
    reachable_demoComment (List.Perm.refl _)

theorem upvote_unknown_voter_or_target_unchanged_witness :
    Upvote demoReply demoReply.subreddits demoReply.subreddits "42" true "bob"
      = some demoReply :=
  upvote_unknown_voter_or_target_unchanged demoReply demoReply.subreddits demoReply.subreddits
    "42" true "bob" reachable_demoReply (List.Perm.refl _) (List.Perm.refl _)
    (Or.inr ⟨by decide, by decide⟩)

/-- In a reachable store no call of `Upvote` changes any comment: the comment heap after the
call is the comment heap before it. -/
theorem upvote_commentHeap_unchanged {e e' : Engine} {iter iter2 : GoMap Subreddit}
    {target : String} {upvote : Bool} {username : String} (hreach : Reachable e)
    (hperm : iter.Perm e.subreddits) (hperm2 : iter2.Perm e.subreddits)
    (h : Upvote e iter iter2 target upvote username = some e') :
    e'.commentHeap = e.commentHeap := by
  cases hv : e.users.lookup username with
  | none =>
    rw [upvote_of_unregistered e iter iter2 target upvote hv] at h
    cases h
    rfl
  | some vu =>
    cases hf : findPost e.postHeap iter target with
    | none =>
      have hno := findPost_none.mp hf
      rw [upvote_of_no_post (reachable_parentLinked hreach) hperm hperm2 target upvote username
        (fun kv hkv => hno kv (hperm.mem_iff.mpr hkv))] at h
      cases h
      rfl
    | some found =>
      obtain ⟨pr, post⟩ := found
      cases ha : post.Author with
      | none => cases upvote <;> simp [Upvote, hv, hf, ha, karmaThrough] at h
      | some a =>
        cases upvote
        · rw [upvote_post_down iter2 hv hf ha] at h
          cases h
          rfl
        · rw [upvote_post_up iter2 hv hf ha] at h
          cases h
          rfl

/-! ## Replies -/

/-- Whenever `ReplyToComment` returns a reply `r` (on a reachable store, for any visiting
order), `r` is a freshly allocated comment whose `ReplyTo` is a comment `c` carrying the parent
identifier (it is the comment with that identifier whenever only one comment carries it); the
reply list of `c` afterwards is the old one with `r` appended, so `r` is its last element; the
post heap, hence every top-level comment list, is exactly what it was, and `r` occurs in no
post's top-level comment list. -/
theorem replyToComment_reply_last_not_top_level (e : Engine) (iter : GoMap Subreddit)
    (rnd now : Nat) (postID cid username content : String) (r : CommentRef) (e' : Engine)
    (hreach : Reachable e)
    (h : ReplyToComment e iter rnd now postID cid username content = (some r, e')) :
    ∃ cr parent reply, e.commentHeap[cr]? = some parent ∧ parent.ID = cid ∧
      (∀ c₀, OnlyCommentWithID e cid c₀ → cr = c₀) ∧
      e.commentHeap[r]? = none ∧
      e'.commentHeap[r]? = some reply ∧ reply.ReplyTo = some cr ∧
      e'.commentHeap[cr]? = some { parent with Replies := parent.Replies ++ [r] } ∧
      (∀ c', e'.commentHeap[cr]? = some c' → c'.Replies.getLast? = some r) ∧
      e'.postHeap = e.postHeap ∧
      ∀ (pr : PostRef) (p : Post), e'.postHeap[pr]? = some p → r ∉ p.Comments := by
  rcases replyToComment_cases e iter rnd now postID cid username content with
    h0 | ⟨pr, cr, parent, h1, h2, h3⟩
  · rw [h0] at h
    cases h
  · rw [h3] at h
    cases h
    have hlt : cr < e.commentHeap.length := lt_length_of_lookup_some h1
    have hcr : (e.commentHeap.set cr
          { parent with Replies := parent.Replies ++ [e.commentHeap.length] } ++
        [{ ID := "comment-" ++ toString rnd, Author := some username, Content := content,
           Timestamp := now, Parent := some pr, ReplyTo := some cr, Replies := [],
           Upvotes := 0, Downvotes := 0 }])[cr]?
        = some { parent with Replies := parent.Replies ++ [e.commentHeap.length] } := by
      apply lookup_append_of_some
      simp [List.getElem?_set, hlt]
    refine ⟨cr, parent,
      { ID := "comment-" ++ toString rnd, Author := some username, Content := content,
        Timestamp := now, Parent := some pr, ReplyTo := some cr, Replies := [],
        Upvotes := 0, Downvotes := 0 },
      h1, h2, fun c₀ h₀ => h₀ cr parent h1 h2, by simp, ?_, rfl, hcr, ?_, rfl, ?_⟩
    · simp
    · intro c' hc'
      simp only at hc'
      rw [hcr] at hc'
      cases hc'
      simp
    · intro pr' p hp hmem
      obtain ⟨c, hc, -⟩ := reachable_parentLinked hreach pr' p hp _ hmem
      exact absurd (lt_length_of_lookup_some hc) (Nat.lt_irrefl _)

theorem replyToComment_reply_last_not_top_level_witness :
    ∃ cr parent reply, demoComment.commentHeap[cr]? = some parent ∧ parent.ID = "" ∧
      (∀ c₀, OnlyCommentWithID demoComment "" c₀ → cr = c₀) ∧
      demoComment.commentHeap[1]? = none ∧
      demoReply.commentHeap[1]? = some reply ∧ reply.ReplyTo = some cr ∧
      demoReply.commentHeap[cr]? = some { parent with Replies := parent.Replies ++ [1] } ∧
      (∀ c', demoReply.commentHeap[cr]? = some c' → c'.Replies.getLast? = some 1) ∧
      demoReply.postHeap = demoComment.postHeap ∧
      ∀ (pr : PostRef) (p : Post), demoReply.postHeap[pr]? = some p → 1 ∉ p.Comments :=
  replyToComment_reply_last_not_top_level demoComment demoComment.subreddits 3 100 "7" ""
    "alice" "thanks" 1 demoReply reachable_demoComment (by decide)

/-- C9: in the store where bob ("nice", place 0) and alice ("again", place 1) have each
commented on post "7" with `CommentOnPost`, both comments carry the identifier "".  The reply
"re" of bob to alice's comment, named by its identifier, succeeds (the reply is allocated at
place 2), but its `ReplyTo` is bob's comment and it is appended to the reply list of bob's
comment; the reply list of alice's comment stays empty.  The top-level comment list of the
post is unchanged. -/
theorem replyToComment_reply_lands_under_first_comment :
    Reachable demoTwoComments ∧
    demoTwoComments.commentHeap.map (fun c => (c.ID, c.Author, c.Content, c.Replies))
      = [("", some "bob", "nice", []), ("", some "alice", "again", [])] ∧
    (demoTwoComments.commentHeap[1]?).map (fun c => c.ID) = some "" ∧
    (ReplyToComment demoTwoComments demoTwoComments.subreddits 5 100 "7" "" "bob" "re").1
      = some 2 ∧
    (ReplyToComment demoTwoComments demoTwoComments.subreddits 5 100 "7" "" "bob"
        "re").2.commentHeap.map (fun c => (c.Content, c.ReplyTo, c.Replies))
      = [("nice", none, [2]), ("again", none, []), ("re", some 0, [])] ∧
    (ReplyToComment demoTwoComments demoTwoComments.subreddits 5 100 "7" "" "bob"
        "re").2.postHeap.map (fun p => (p.ID, p.Comments))
      = [("7", [0, 1])] :=
  ⟨Reachable.commentOnPost "golang" "7" "alice" "again"
      (Reachable.commentOnPost "golang" "7" "bob" "nice"
        (Reachable.postInSubreddit 7 "golang" "alice" "hello"
          (Reachable.joinSubreddit "bob" "golang"
            (Reachable.joinSubreddit "alice" "golang"
              (Reachable.createSubreddit "golang"
                (Reachable.registerAccount "bob"
                  (Reachable.registerAccount "alice" Reachable.init))))))),
    by decide, by decide, by decide, by decide, by decide⟩

/-! ## Reposts -/

theorem repost_eq {e : Engine} {iter : GoMap Subreddit} (rnd now : Nat)
    {originalPostID u s : String} {o : PostRef} {op : Post} {sub : Subreddit} {uo : User}
    (hfind : findPost e.postHeap iter originalPostID = some (o, op))
    (hs : e.subreddits.lookup s = some sub) (hu : e.users.lookup u = some uo) :
    Repost e iter rnd now originalPostID u s = some (some e.postHeap.length,
      { e with
        postHeap := e.postHeap ++
          [{ ID := "post-" ++ toString rnd, Author := some u, Content := op.Content,
             Subreddit := some s, Timestamp := now, Upvotes := 0, Downvotes := 0,
             Comments := [], IsRepost := true, OriginalPost := some o }]
        subreddits := mapModify e.subreddits s
          (fun x => { x with Posts := x.Posts ++ [e.postHeap.length] })
        users := mapModify e.users u
          (fun x => { x with Posts := x.Posts ++ [e.postHeap.length] }) }) := by
  simp only [Repost, hfind, hs, hu]

/-- C11: for a listed post `o` (the only one carrying its identifier), a registered user `u`
and an existing subreddit `s`, `Repost` returns a freshly allocated post whose content is the
content of `o`, whose repost flag is set and whose original-post reference is `o`; it is
appended at the end of the post list of `s` and of `u`; the post `o` itself and every comment
are unchanged. -/
theorem repost_appends_copy (e : Engine) (iter : GoMap Subreddit) (rnd now : Nat)
    (u s : String) (uo : User) (sub : Subreddit) (kv : String × Subreddit) (o : PostRef)
    (op : Post)
    (hperm : iter.Perm e.subreddits)
    (hkv : kv ∈ e.subreddits) (ho : o ∈ kv.2.Posts) (hop : e.postHeap[o]? = some op)
    (honly : OnlyPostWithID e op.ID o)
    (hu : e.users.lookup u = some uo) (hs : e.subreddits.lookup s = some sub) :
    ∃ e' repost, Repost e iter rnd now op.ID u s = some (some e.postHeap.length, e') ∧
      e.postHeap[e.postHeap.length]? = none ∧
      e'.postHeap[e.postHeap.length]? = some repost ∧
      repost.Content = op.Content ∧ repost.IsRepost = true ∧ repost.OriginalPost = some o ∧
      repost.Author = some u ∧ repost.Subreddit = some s ∧
      e'.subreddits.lookup s = some { sub with Posts := sub.Posts ++ [e.postHeap.length] } ∧
      e'.users.lookup u = some { uo with Posts := uo.Posts ++ [e.postHeap.length] } ∧
      e'.postHeap[o]? = some op ∧
      e'.commentHeap = e.commentHeap := by
  have hfind := findPost_of_only hperm hkv ho hop honly
  refine ⟨_,
    { ID := "post-" ++ toString rnd, Author := some u, Content := op.Content,
      Subreddit := some s, Timestamp := now, Upvotes := 0, Downvotes := 0,
      Comments := [], IsRepost := true, OriginalPost := some o },
    repost_eq rnd now hfind hs hu, by simp, by simp, rfl, rfl, rfl, rfl, rfl,
    ?_, ?_, ?_, rfl⟩
  · simp [lookup_mapModify_self, hs]
  · simp [lookup_mapModify_self, hu]
  · exact lookup_append_of_some _ hop

theorem repost_appends_copy_witness :
    ∃ e' repost, Repost demoPost demoPost.subreddits 9 100 "7" "bob" "golang"
        = some (some 1, e') ∧
      demoPost.postHeap[1]? = none ∧
      e'.postHeap[1]? = some repost ∧
      repost.Content = "hello" ∧ repost.IsRepost = true ∧ repost.OriginalPost = some 0 ∧
      repost.Author = some "bob" ∧ repost.Subreddit = some "golang" ∧
      e'.subreddits.lookup "golang" = some
        { Name := "golang", Posts := [0, 1], Members := [("alice", "alice"), ("bob", "bob")] } ∧
      e'.users.lookup "bob" = some
        { Username := "bob", Karma := 0, Posts := [1], Comments := [], Connected := false } ∧
      e'.postHeap[0]? = some
        { ID := "7", Author := some "alice", Subreddit := some "golang", Content := "hello",
          Timestamp := 0, Upvotes := 0, Downvotes := 0, Comments := [], IsRepost := false,
          OriginalPost := none } ∧
      e'.commentHeap = demoPost.commentHeap :=
  repost_appends_copy demoPost demoPost.subreddits 9 100 "bob" "golang"
    { Username := "bob", Karma := 0, Posts := [], Comments := [], Connected := false }
    { Name := "golang", Posts := [0], Members := [("alice", "alice"), ("bob", "bob")] }
    ("golang", { Name := "golang", Posts := [0], Members := [("alice", "alice"), ("bob", "bob")] })
    0
    { ID := "7", Author := some "alice", Subreddit := some "golang", Content := "hello",
      Timestamp := 0, Upvotes := 0, Downvotes := 0, Comments := [], IsRepost := false,
      OriginalPost := none }
    (List.Perm.refl _) (by decide) (by decide) (by decide) (by decide) (by decide) (by decide)

/-- C12: in the concrete run post "7" exists, bob is registered, "golang" exists, and neither
the subreddit "rust" nor the user "carol" exists.  `Repost` of "7" into "rust", and `Repost` of
"7" by "carol", end in a nil dereference instead of returning nil; only the unknown source post
"8" makes `Repost` return nil with the store unchanged. -/
theorem repost_unknown_target_crashes :
    demoPost.subreddits.lookup "rust" = none ∧ demoPost.users.lookup "carol" = none ∧
    (findPost demoPost.postHeap demoPost.subreddits "7").map (fun f => f.1) = some 0 ∧
    Repost demoPost demoPost.subreddits 9 100 "7" "bob" "rust" = none ∧
    Repost demoPost demoPost.subreddits 9 100 "7" "carol" "golang" = none ∧
    Repost demoPost demoPost.subreddits 9 100 "8" "bob" "rust" = some (none, demoPost) := by
  decide

/-! ## Direct messages -/

/-- C13: for registered users `f` and `t`, after `SendDirectMessage(f, t, content)` the inbox
of `t` is its previous value with one message appended whose sender is `f`, whose recipient is
`t` and whose content is `content`; the inbox of every other user is what it was.  If `f` or `t`
is not registered the store, hence every inbox, is unchanged. -/
theorem sendDirectMessage_appends_to_inbox (e : Engine) (f t content : String) :
    (∀ fu tu, e.users.lookup f = some fu → e.users.lookup t = some tu →
      ∃ msg, GetDirectMessages (SendDirectMessage e f t content) t
            = GetDirectMessages e t ++ [msg] ∧
        msg.From = some f ∧ msg.To = some t ∧ msg.Content = content ∧
        ∀ k, k ≠ t →
          GetDirectMessages (SendDirectMessage e f t content) k = GetDirectMessages e k) ∧
    (e.users.lookup f = none ∨ e.users.lookup t = none →
      SendDirectMessage e f t content = e) := by
  constructor
  · intro fu tu hf ht
    refine ⟨{ ID := "", From := some f, To := some t, Content := content, Timestamp := 0,
              ReplyTo := "" }, ?_, rfl, rfl, rfl, ?_⟩
    · simp [GetDirectMessages, SendDirectMessage, hf, ht, lookup_mapSet_self]
    · intro k hk
      simp [GetDirectMessages, SendDirectMessage, hf, ht, lookup_mapSet_ne _ _ _ _ hk]
  · rintro (hf | ht)
    · simp [SendDirectMessage, hf]
    · cases hf : e.users.lookup f <;> simp [SendDirectMessage, hf, ht]

theorem sendDirectMessage_appends_to_inbox_witness :
    (∃ msg, GetDirectMessages (SendDirectMessage demoUsers "alice" "bob" "hi") "bob"
          = GetDirectMessages demoUsers "bob" ++ [msg] ∧
        msg.From = some "alice" ∧ msg.To = some "bob" ∧ msg.Content = "hi" ∧
        ∀ k, k ≠ "bob" →
          GetDirectMessages (SendDirectMessage demoUsers "alice" "bob" "hi") k
            = GetDirectMessages demoUsers k) ∧
    SendDirectMessage demoUsers "alice" "carol" "hi" = demoUsers :=
  ⟨(sendDirectMessage_appends_to_inbox demoUsers "alice" "bob" "hi").1
      { Username := "alice", Karma := 0, Posts := [], Comments := [], Connected := false }
      { Username := "bob", Karma := 0, Posts := [], Comments := [], Connected := false }
      (by decide) (by decide),
    (sendDirectMessage_appends_to_inbox demoUsers "alice" "carol" "hi").2
      (Or.inr (by decide))⟩

/-! ## Subreddits and membership -/

theorem mapSet_of_lookup_none {V : Type} (m : GoMap V) (k : String) (v : V)
    (h : m.lookup k = none) : mapSet m k v = m ++ [(k, v)] := by
  induction m with
  | nil => rfl
  | cons kv m ih =>
    obtain ⟨k', v'⟩ := kv
    by_cases hk : k = k'
    · subst hk
      rw [lookup_cons_self] at h
      cases h
    · rw [lookup_cons_ne _ _ _ _ hk] at h
      have hk' : ¬ k' = k := fun hh => hk hh.symm
      simp [mapSet, hk', ih h]

/-- C17: `CreateSubreddit` with a name that already exists returns the store as it was, so
the existing subreddit keeps its members and posts.  With a new name it adds, after the
existing entries, one subreddit with that name, no members and no posts; every other subreddit
and the rest of the store are unchanged. -/
theorem createSubreddit_existing_or_new (e : Engine) (name : String) :
    (∀ sub, e.subreddits.lookup name = some sub → CreateSubreddit e name = e) ∧
    (e.subreddits.lookup name = none →
      (CreateSubreddit e name).subreddits
          = e.subreddits ++ [(name, { Name := name, Posts := [], Members := [] })] ∧
      (CreateSubreddit e name).subreddits.lookup name
          = some { Name := name, Posts := [], Members := [] } ∧
      (∀ k, k ≠ name → (CreateSubreddit e name).subreddits.lookup k = e.subreddits.lookup k) ∧
      (CreateSubreddit e name).users = e.users ∧
      (CreateSubreddit e name).messages = e.messages ∧
      (CreateSubreddit e name).postHeap = e.postHeap ∧
      (CreateSubreddit e name).commentHeap = e.commentHeap) := by
  constructor
  · intro sub h
    simp [CreateSubreddit, h]
  · intro h
    refine ⟨?_, ?_, ?_, ?_, ?_, ?_, ?_⟩
    · simp [CreateSubreddit, h, mapSet_of_lookup_none]
    · simp [CreateSubreddit, h, lookup_mapSet_self]
    · intro k hk
      simp [CreateSubreddit, h, lookup_mapSet_ne _ _ _ _ hk]
    all_goals simp [CreateSubreddit, h]

theorem createSubreddit_existing_or_new_witness :
    CreateSubreddit demoSub "golang" = demoSub ∧
    (CreateSubreddit demoSub "rust").subreddits
        = demoSub.subreddits ++ [("rust", { Name := "rust", Posts := [], Members := [] })] ∧
    (CreateSubreddit demoSub "rust").subreddits.lookup "rust"
        = some { Name := "rust", Posts := [], Members := [] } ∧
    (∀ k, k ≠ "rust" →
      (CreateSubreddit demoSub "rust").subreddits.lookup k = demoSub.subreddits.lookup k) ∧
    (CreateSubreddit demoSub "rust").users = demoSub.users ∧
    (CreateSubreddit demoSub "rust").messages = demoSub.messages ∧
    (CreateSubreddit demoSub "rust").postHeap = demoSub.postHeap ∧
    (CreateSubreddit demoSub "rust").commentHeap = demoSub.commentHeap :=
  ⟨(createSubreddit_existing_or_new demoSub "golang").1
      { Name := "golang", Posts := [], Members := [("alice", "alice"), ("bob", "bob")] }
      (by decide),
    (createSubreddit_existing_or_new demoSub "rust").2 (by decide)⟩

/-! ## The feed -/

theorem getFeed_foldl (iter : GoMap Subreddit) (username : String) (acc : List PostRef) :
    iter.foldl (fun feed kv =>
        if (kv.2.Members.lookup username).isSome then feed ++ kv.2.Posts else feed) acc
      = acc ++ (iter.filter (fun kv => (kv.2.Members.lookup username).isSome)).flatMap
          (fun kv => kv.2.Posts) := by
  induction iter generalizing acc with
  | nil => simp
  | cons kv iter ih =>
    rw [List.foldl_cons, ih]
    by_cases h : (kv.2.Members.lookup username).isSome = true
    · simp [h, List.filter_cons]
    · simp [h, List.filter_cons]

theorem getFeed_perm_memberPosts {e : Engine} {iter : GoMap Subreddit}
    (hperm : iter.Perm e.subreddits) (username : String) :
    (GetFeed iter username).Perm (memberPosts e username) := by
  unfold GetFeed memberPosts
  rw [getFeed_foldl, List.nil_append]
  exact (hperm.filter _).flatMap_right _

theorem sortNewestFirst_perm {shuffle : List PostRef → List PostRef}
    (hshuffle : ∀ l, (shuffle l).Perm l) (heap : List Post) (feed : List PostRef) :
    (sortNewestFirst heap shuffle feed).Perm feed :=
  (List.perm_insertionSort _ _).trans (hshuffle feed)

/-- Every arrangement of the slice that is in order is a possible result of the model of
`sort.Slice`. -/
theorem sortNewestFirst_complete (heap : List Post) (feed out : List PostRef)
    (hperm : out.Perm feed) (hsorted : out.Sorted (NotOlder heap)) :
    ∃ shuffle : List PostRef → List PostRef,
      (∀ l, (shuffle l).Perm l) ∧ sortNewestFirst heap shuffle feed = out := by
  classical
  refine ⟨fun l => if l.Perm out then out else l, ?_, ?_⟩
  · intro l
    by_cases h : l.Perm out
    · simp only [h, if_true]
      exact h.symm
    · simp only [h, if_false]
      exact List.Perm.refl l
  · unfold sortNewestFirst
    simp only [hperm.symm, if_true]
    exact hsorted.insertionSort_eq

theorem sortNewestFirst_sorted (heap : List Post) (shuffle : List PostRef → List PostRef)
    (feed : List PostRef) :
    (sortNewestFirst heap shuffle feed).Sorted (NotOlder heap) :=
  List.sorted_insertionSort _ _

/-- For a positive limit the result is the first `limit` posts of the sorted slice. -/
theorem getUserFeed_eq_take {e : Engine} (iter : GoMap Subreddit)
    (shuffle : List PostRef → List PostRef) {username : String} {uo : User} {limit : Int}
    (hu : e.users.lookup username = some uo) (hpos : 0 < limit) :
    GetUserFeed e iter shuffle username limit
      = (sortNewestFirst e.postHeap shuffle (GetFeed iter username)).take limit.toNat := by
  simp only [GetUserFeed, hu]
  split
  · rfl
  · rename_i h
    have hle : (sortNewestFirst e.postHeap shuffle (GetFeed iter username)).length
        ≤ limit.toNat := by
      have h' : ¬ ((sortNewestFirst e.postHeap shuffle (GetFeed iter username)).length : Int)
          > limit := fun hh => h ⟨hpos, hh⟩
      omega
    rw [List.take_of_length_le hle]

/-- For a limit that is zero or negative the result is the whole sorted slice. -/
theorem getUserFeed_eq_all {e : Engine} (iter : GoMap Subreddit)
    (shuffle : List PostRef → List PostRef) {username : String} {uo : User} {limit : Int}
    (hu : e.users.lookup username = some uo) (hnonpos : limit ≤ 0) :
    GetUserFeed e iter shuffle username limit
      = sortNewestFirst e.postHeap shuffle (GetFeed iter username) := by
  simp only [GetUserFeed, hu]
  split
  · rename_i h
    omega
  · rfl

theorem getUserFeed_unregistered (e : Engine) (iter : GoMap Subreddit)
    (shuffle : List PostRef → List PostRef) {username : String} (limit : Int)
    (hu : e.users.lookup username = none) :
    GetUserFeed e iter shuffle username limit = [] := by
  simp [GetUserFeed, hu]

theorem mem_memberPosts {e : Engine} {username : String} {pr : PostRef}
    (h : pr ∈ memberPosts e username) :
    ∃ kv ∈ e.subreddits, (kv.2.Members.lookup username).isSome = true ∧ pr ∈ kv.2.Posts := by
  unfold memberPosts at h
  rw [List.mem_flatMap] at h
  obtain ⟨kv, hkv, hpr⟩ := h
  rw [List.mem_filter] at hkv
  exact ⟨kv, hkv.1, hkv.2, hpr⟩

/-- C14: for a registered user, whatever the visiting order of the map and the behaviour of
the sort on equal timestamps, `GetUserFeed(u, 0)` is a rearrangement of the concatenated post
lists of the subreddits that have `u` as a member (every post with the multiplicity it has
there), so each post of the feed is listed by a subreddit of which `u` is a member.  For an
unregistered username the feed is empty for every limit. -/
theorem getUserFeed_unlimited_is_member_posts (e : Engine) (iter : GoMap Subreddit)
    (shuffle : List PostRef → List PostRef) (username : String)
    (hperm : iter.Perm e.subreddits) (hshuffle : ∀ l, (shuffle l).Perm l) :
    (∀ uo, e.users.lookup username = some uo →
      (GetUserFeed e iter shuffle username 0).Perm (memberPosts e username) ∧
      (∀ pr, (GetUserFeed e iter shuffle username 0).count pr
          = (memberPosts e username).count pr) ∧
      ∀ pr ∈ GetUserFeed e iter shuffle username 0,
        ∃ kv ∈ e.subreddits, (kv.2.Members.lookup username).isSome = true ∧ pr ∈ kv.2.Posts) ∧
    (e.users.lookup username = none →
      ∀ limit, GetUserFeed e iter shuffle username limit = []) := by
  constructor
  · intro uo hu
    have hp : (GetUserFeed e iter shuffle username 0).Perm (memberPosts e username) := by
      rw [getUserFeed_eq_all iter shuffle hu (le_refl 0)]
      exact (sortNewestFirst_perm hshuffle _ _).trans (getFeed_perm_memberPosts hperm username)
    exact ⟨hp, fun pr => hp.count_eq pr, fun pr hpr => mem_memberPosts (hp.mem_iff.mp hpr)⟩
  · intro hu limit
    exact getUserFeed_unregistered e iter shuffle limit hu

theorem getUserFeed_unlimited_is_member_posts_witness :
    ((GetUserFeed demoRepost demoRepost.subreddits id "bob" 0).Perm
        (memberPosts demoRepost "bob") ∧
      (∀ pr, (GetUserFeed demoRepost demoRepost.subreddits id "bob" 0).count pr
          = (memberPosts demoRepost "bob").count pr) ∧
      ∀ pr ∈ GetUserFeed demoRepost demoRepost.subreddits id "bob" 0,
        ∃ kv ∈ demoRepost.subreddits,
          (kv.2.Members.lookup "bob").isSome = true ∧ pr ∈ kv.2.Posts) ∧
    (∀ limit, GetUserFeed demoRepost demoRepost.subreddits id "carol" limit = []) :=
  ⟨(getUserFeed_unlimited_is_member_posts demoRepost demoRepost.subreddits id "bob"
      (List.Perm.refl _) (fun l => List.Perm.refl l)).1
      { Username := "bob", Karma := 0, Posts := [1], Comments := [], Connected := false }
      (by decide),
    (getUserFeed_unlimited_is_member_posts demoRepost demoRepost.subreddits id "carol"
      (List.Perm.refl _) (fun l => List.Perm.refl l)).2 (by decide)⟩

theorem getUserFeed_sublist (e : Engine) (iter : GoMap Subreddit)
    (shuffle : List PostRef → List PostRef) (username : String) (limit : Int) :
    (GetUserFeed e iter shuffle username limit).Sublist
      (sortNewestFirst e.postHeap shuffle (GetFeed iter username)) := by
  unfold GetUserFeed
  cases e.users.lookup username with
  | none => exact List.nil_sublist _
  | some uo =>
    simp only
    split
    · exact List.take_sublist _ _
    · exact List.Sublist.refl _

/-- C15: whatever the visiting order, the behaviour of the sort on equal timestamps and the
limit, the timestamps along the result of `GetUserFeed` never increase: every post is at least
as new as every post listed after it, in particular as its successor.  When the posts of the
user's subreddits have pairwise distinct timestamps, the timestamps strictly decrease. -/
theorem getUserFeed_newest_first (e : Engine) (iter : GoMap Subreddit)
    (shuffle : List PostRef → List PostRef) (username : String) (limit : Int)
    (hperm : iter.Perm e.subreddits) (hshuffle : ∀ l, (shuffle l).Perm l) :
    ((GetUserFeed e iter shuffle username limit).map (postTime e.postHeap)).Sorted (· ≥ ·) ∧
    ((GetUserFeed e iter shuffle username limit).map (postTime e.postHeap)).Chain' (· ≥ ·) ∧
    (((memberPosts e username).map (postTime e.postHeap)).Nodup →
      ((GetUserFeed e iter shuffle username limit).map (postTime e.postHeap)).Sorted
        (· > ·)) := by
  have hsub := getUserFeed_sublist e iter shuffle username limit
  have hsorted : ((GetUserFeed e iter shuffle username limit).map
      (postTime e.postHeap)).Sorted (· ≥ ·) := by
    have h1 : (GetUserFeed e iter shuffle username limit).Pairwise (NotOlder e.postHeap) :=
      List.Pairwise.sublist hsub (sortNewestFirst_sorted _ _ _)
    exact List.pairwise_map.mpr h1
  refine ⟨hsorted, List.Pairwise.chain' hsorted, ?_⟩
  intro hnodup
  have hperm' : ((sortNewestFirst e.postHeap shuffle (GetFeed iter username)).map
      (postTime e.postHeap)).Perm ((memberPosts e username).map (postTime e.postHeap)) :=
    ((sortNewestFirst_perm hshuffle _ _).trans
      (getFeed_perm_memberPosts hperm username)).map _
  have hnd : ((GetUserFeed e iter shuffle username limit).map (postTime e.postHeap)).Nodup :=
    List.Nodup.sublist (hsub.map _) (hperm'.nodup_iff.mpr hnodup)
  exact hsorted.gt_of_ge hnd

theorem getUserFeed_newest_first_witness :
    ((GetUserFeed demoRepost demoRepost.subreddits id "bob" 0).map
        (postTime demoRepost.postHeap)).Sorted (· ≥ ·) ∧
    ((GetUserFeed demoRepost demoRepost.subreddits id "bob" 0).map
        (postTime demoRepost.postHeap)).Chain' (· ≥ ·) ∧
    ((memberPosts demoRepost "bob").map (postTime demoRepost.postHeap)).Nodup ∧
    ((GetUserFeed demoRepost demoRepost.subreddits id "bob" 0).map
        (postTime demoRepost.postHeap)).Sorted (· > ·) :=
  ⟨(getUserFeed_newest_first demoRepost demoRepost.subreddits id "bob" 0
      (List.Perm.refl _) (fun l => List.Perm.refl l)).1,
    (getUserFeed_newest_first demoRepost demoRepost.subreddits id "bob" 0
      (List.Perm.refl _) (fun l => List.Perm.refl l)).2.1,
    by decide,
    (getUserFeed_newest_first demoRepost demoRepost.subreddits id "bob" 0
      (List.Perm.refl _) (fun l => List.Perm.refl l)).2.2 (by decide)⟩

theorem append_diff_left (l d : List PostRef) : (l ++ d).diff l = d := by
  induction l with
  | nil => simp
  | cons a l ih =>
    rw [List.diff_cons, List.cons_append, List.erase_cons_head]
    exact ih

/-- C16: let `n` be the length of `GetUserFeed(u, 0)`.  For a positive limit the feed has
length `min(limit, n)`, and each post it returns is at least as new as each post of the
unlimited feed that it leaves out; for a limit that is zero or negative it has length `n`.
The two calls may visit the map in different orders and sort equal timestamps differently. -/
theorem getUserFeed_limit (e : Engine) (iter iter' : GoMap Subreddit)
    (shuffle shuffle' : List PostRef → List PostRef) (username : String) (limit : Int)
    (hperm : iter.Perm e.subreddits) (hperm' : iter'.Perm e.subreddits)
    (hshuffle : ∀ l, (shuffle l).Perm l) (hshuffle' : ∀ l, (shuffle' l).Perm l) :
    (0 < limit →
      (GetUserFeed e iter shuffle username limit).length
          = min limit.toNat (GetUserFeed e iter' shuffle' username 0).length ∧
      ∀ r ∈ GetUserFeed e iter shuffle username limit,
        ∀ q ∈ (GetUserFeed e iter' shuffle' username 0).diff
            (GetUserFeed e iter shuffle username limit),
          postTime e.postHeap q ≤ postTime e.postHeap r) ∧
    (limit ≤ 0 →
      (GetUserFeed e iter shuffle username limit).length
          = (GetUserFeed e iter' shuffle' username 0).length) := by
  cases hu : e.users.lookup username with
  | none =>
    simp [getUserFeed_unregistered e _ _ _ hu]
  | some uo =>
    have hall := getUserFeed_eq_all iter' shuffle' hu (le_refl 0)
    have hSS : (sortNewestFirst e.postHeap shuffle' (GetFeed iter' username)).Perm
        (sortNewestFirst e.postHeap shuffle (GetFeed iter username)) :=
      ((sortNewestFirst_perm hshuffle' _ _).trans
        (getFeed_perm_memberPosts hperm' username)).trans
        ((sortNewestFirst_perm hshuffle _ _).trans
          (getFeed_perm_memberPosts hperm username)).symm
    constructor
    · intro hpos
      rw [getUserFeed_eq_take iter shuffle hu hpos, hall]
      constructor
      · rw [List.length_take, hSS.length_eq]
      · intro r hr q hq
        have hq' : q ∈ (sortNewestFirst e.postHeap shuffle (GetFeed iter username)).drop
            limit.toNat := by
          have h1 := (hSS.diff_right
            ((sortNewestFirst e.postHeap shuffle (GetFeed iter username)).take
              limit.toNat)).mem_iff.mp hq
          have h2 : ((sortNewestFirst e.postHeap shuffle (GetFeed iter username)).diff
              ((sortNewestFirst e.postHeap shuffle (GetFeed iter username)).take
                limit.toNat))
              = (sortNewestFirst e.postHeap shuffle (GetFeed iter username)).drop
                limit.toNat := by
            conv_lhs =>
              arg 1
              rw [← List.take_append_drop limit.toNat
                (sortNewestFirst e.postHeap shuffle (GetFeed iter username))]
            exact append_diff_left _ _
          rwa [h2] at h1
        exact (sortNewestFirst_sorted e.postHeap shuffle
          (GetFeed iter username)).rel_of_mem_take_of_mem_drop hr hq'
    · intro hnonpos
      rw [getUserFeed_eq_all iter shuffle hu hnonpos, hall]
      exact hSS.length_eq.symm

theorem getUserFeed_limit_witness :
    ((GetUserFeed demoRepost demoRepost.subreddits id "bob" 1).length
          = min (1 : Int).toNat (GetUserFeed demoRepost demoRepost.subreddits id "bob" 0).length ∧
      ∀ r ∈ GetUserFeed demoRepost demoRepost.subreddits id "bob" 1,
        ∀ q ∈ (GetUserFeed demoRepost demoRepost.subreddits id "bob" 0).diff
            (GetUserFeed demoRepost demoRepost.subreddits id "bob" 1),
          postTime demoRepost.postHeap q ≤ postTime demoRepost.postHeap r) ∧
    (GetUserFeed demoRepost demoRepost.subreddits id "bob" (-1)).length
        = (GetUserFeed demoRepost demoRepost.subreddits id "bob" 0).length :=
  ⟨(getUserFeed_limit demoRepost demoRepost.subreddits demoRepost.subreddits id id "bob" 1
      (List.Perm.refl _) (List.Perm.refl _) (fun l => List.Perm.refl l)
      (fun l => List.Perm.refl l)).1 (by decide),
    (getUserFeed_limit demoRepost demoRepost.subreddits demoRepost.subreddits id id "bob" (-1)
      (List.Perm.refl _) (List.Perm.refl _) (fun l => List.Perm.refl l)
      (fun l => List.Perm.refl l)).2 (by decide)⟩

/-! ## More lemmas on maps -/

theorem mem_of_lookup_some {V : Type} {m : GoMap V} {k : String} {v : V}
    (h : m.lookup k = some v) : (k, v) ∈ m := by
  induction m with
  | nil => simp [List.lookup] at h
  | cons kv m ih =>
    obtain ⟨k', v'⟩ := kv
    by_cases hk : k = k'
    · subst hk
      rw [lookup_cons_self] at h
      cases h
      exact List.mem_cons_self _ _
    · rw [lookup_cons_ne _ _ _ _ hk] at h
      exact List.mem_cons_of_mem _ (ih h)

theorem not_mem_keys_of_lookup_none {V : Type} {m : GoMap V} {k : String}
    (h : m.lookup k = none) : k ∉ m.map (fun kv => kv.1) := by
  induction m with
  | nil => simp
  | cons kv m ih =>
    obtain ⟨k', v'⟩ := kv
    by_cases hk : k = k'
    · subst hk
      rw [lookup_cons_self] at h
      cases h
    · rw [lookup_cons_ne _ _ _ _ hk] at h
      simp only [List.map_cons, List.mem_cons, not_or]
      exact ⟨hk, ih h⟩

theorem lookup_of_mem_keysNodup {V : Type} {m : GoMap V} {k : String} {v : V}
    (hnd : KeysNodup m) (h : (k, v) ∈ m) : m.lookup k = some v := by
  induction m with
  | nil => cases h
  | cons kv m ih =>
    obtain ⟨k', v'⟩ := kv
    unfold KeysNodup at hnd
    simp only [List.map_cons, List.nodup_cons] at hnd
    rcases List.mem_cons.mp h with h1 | h2
    · cases h1
      exact lookup_cons_self _ _ _
    · have hk : k ≠ k' := by
        intro hh
        subst hh
        exact hnd.1 (List.mem_map.mpr ⟨(k, v), h2, rfl⟩)
      rw [lookup_cons_ne _ _ _ _ hk]
      exact ih hnd.2 h2

theorem map_fst_mapModify {V : Type} (m : GoMap V) (k : String) (f : V → V) :
    (mapModify m k f).map (fun kv => kv.1) = m.map (fun kv => kv.1) := by
  induction m with
  | nil => rfl
  | cons kv m ih =>
    obtain ⟨k', v'⟩ := kv
    by_cases hk : k' = k
    · simp [mapModify, hk]
    · simp [mapModify, hk, ih]

theorem keysNodup_mapModify {V : Type} {m : GoMap V} (k : String) (f : V → V)
    (h : KeysNodup m) : KeysNodup (mapModify m k f) := by
  unfold KeysNodup
  rw [map_fst_mapModify]
  exact h

theorem keysNodup_mapSet_new {V : Type} {m : GoMap V} {k : String} (v : V)
    (h : KeysNodup m) (hk : m.lookup k = none) : KeysNodup (mapSet m k v) := by
  unfold KeysNodup
  rw [mapSet_of_lookup_none m k v hk, List.map_append, List.nodup_append]
  refine ⟨h, by simp, ?_⟩
  intro a ha hb
  simp only [List.map_cons, List.map_nil, List.mem_singleton] at hb
  subst hb
  exact not_mem_keys_of_lookup_none hk ha

theorem mem_mapModify_key {V : Type} {m : GoMap V} {k : String} {f : V → V}
    {kv : String × V} (h : kv ∈ mapModify m k f) :
    kv ∈ m ∨ (kv.1 = k ∧ ∃ v, (k, v) ∈ m ∧ kv.2 = f v) := by
  induction m with
  | nil => simp [mapModify] at h
  | cons kv' m ih =>
    obtain ⟨k', v'⟩ := kv'
    by_cases hk : k' = k
    · subst hk
      simp [mapModify] at h
      rcases h with h | h
      · exact Or.inr ⟨by simp [h], v', List.mem_cons_self _ _, by simp [h]⟩
      · exact Or.inl (List.mem_cons_of_mem _ h)
    · simp [mapModify, hk] at h
      rcases h with h | h
      · exact Or.inl (h ▸ List.mem_cons_self _ _)
      · rcases ih h with h | ⟨h1, v, hv, hf⟩
        · exact Or.inl (List.mem_cons_of_mem _ h)
        · exact Or.inr ⟨h1, v, List.mem_cons_of_mem _ hv, hf⟩

theorem mapSet_of_lookup_self {V : Type} {m : GoMap V} {k : String} {v : V}
    (h : m.lookup k = some v) : mapSet m k v = m := by
  induction m with
  | nil => simp [List.lookup] at h
  | cons kv m ih =>
    obtain ⟨k', v'⟩ := kv
    by_cases hk : k = k'
    · subst hk
      rw [lookup_cons_self] at h
      cases h
      simp [mapSet]
    · rw [lookup_cons_ne _ _ _ _ hk] at h
      have hk' : ¬ k' = k := fun hh => hk hh.symm
      simp [mapSet, hk', ih h]

theorem mapModify_of_fixed {V : Type} {m : GoMap V} {k : String} {f : V → V}
    (h : ∀ v, m.lookup k = some v → f v = v) : mapModify m k f = m := by
  induction m with
  | nil => rfl
  | cons kv m ih =>
    obtain ⟨k', v'⟩ := kv
    by_cases hk : k = k'
    · subst hk
      simp [mapModify, h v' (lookup_cons_self _ _ _)]
    · have hk' : ¬ k' = k := fun hh => hk hh.symm
      have ih' := ih (fun v hv => h v (by rw [lookup_cons_ne _ _ _ _ hk]; exact hv))
      simp [mapModify, hk', ih']

theorem mapModify_idem {V : Type} (m : GoMap V) (k : String) (f : V → V)
    (hf : ∀ v, f (f v) = f v) : mapModify (mapModify m k f) k f = mapModify m k f := by
  apply mapModify_of_fixed
  intro v hv
  rw [lookup_mapModify_self] at hv
  cases hm : m.lookup k with
  | none => simp [hm] at hv
  | some w =>
    simp [hm] at hv
    rw [← hv]
    exact hf w

theorem lookup_mapDelete {V : Type} (m : GoMap V) (k k' : String) :
    (mapDelete m k).lookup k' = if k' = k then none else m.lookup k' := by
  induction m with
  | nil => simp [mapDelete]
  | cons kv m ih =>
    obtain ⟨k₀, v₀⟩ := kv
    unfold mapDelete at ih ⊢
    by_cases h0 : k₀ = k
    · subst h0
      by_cases h1 : k' = k₀
      · subst h1
        simpa [List.filter_cons] using ih
      · rw [lookup_cons_ne _ _ _ _ h1]
        simpa [List.filter_cons, h1] using ih
    · have hb : (!(k₀ == k)) = true := by simpa using h0
      rw [List.filter_cons]
      simp only [hb, if_true]
      by_cases h1 : k' = k₀
      · subst h1
        simp [lookup_cons_self, h0]
      · rw [lookup_cons_ne _ _ _ _ h1, lookup_cons_ne _ _ _ _ h1]
        exact ih

theorem mapDelete_of_lookup_none {V : Type} {m : GoMap V} {k : String}
    (h : m.lookup k = none) : mapDelete m k = m := by
  unfold mapDelete
  rw [List.filter_eq_self]
  intro kv hkv
  have : kv.1 ≠ k := by
    intro hh
    apply not_mem_keys_of_lookup_none h
    exact List.mem_map.mpr ⟨kv, hkv, hh⟩
  simpa using this

/-! ## Reachable stores have a well-formed subreddit table -/

theorem home_of_lookup {heap : List Post} {pr : PostRef} {k : String}
    (h : (heap[pr]?).bind (fun p => p.Subreddit) = some k) :
    ∃ p, heap[pr]? = some p ∧ p.Subreddit = some k := by
  cases hp : heap[pr]? with
  | none => simp [hp] at h
  | some p =>
    simp [hp] at h
    exact ⟨p, rfl, h⟩

theorem storeInv_same {e e' : Engine} (h : StoreInv e)
    (hs : e'.subreddits = e.subreddits) (hp : e'.postHeap = e.postHeap) : StoreInv e' := by
  unfold StoreInv MembersSelf PostsHome at *
  rw [hs, hp]
  exact h

theorem storeInv_create {e e' : Engine} (h : StoreInv e) {name : String}
    (hnone : e.subreddits.lookup name = none)
    (hs : e'.subreddits = mapSet e.subreddits name { Name := name, Posts := [], Members := [] })
    (hp : e'.postHeap = e.postHeap) : StoreInv e' := by
  obtain ⟨h1, h2, h3⟩ := h
  refine ⟨?_, ?_, ?_⟩
  · rw [hs]
    exact keysNodup_mapSet_new _ h1 hnone
  · intro kv hkv m hm
    rw [hs] at hkv
    rcases mem_mapSet hkv with hnew | hold
    · subst hnew
      cases hm
    · exact h2 kv hold m hm
  · intro kv hkv pr hpr
    rw [hs] at hkv
    rw [hp]
    rcases mem_mapSet hkv with hnew | hold
    · subst hnew
      cases hpr
    · exact h3 kv hold pr hpr

theorem storeInv_members {e e' : Engine} (h : StoreInv e) {s : String}
    {f : Subreddit → Subreddit}
    (hs : e'.subreddits = mapModify e.subreddits s f) (hp : e'.postHeap = e.postHeap)
    (hposts : ∀ sub, (f sub).Posts = sub.Posts)
    (hmem : ∀ sub, ∀ m ∈ (f sub).Members, m ∈ sub.Members ∨ m.2 = m.1) : StoreInv e' := by
  obtain ⟨h1, h2, h3⟩ := h
  refine ⟨?_, ?_, ?_⟩
  · rw [hs]
    exact keysNodup_mapModify _ _ h1
  · intro kv hkv m hm
    rw [hs] at hkv
    rcases mem_mapModify_key hkv with hold | ⟨-, v, hv, hf⟩
    · exact h2 kv hold m hm
    · rw [hf] at hm
      rcases hmem v m hm with hm' | hm'
      · exact h2 _ hv m hm'
      · exact hm'
  · intro kv hkv pr hpr
    rw [hs] at hkv
    rw [hp]
    rcases mem_mapModify_key hkv with hold | ⟨hk, v, hv, hf⟩
    · exact h3 kv hold pr hpr
    · rw [hf, hposts] at hpr
      rw [hk]
      exact h3 _ hv pr hpr

theorem storeInv_append_post {e e' : Engine} (h : StoreInv e) {s : String} {post : Post}
    (hs : e'.subreddits = mapModify e.subreddits s
      (fun x => { x with Posts := x.Posts ++ [e.postHeap.length] }))
    (hp : e'.postHeap = e.postHeap ++ [post])
    (hsub : post.Subreddit = some s) : StoreInv e' := by
  obtain ⟨h1, h2, h3⟩ := h
  have hold_ok : ∀ (pr : PostRef) (k : String),
      (e.postHeap[pr]?).bind (fun p => p.Subreddit) = some k →
      ((e.postHeap ++ [post])[pr]?).bind (fun p => p.Subreddit) = some k := by
    intro pr k hk
    obtain ⟨p, hp1, hp2⟩ := home_of_lookup hk
    rw [lookup_append_of_some _ hp1]
    exact hp2
  refine ⟨?_, ?_, ?_⟩
  · rw [hs]
    exact keysNodup_mapModify _ _ h1
  · intro kv hkv m hm
    rw [hs] at hkv
    rcases mem_mapModify_key hkv with hold | ⟨-, v, hv, hf⟩
    · exact h2 kv hold m hm
    · rw [hf] at hm
      exact h2 _ hv m hm
  · intro kv hkv pr hpr
    rw [hs] at hkv
    rw [hp]
    rcases mem_mapModify_key hkv with hold | ⟨hk, v, hv, hf⟩
    · exact hold_ok pr kv.1 (h3 kv hold pr hpr)
    · rw [hf] at hpr
      simp only [List.mem_append, List.mem_singleton] at hpr
      rw [hk]
      rcases hpr with hpr | hpr
      · exact hold_ok pr s (h3 _ hv pr hpr)
      · subst hpr
        simp [hsub]

theorem storeInv_set_post {e e' : Engine} (h : StoreInv e) {pr₀ : PostRef} {post post' : Post}
    (h₀ : e.postHeap[pr₀]? = some post)
    (hs : e'.subreddits = e.subreddits) (hp : e'.postHeap = e.postHeap.set pr₀ post')
    (hsub : post'.Subreddit = post.Subreddit) : StoreInv e' := by
  obtain ⟨h1, h2, h3⟩ := h
  refine ⟨by rw [hs]; exact h1, ?_, ?_⟩
  · intro kv hkv m hm
    rw [hs] at hkv
    exact h2 kv hkv m hm
  · intro kv hkv pr hpr
    rw [hs] at hkv
    rw [hp]
    have := h3 kv hkv pr hpr
    by_cases hpp : pr₀ = pr
    · subst hpp
      rw [h₀] at this
      simp [List.getElem?_set, lt_length_of_lookup_some h₀, hsub]
      simpa using this
    · simpa [List.getElem?_set, hpp] using this

theorem storeInv_createSubreddit {e : Engine} (h : StoreInv e) (name : String) :
    StoreInv (CreateSubreddit e name) := by
  cases hl : e.subreddits.lookup name with
  | some sub => simpa [CreateSubreddit, hl] using h
  | none =>
    refine storeInv_create h hl ?_ ?_ <;> simp [CreateSubreddit, hl]

theorem joinSubreddit_eq {e : Engine} {username subredditName : String} {uo : User}
    {sub : Subreddit} (hu : e.users.lookup username = some uo)
    (hs : e.subreddits.lookup subredditName = some sub) :
    JoinSubreddit e username subredditName =
      { e with
        subreddits := mapModify e.subreddits subredditName
          (fun x => { x with Members := mapSet x.Members username username }) } := by
  simp only [JoinSubreddit, hu, hs]

theorem leaveSubreddit_eq {e : Engine} (username : String) {subredditName : String}
    {sub : Subreddit} (hs : e.subreddits.lookup subredditName = some sub) :
    LeaveSubreddit e username subredditName =
      { e with
        subreddits := mapModify e.subreddits subredditName
          (fun x => { x with Members := mapDelete x.Members username }) } := by
  simp only [LeaveSubreddit, hs]

theorem storeInv_joinSubreddit {e : Engine} (h : StoreInv e) (username subredditName : String) :
    StoreInv (JoinSubreddit e username subredditName) := by
  cases hu : e.users.lookup username with
  | none => simpa [JoinSubreddit, hu] using h
  | some uo =>
    cases hs : e.subreddits.lookup subredditName with
    | none => simpa [JoinSubreddit, hu, hs] using h
    | some sub =>
      rw [joinSubreddit_eq hu hs]
      refine storeInv_members h rfl rfl (fun _ => rfl) ?_
      intro x m hm
      rcases mem_mapSet hm with hnew | hold
      · right
        rw [hnew]
      · exact Or.inl hold

theorem storeInv_leaveSubreddit {e : Engine} (h : StoreInv e)
    (username subredditName : String) :
    StoreInv (LeaveSubreddit e username subredditName) := by
  cases hs : e.subreddits.lookup subredditName with
  | none => simpa [LeaveSubreddit, hs] using h
  | some sub =>
    rw [leaveSubreddit_eq username hs]
    refine storeInv_members h rfl rfl (fun _ => rfl) ?_
    intro x m hm
    exact Or.inl (List.mem_of_mem_filter hm)

theorem storeInv_postInSubreddit {e : Engine} (h : StoreInv e) (rnd : Nat)
    (s a content : String) : StoreInv (PostInSubreddit e rnd s a content).2 := by
  cases hu : e.users.lookup a with
  | none => simpa [PostInSubreddit, hu] using h
  | some u =>
    cases hs : e.subreddits.lookup s with
    | none => simpa [PostInSubreddit, hu, hs] using h
    | some sub =>
      rw [postInSubreddit_eq rnd content hs hu]
      exact storeInv_append_post h rfl rfl rfl

theorem storeInv_commentOnPost {e : Engine} (h : StoreInv e)
    (s postID a content : String) : StoreInv (CommentOnPost e s postID a content).2 := by
  cases hu : e.users.lookup a with
  | none => simpa [CommentOnPost, hu] using h
  | some u =>
    cases hs : e.subreddits.lookup s with
    | none => simpa [CommentOnPost, hu, hs] using h
    | some sub =>
      cases hf : firstPostWithID e.postHeap sub.Posts postID with
      | none => simpa [CommentOnPost, hu, hs, hf] using h
      | some found =>
        obtain ⟨pr, p⟩ := found
        rw [commentOnPost_eq content hu hs hf]
        exact storeInv_set_post h (firstPostWithID_some hf).2.1 rfl rfl rfl

theorem storeInv_replyToComment {e : Engine} (h : StoreInv e)
    (iter : GoMap Subreddit) (rnd now : Nat) (postID cid username content : String) :
    StoreInv (ReplyToComment e iter rnd now postID cid username content).2 := by
  rcases replyToComment_cases e iter rnd now postID cid username content with
    h0 | ⟨pr, cr, parent, -, -, h1⟩
  · rw [h0]
    exact h
  · rw [h1]
    exact storeInv_same h rfl rfl

theorem storeInv_repost {e e' : Engine} (h : StoreInv e)
    {iter : GoMap Subreddit} {rnd now : Nat} {originalPostID username subredditName : String}
    {r : Option PostRef}
    (hres : Repost e iter rnd now originalPostID username subredditName = some (r, e')) :
    StoreInv e' := by
  cases hf : findPost e.postHeap iter originalPostID with
  | none =>
    simp only [Repost, hf, Option.some.injEq, Prod.mk.injEq] at hres
    rw [← hres.2]
    exact h
  | some found =>
    obtain ⟨o, originalPost⟩ := found
    cases hs : e.subreddits.lookup subredditName with
    | none => simp [Repost, hf, hs] at hres
    | some sub =>
      cases hu : e.users.lookup username with
      | none => simp [Repost, hf, hs, hu] at hres
      | some u =>
        rw [repost_eq rnd now hf hs hu] at hres
        simp only [Option.some.injEq, Prod.mk.injEq] at hres
        rw [← hres.2]
        exact storeInv_append_post h rfl rfl rfl

theorem storeInv_upvote {e e' : Engine} {iter iter2 : GoMap Subreddit} {id : String}
    {b : Bool} {v : String} (h : StoreInv e) (hl : ParentLinked e)
    (hperm : iter.Perm e.subreddits) (hperm2 : iter2.Perm e.subreddits)
    (hres : Upvote e iter iter2 id b v = some e') : StoreInv e' := by
  cases hv : e.users.lookup v with
  | none =>
    rw [upvote_of_unregistered e iter iter2 id b hv] at hres
    cases hres
    exact h
  | some vu =>
    cases hf : findPost e.postHeap iter id with
    | none =>
      have hno := findPost_none.mp hf
      rw [upvote_of_no_post hl hperm hperm2 id b v
        (fun kv hkv => hno kv (hperm.mem_iff.mpr hkv))] at hres
      cases hres
      exact h
    | some found =>
      obtain ⟨pr, post⟩ := found
      obtain ⟨-, -, -, hpost, -⟩ := findPost_some hf
      cases ha : post.Author with
      | none => cases b <;> simp [Upvote, hv, hf, ha, karmaThrough] at hres
      | some a =>
        cases b
        · rw [upvote_post_down iter2 hv hf ha] at hres
          cases hres
          exact storeInv_set_post h hpost rfl rfl rfl
        · rw [upvote_post_up iter2 hv hf ha] at hres
          cases hres
          exact storeInv_set_post h hpost rfl rfl rfl

/-- In every reachable store no subreddit name is bound twice, every member entry points to
the user it is filed under, and every listed post belongs to the subreddit that lists it. -/
theorem reachable_storeInv {e : Engine} (h : Reachable e) : StoreInv e := by
  induction h with
  | init =>
    refine ⟨?_, ?_, ?_⟩
    · simp [KeysNodup, NewEngine]
    · intro kv hkv
      simp [NewEngine] at hkv
    · intro kv hkv
      simp [NewEngine] at hkv
  | registerAccount username _ ih =>
    refine storeInv_same ih ?_ ?_ <;> (unfold RegisterAccount; split <;> rfl)
  | createSubreddit name _ ih => exact storeInv_createSubreddit ih name
  | joinSubreddit username subredditName _ ih =>
    exact storeInv_joinSubreddit ih username subredditName
  | leaveSubreddit username subredditName _ ih =>
    exact storeInv_leaveSubreddit ih username subredditName
  | setUserConnection username connected _ ih =>
    refine storeInv_same ih ?_ ?_ <;> (unfold SetUserConnection; split <;> rfl)
  | postInSubreddit rnd subredditName username content _ ih =>
    exact storeInv_postInSubreddit ih rnd subredditName username content
  | commentOnPost subredditName postID username content _ ih =>
    exact storeInv_commentOnPost ih subredditName postID username content
  | replyToComment iter rnd now postID parentCommentID username content _ _ ih =>
    exact storeInv_replyToComment ih iter rnd now postID parentCommentID username content
  | repost iter rnd now originalPostID username subredditName r _ _ hres ih =>
    exact storeInv_repost ih hres
  | upvote iter iter2 postID upvote username hreach hperm hperm2 hres ih =>
    exact storeInv_upvote ih (reachable_parentLinked hreach) hperm hperm2 hres
  | sendDirectMessage fromUsername toUsername content _ ih =>
    refine storeInv_same ih ?_ ?_ <;> (unfold SendDirectMessage; repeat' split) <;> rfl
  | replyToDirectMessage iter rnd now messageID fromUsername content _ _ ih =>
    refine storeInv_same ih ?_ ?_ <;> (unfold ReplyToDirectMessage; repeat' split) <;> rfl

/-! ## Joining and leaving -/

theorem reachable_demoSub : Reachable demoSub :=
  Reachable.joinSubreddit "bob" "golang"
    (Reachable.joinSubreddit "alice" "golang"
      (Reachable.createSubreddit "golang"
        (Reachable.registerAccount "bob"
          (Reachable.registerAccount "alice" Reachable.init))))

theorem lookup_mapSet_isSome {V : Type} (m : GoMap V) (k k' : String) (v : V) :
    ((mapSet m k v).lookup k').isSome = true ↔ (k' = k ∨ (m.lookup k').isSome = true) := by
  by_cases h : k' = k
  · subst h
    simp [lookup_mapSet_self]
  · simp [lookup_mapSet_ne _ _ _ _ h, h]

/-- C18: for a registered user `u` and an existing subreddit `s`, after `JoinSubreddit(u, s)`
the subreddit `s` has the same name and posts, and its member keys are the old ones together
with `u`; every other subreddit, the users, the inboxes and both heaps are unchanged.  Joining
twice gives the same store as joining once, and in a reachable store joining while already a
member leaves the store unchanged.  If `u` or `s` is unknown the store is unchanged. -/
theorem joinSubreddit_adds_member (e : Engine) (u s : String) :
    (∀ uo sub, e.users.lookup u = some uo → e.subreddits.lookup s = some sub →
      (∃ sub', (JoinSubreddit e u s).subreddits.lookup s = some sub' ∧
        sub'.Name = sub.Name ∧ sub'.Posts = sub.Posts ∧
        ∀ k, (sub'.Members.lookup k).isSome = true ↔
          (k = u ∨ (sub.Members.lookup k).isSome = true)) ∧
      (∀ k, k ≠ s → (JoinSubreddit e u s).subreddits.lookup k = e.subreddits.lookup k) ∧
      (JoinSubreddit e u s).users = e.users ∧
      (JoinSubreddit e u s).messages = e.messages ∧
      (JoinSubreddit e u s).postHeap = e.postHeap ∧
      (JoinSubreddit e u s).commentHeap = e.commentHeap ∧
      (Reachable e → (sub.Members.lookup u).isSome = true → JoinSubreddit e u s = e)) ∧
    JoinSubreddit (JoinSubreddit e u s) u s = JoinSubreddit e u s ∧
    (e.users.lookup u = none ∨ e.subreddits.lookup s = none → JoinSubreddit e u s = e) := by
  have hunknown : e.users.lookup u = none ∨ e.subreddits.lookup s = none →
      JoinSubreddit e u s = e := by
    rintro (hu | hs)
    · simp [JoinSubreddit, hu]
    · cases hu : e.users.lookup u <;> simp [JoinSubreddit, hu, hs]
  refine ⟨?_, ?_, hunknown⟩
  · intro uo sub hu hs
    rw [joinSubreddit_eq hu hs]
    refine ⟨⟨{ sub with Members := mapSet sub.Members u u }, ?_, rfl, rfl, ?_⟩, ?_, rfl, rfl,
      rfl, rfl, ?_⟩
    · simp [lookup_mapModify_self, hs]
    · intro k
      exact lookup_mapSet_isSome _ _ _ _
    · intro k hk
      exact lookup_mapModify_ne _ _ _ _ hk
    · intro hreach hmem
      have hself := (reachable_storeInv hreach).2.1
      cases hm : sub.Members.lookup u with
      | none => simp [hm] at hmem
      | some r =>
        have hr : r = u := hself (s, sub) (mem_of_lookup_some hs) (u, r) (mem_of_lookup_some hm)
        subst hr
        have hfix : mapModify e.subreddits s
            (fun x => { x with Members := mapSet x.Members r r }) = e.subreddits := by
          apply mapModify_of_fixed
          intro v hv
          rw [hs] at hv
          cases hv
          simp [mapSet_of_lookup_self hm]
        rw [hfix]
  · cases hu : e.users.lookup u with
    | none => rw [hunknown (Or.inl hu), hunknown (Or.inl hu)]
    | some uo =>
      cases hs : e.subreddits.lookup s with
      | none => rw [hunknown (Or.inr hs), hunknown (Or.inr hs)]
      | some sub =>
        have hs' : (JoinSubreddit e u s).subreddits.lookup s
            = some { sub with Members := mapSet sub.Members u u } := by
          rw [joinSubreddit_eq hu hs]
          simp [lookup_mapModify_self, hs]
        have hu' : (JoinSubreddit e u s).users.lookup u = some uo := by
          rw [joinSubreddit_eq hu hs]
          exact hu
        rw [joinSubreddit_eq hu' hs']
        rw [joinSubreddit_eq hu hs]
        simp only
        rw [mapModify_idem]
        intro v
        simp [mapSet_of_lookup_self (lookup_mapSet_self v.Members u u)]

theorem joinSubreddit_adds_member_witness :
    ((∃ sub', (JoinSubreddit demoSub "bob" "golang").subreddits.lookup "golang" = some sub' ∧
        sub'.Name = "golang" ∧ sub'.Posts = [] ∧
        ∀ k, (sub'.Members.lookup k).isSome = true ↔
          (k = "bob" ∨
            (List.lookup k [("alice", "alice"), ("bob", "bob")]).isSome = true)) ∧
      (∀ k, k ≠ "golang" →
        (JoinSubreddit demoSub "bob" "golang").subreddits.lookup k
          = demoSub.subreddits.lookup k) ∧
      (JoinSubreddit demoSub "bob" "golang").users = demoSub.users ∧
      (JoinSubreddit demoSub "bob" "golang").messages = demoSub.messages ∧
      (JoinSubreddit demoSub "bob" "golang").postHeap = demoSub.postHeap ∧
      (JoinSubreddit demoSub "bob" "golang").commentHeap = demoSub.commentHeap ∧
      JoinSubreddit demoSub "bob" "golang" = demoSub) ∧
    JoinSubreddit (JoinSubreddit demoSub "bob" "golang") "bob" "golang"
      = JoinSubreddit demoSub "bob" "golang" ∧
    JoinSubreddit demoSub "carol" "golang" = demoSub :=
  ⟨⟨((joinSubreddit_adds_member demoSub "bob" "golang").1
        { Username := "bob", Karma := 0, Posts := [], Comments := [], Connected := false }
        { Name := "golang", Posts := [], Members := [("alice", "alice"), ("bob", "bob")] }
        (by decide) (by decide)).1,
      ((joinSubreddit_adds_member demoSub "bob" "golang").1
        { Username := "bob", Karma := 0, Posts := [], Comments := [], Connected := false }
        { Name := "golang", Posts := [], Members := [("alice", "alice"), ("bob", "bob")] }
        (by decide) (by decide)).2.1,
      rfl, rfl, rfl, rfl,
      ((joinSubreddit_adds_member demoSub "bob" "golang").1
        { Username := "bob", Karma := 0, Posts := [], Comments := [], Connected := false }
        { Name := "golang", Posts := [], Members := [("alice", "alice"), ("bob", "bob")] }
        (by decide) (by decide)).2.2.2.2.2.2 reachable_demoSub (by decide)⟩,
    (joinSubreddit_adds_member demoSub "bob" "golang").2.1,
    (joinSubreddit_adds_member demoSub "carol" "golang").2.2 (Or.inl (by decide))⟩

theorem lookup_mapDelete_isSome {V : Type} (m : GoMap V) (k k' : String) :
    ((mapDelete m k).lookup k').isSome = true ↔ (k' ≠ k ∧ (m.lookup k').isSome = true) := by
  rw [lookup_mapDelete]
  by_cases h : k' = k
  · simp [h]
  · simp [h]

/-- After `username` has left the subreddit `s`, no post listed by `s` occurs in the unlimited
feed of `username`, provided the store before the call was reachable. -/
theorem not_mem_feed_after_leave {e : Engine} (hreach : Reachable e) (u s : String)
    {sub : Subreddit} (hs : e.subreddits.lookup s = some sub)
    (iter : GoMap Subreddit) (shuffle : List PostRef → List PostRef)
    (hperm : iter.Perm (LeaveSubreddit e u s).subreddits)
    (hshuffle : ∀ l, (shuffle l).Perm l) {pr : PostRef} (hpr : pr ∈ sub.Posts) :
    pr ∉ GetUserFeed (LeaveSubreddit e u s) iter shuffle u 0 := by
  intro hmem
  have hinv := reachable_storeInv (Reachable.leaveSubreddit u s hreach)
  have hs' : (LeaveSubreddit e u s).subreddits.lookup s
      = some { sub with Members := mapDelete sub.Members u } := by
    rw [leaveSubreddit_eq u hs]
    simp [lookup_mapModify_self, hs]
  cases hu : (LeaveSubreddit e u s).users.lookup u with
  | none =>
    rw [getUserFeed_unregistered _ iter shuffle 0 hu] at hmem
    cases hmem
  | some uo =>
    rw [getUserFeed_eq_all iter shuffle hu (le_refl 0)] at hmem
    have hmp : pr ∈ memberPosts (LeaveSubreddit e u s) u :=
      ((sortNewestFirst_perm hshuffle _ _).trans
        (getFeed_perm_memberPosts hperm u)).mem_iff.mp hmem
    obtain ⟨kv, hkv, hmember, hprkv⟩ := mem_memberPosts hmp
    have h1 := hinv.2.2 kv hkv pr hprkv
    have h2 := hinv.2.2 (s, { sub with Members := mapDelete sub.Members u })
      (mem_of_lookup_some hs') pr hpr
    rw [h1] at h2
    have hk : kv.1 = s := Option.some.inj h2
    have h3 : (LeaveSubreddit e u s).subreddits.lookup kv.1 = some kv.2 :=
      lookup_of_mem_keysNodup hinv.1 hkv
    rw [hk, hs'] at h3
    have h4 : kv.2 = { sub with Members := mapDelete sub.Members u } :=
      (Option.some.inj h3).symm
    rw [h4] at hmember
    simp [lookup_mapDelete] at hmember

/-- C19: for an existing subreddit `s`, after `LeaveSubreddit(u, s)` the subreddit has the
same name and posts and its member keys are the old ones without `u`; every other subreddit,
the users, the inboxes and both heaps are unchanged; when the store was reachable, the
unlimited feed of `u` afterwards contains no post listed by `s` (for every visiting order and
every behaviour of the sort).  If `u` is not a member of `s`, or `s` does not exist, the store
is unchanged. -/
theorem leaveSubreddit_removes_member (e : Engine) (u s : String) :
    (∀ sub, e.subreddits.lookup s = some sub →
      (∃ sub', (LeaveSubreddit e u s).subreddits.lookup s = some sub' ∧
        sub'.Name = sub.Name ∧ sub'.Posts = sub.Posts ∧
        (∀ k, (sub'.Members.lookup k).isSome = true ↔
          (k ≠ u ∧ (sub.Members.lookup k).isSome = true)) ∧
        (Reachable e → ∀ (iter : GoMap Subreddit) (shuffle : List PostRef → List PostRef),
          iter.Perm (LeaveSubreddit e u s).subreddits → (∀ l, (shuffle l).Perm l) →
          ∀ pr ∈ sub'.Posts, pr ∉ GetUserFeed (LeaveSubreddit e u s) iter shuffle u 0)) ∧
      (∀ k, k ≠ s → (LeaveSubreddit e u s).subreddits.lookup k = e.subreddits.lookup k) ∧
      (LeaveSubreddit e u s).users = e.users ∧
      (LeaveSubreddit e u s).messages = e.messages ∧
      (LeaveSubreddit e u s).postHeap = e.postHeap ∧
      (LeaveSubreddit e u s).commentHeap = e.commentHeap ∧
      (sub.Members.lookup u = none → LeaveSubreddit e u s = e)) ∧
    (e.subreddits.lookup s = none → LeaveSubreddit e u s = e) := by
  constructor
  · intro sub hs
    refine ⟨⟨{ sub with Members := mapDelete sub.Members u }, ?_, rfl, rfl, ?_, ?_⟩, ?_, ?_, ?_,
      ?_, ?_, ?_⟩
    · rw [leaveSubreddit_eq u hs]
      simp [lookup_mapModify_self, hs]
    · intro k
      exact lookup_mapDelete_isSome _ _ _
    · intro hreach iter shuffle hperm hshuffle pr hpr
      exact not_mem_feed_after_leave hreach u s hs iter shuffle hperm hshuffle hpr
    · intro k hk
      rw [leaveSubreddit_eq u hs]
      exact lookup_mapModify_ne _ _ _ _ hk
    · rw [leaveSubreddit_eq u hs]
    · rw [leaveSubreddit_eq u hs]
    · rw [leaveSubreddit_eq u hs]
    · rw [leaveSubreddit_eq u hs]
    · intro hnot
      rw [leaveSubreddit_eq u hs]
      have hfix : mapModify e.subreddits s
          (fun x => { x with Members := mapDelete x.Members u }) = e.subreddits := by
        apply mapModify_of_fixed
        intro v hv
        rw [hs] at hv
        cases hv
        simp [mapDelete_of_lookup_none hnot]
      rw [hfix]
  · intro hs
    simp [LeaveSubreddit, hs]

theorem reachable_demoPost : Reachable demoPost :=
  Reachable.postInSubreddit 7 "golang" "alice" "hello" reachable_demoSub

theorem leaveSubreddit_removes_member_witness :
    ((∃ sub', (LeaveSubreddit demoPost "bob" "golang").subreddits.lookup "golang" = some sub' ∧
        sub'.Name = "golang" ∧ sub'.Posts = [0] ∧
        (∀ k, (sub'.Members.lookup k).isSome = true ↔
          (k ≠ "bob" ∧
            (List.lookup k [("alice", "alice"), ("bob", "bob")]).isSome = true)) ∧
        ∀ pr ∈ sub'.Posts,
          pr ∉ GetUserFeed (LeaveSubreddit demoPost "bob" "golang")
            (LeaveSubreddit demoPost "bob" "golang").subreddits id "bob" 0) ∧
      LeaveSubreddit demoPost "carol" "golang" = demoPost) ∧
    LeaveSubreddit demoPost "bob" "rust" = demoPost :=
  ⟨⟨by
      obtain ⟨sub', h1, h2, h3, h4, h5⟩ :=
        ((leaveSubreddit_removes_member demoPost "bob" "golang").1
          { Name := "golang", Posts := [0], Members := [("alice", "alice"), ("bob", "bob")] }
          (by decide)).1
      exact ⟨sub', h1, h2, h3, h4,
        h5 reachable_demoPost _ id (List.Perm.refl _) (fun l => List.Perm.refl l)⟩,
      ((leaveSubreddit_removes_member demoPost "carol" "golang").1
        { Name := "golang", Posts := [0], Members := [("alice", "alice"), ("bob", "bob")] }
        (by decide)).2.2.2.2.2.2 (by decide)⟩,
    (leaveSubreddit_removes_member demoPost "bob" "rust").2 (by decide)⟩

/-! ## Identifiers -/

theorem reachable_demoTwoComments : Reachable demoTwoComments :=
  Reachable.commentOnPost "golang" "7" "alice" "again" reachable_demoComment

theorem reachable_demoTwoMessages : Reachable demoTwoMessages :=
  Reachable.sendDirectMessage "alice" "bob" "again"
    (Reachable.sendDirectMessage "alice" "bob" "hi"
      (Reachable.registerAccount "bob"
        (Reachable.registerAccount "alice" Reachable.init)))

/-- C20: two reachable stores in which identifiers repeat.  After bob and alice have each
commented on post "7" with `CommentOnPost`, the two comments (at distinct places of the comment
heap, with different authors and contents) both carry the identifier "".  After alice has
sent bob two messages with `SendDirectMessage`, bob's inbox holds two different messages that
both carry the identifier "". -/
theorem comment_and_message_identifiers_repeat :
    Reachable demoTwoComments ∧
    demoTwoComments.commentHeap.map (fun c => (c.ID, c.Author, c.Content))
      = [("", some "bob", "nice"), ("", some "alice", "again")] ∧
    Reachable demoTwoMessages ∧
    (GetDirectMessages demoTwoMessages "bob").map (fun m => (m.ID, m.Content))
      = [("", "hi"), ("", "again")] :=
  ⟨reachable_demoTwoComments, by decide, reachable_demoTwoMessages, by decide⟩

/-! ## The general sort -/

theorem sortSlice_perm {α : Type} (r : α → α → Prop) [DecidableRel r]
    {shuffle : List α → List α} (hshuffle : ∀ l, (shuffle l).Perm l) (slice : List α) :
    (sortSlice r shuffle slice).Perm slice :=
  (List.perm_insertionSort _ _).trans (hshuffle slice)

theorem sortSlice_sorted {α : Type} (r : α → α → Prop) [DecidableRel r] [IsTotal α r]
    [IsTrans α r] (shuffle : List α → List α) (slice : List α) :
    (sortSlice r shuffle slice).Sorted r :=
  List.sorted_insertionSort _ _

/-- Every arrangement of the slice that is in order is a possible result of `sort.Slice`. -/
theorem sortSlice_complete {α : Type} (r : α → α → Prop) [DecidableRel r]
    (slice out : List α) (hperm : out.Perm slice) (hsorted : out.Sorted r) :
    ∃ shuffle : List α → List α,
      (∀ l, (shuffle l).Perm l) ∧ sortSlice r shuffle slice = out := by
  classical
  refine ⟨fun l => if l.Perm out then out else l, ?_, ?_⟩
  · intro l
    by_cases h : l.Perm out
    · simp only [h, if_true]
      exact h.symm
    · simp only [h, if_false]
      exact List.Perm.refl l
  · unfold sortSlice
    simp only [hperm.symm, if_true]
    exact hsorted.insertionSort_eq

/-! ## Search (live server) -/

theorem handleSearch_foldl (lower : String → String) (contains : String → String → Bool)
    (q : String) (iter : GoMap models.Post) (acc : List models.Post) :
    iter.foldl (fun results kv =>
        if contains (lower kv.2.Title) (lower q) || contains (lower kv.2.Content) (lower q) ||
            contains (lower kv.2.SubredditName) (lower q) then results ++ [kv.2]
        else results) acc
      = acc ++ (iter.filter (fun kv => searchMatches lower contains q kv.2)).map
          (fun kv => kv.2) := by
  induction iter generalizing acc with
  | nil => simp
  | cons kv iter ih =>
    rw [List.foldl_cons, ih]
    by_cases h : searchMatches lower contains q kv.2 = true
    · have h' := h
      unfold searchMatches at h'
      simp [h, h', List.filter_cons]
    · have h' := h
      unfold searchMatches at h'
      simp [h, h', List.filter_cons]

theorem handleSearch_eq (lower : String → String) (contains : String → String → Bool)
    (iter : GoMap models.Post) (shuffle : List models.Post → List models.Post) {q : String}
    (hq : q ≠ "") :
    handleSearch lower contains iter shuffle q
      = (200, sortSlice NotCreatedBefore shuffle
          ((iter.filter (fun kv => searchMatches lower contains q kv.2)).map (fun kv => kv.2))) := by
  have hb : (q == "") = false := by simpa using hq
  simp only [handleSearch, hb]
  rw [handleSearch_foldl]
  simp

/-- C21: for a non-empty query `q`, whatever the visiting order of the post table and the
behaviour of the sort on equal creation times, the search handler answers 200 with a
rearrangement of exactly the stored posts whose lower-cased title, content or subreddit name
contains the lower-cased `q`; the creation times along the result never increase; and a query
with the same lower-cased form gives the same answer. -/
theorem handleSearch_returns_matches (lower : String → String)
    (contains : String → String → Bool) (s : Server) (iter : GoMap models.Post)
    (shuffle : List models.Post → List models.Post) (q : String)
    (hperm : iter.Perm s.posts) (hshuffle : ∀ l, (shuffle l).Perm l) (hq : q ≠ "") :
    (handleSearch lower contains iter shuffle q).1 = 200 ∧
    (handleSearch lower contains iter shuffle q).2.Perm
      ((s.posts.filter (fun kv => searchMatches lower contains q kv.2)).map (fun kv => kv.2)) ∧
    (∀ p, p ∈ (handleSearch lower contains iter shuffle q).2 ↔
      ∃ kv ∈ s.posts, kv.2 = p ∧ searchMatches lower contains q p = true) ∧
    ((handleSearch lower contains iter shuffle q).2.map (fun p => p.CreatedAt)).Sorted
      (· ≥ ·) ∧
    (∀ q', q' ≠ "" → lower q' = lower q →
      handleSearch lower contains iter shuffle q' = handleSearch lower contains iter shuffle q) := by
  have hp : (handleSearch lower contains iter shuffle q).2.Perm
      ((s.posts.filter (fun kv => searchMatches lower contains q kv.2)).map
        (fun kv => kv.2)) := by
    rw [handleSearch_eq lower contains iter shuffle hq]
    exact (sortSlice_perm _ hshuffle _).trans ((hperm.filter _).map _)
  refine ⟨by rw [handleSearch_eq lower contains iter shuffle hq], hp, ?_, ?_, ?_⟩
  · intro p
    rw [hp.mem_iff, List.mem_map]
    constructor
    · rintro ⟨kv, hkv, rfl⟩
      rw [List.mem_filter] at hkv
      exact ⟨kv, hkv.1, rfl, hkv.2⟩
    · rintro ⟨kv, hkv, rfl, hm⟩
      exact ⟨kv, List.mem_filter.mpr ⟨hkv, hm⟩, rfl⟩
  · rw [handleSearch_eq lower contains iter shuffle hq]
    exact List.pairwise_map.mpr (sortSlice_sorted NotCreatedBefore shuffle _)
  · intro q' hq' hlow
    rw [handleSearch_eq lower contains iter shuffle hq,
      handleSearch_eq lower contains iter shuffle hq']
    have : (fun kv : String × models.Post => searchMatches lower contains q' kv.2)
        = (fun kv => searchMatches lower contains q kv.2) := by
      funext kv
      simp [searchMatches, hlow]
    rw [this]

theorem handleSearch_returns_matches_witness :
    (handleSearch String.toLower containsChars demoServer.posts id "GO").1 = 200 ∧
    (handleSearch String.toLower containsChars demoServer.posts id "GO").2.Perm
      ((demoServer.posts.filter
        (fun kv => searchMatches String.toLower containsChars "GO" kv.2)).map (fun kv => kv.2)) ∧
    (∀ p, p ∈ (handleSearch String.toLower containsChars demoServer.posts id "GO").2 ↔
      ∃ kv ∈ demoServer.posts, kv.2 = p ∧
        searchMatches String.toLower containsChars "GO" p = true) ∧
    ((handleSearch String.toLower containsChars demoServer.posts id "GO").2.map
      (fun p => p.CreatedAt)).Sorted (· ≥ ·) ∧
    (∀ q', q' ≠ "" → String.toLower q' = String.toLower "GO" →
      handleSearch String.toLower containsChars demoServer.posts id q'
        = handleSearch String.toLower containsChars demoServer.posts id "GO") :=
  handleSearch_returns_matches String.toLower containsChars demoServer demoServer.posts id "GO"
    (List.Perm.refl _) (fun l => List.Perm.refl l) (by decide)

/-! ## Popular subreddits -/

/-- C22: whatever the visiting order of the map and the behaviour of the sort on equal member
counts, `GetPopularSubreddits` returns a rearrangement of the entries of the subreddit map,
each subreddit of the store once (in a reachable store no name occurs twice), and the member
counts along the result never increase. -/
theorem getPopularSubreddits_all_by_member_count (e : Engine) (iter : GoMap Subreddit)
    (shuffle : List (SubRef × Subreddit) → List (SubRef × Subreddit))
    (hperm : iter.Perm e.subreddits) (hshuffle : ∀ l, (shuffle l).Perm l) :
    (GetPopularSubreddits iter shuffle).Perm e.subreddits ∧
    (Reachable e → ((GetPopularSubreddits iter shuffle).map (fun kv => kv.1)).Nodup) ∧
    ((GetPopularSubreddits iter shuffle).map (fun kv => kv.2.Members.length)).Sorted
      (· ≥ ·) := by
  have hp : (GetPopularSubreddits iter shuffle).Perm e.subreddits :=
    (sortSlice_perm _ hshuffle _).trans hperm
  refine ⟨hp, ?_, ?_⟩
  · intro hreach
    exact ((hp.map _).nodup_iff).mpr (reachable_storeInv hreach).1
  · exact List.pairwise_map.mpr (sortSlice_sorted NotFewerMembers shuffle _)

theorem reachable_demoThreeSubs : Reachable demoThreeSubs :=
  Reachable.joinSubreddit "alice" "b"
    (Reachable.createSubreddit "c"
      (Reachable.createSubreddit "b"
        (Reachable.createSubreddit "a"
          (Reachable.registerAccount "alice" Reachable.init))))

theorem getPopularSubreddits_all_by_member_count_witness :
    demoThreeSubs.subreddits.map (fun kv => (kv.1, kv.2.Members.length))
      = [("a", 0), ("b", 1), ("c", 0)] ∧
    (GetPopularSubreddits demoThreeSubs.subreddits id).map
        (fun kv => (kv.1, kv.2.Members.length))
      = [("b", 1), ("a", 0), ("c", 0)] ∧
    (GetPopularSubreddits demoThreeSubs.subreddits id).Perm demoThreeSubs.subreddits ∧
    ((GetPopularSubreddits demoThreeSubs.subreddits id).map (fun kv => kv.1)).Nodup ∧
    ((GetPopularSubreddits demoThreeSubs.subreddits id).map
      (fun kv => kv.2.Members.length)).Sorted (· ≥ ·) :=
  ⟨by decide, by decide,
    (getPopularSubreddits_all_by_member_count demoThreeSubs demoThreeSubs.subreddits id
      (List.Perm.refl _) (fun l => List.Perm.refl l)).1,
    (getPopularSubreddits_all_by_member_count demoThreeSubs demoThreeSubs.subreddits id
      (List.Perm.refl _) (fun l => List.Perm.refl l)).2.1 reachable_demoThreeSubs,
    (getPopularSubreddits_all_by_member_count demoThreeSubs demoThreeSubs.subreddits id
      (List.Perm.refl _) (fun l => List.Perm.refl l)).2.2⟩

/-- C23, as stated, fails: in the store where "a" was created before "b" and neither has a
member, the map may be visited in the order "b", "a"; the sort then has nothing to move and
`GetPopularSubreddits` returns "b" before "a". -/
theorem getPopularSubreddits_tie_not_in_creation_order :
    demoTwoSubs.subreddits.map (fun kv => (kv.1, kv.2.Members.length)) = [("a", 0), ("b", 0)] ∧
    List.Perm demoTwoSubs.subreddits.reverse demoTwoSubs.subreddits ∧
    (GetPopularSubreddits demoTwoSubs.subreddits.reverse id).map (fun kv => kv.1)
      = ["b", "a"] := by
  refine ⟨by decide, List.reverse_perm _, by decide⟩

theorem sublist_pair_of_mem {α : Type} {l : List α} {a b : α} (ha : a ∈ l) (hb : b ∈ l)
    (hne : a ≠ b) : List.Sublist [a, b] l ∨ List.Sublist [b, a] l := by
  induction l with
  | nil => cases ha
  | cons x t ih =>
    by_cases hax : a = x
    · subst hax
      have hbt : b ∈ t := by
        rcases List.mem_cons.mp hb with h | h
        · exact absurd h.symm hne
        · exact h
      exact Or.inl (List.Sublist.cons₂ a (List.singleton_sublist.mpr hbt))
    · by_cases hbx : b = x
      · subst hbx
        have hat : a ∈ t := by
          rcases List.mem_cons.mp ha with h | h
          · exact absurd h hax
          · exact h
        exact Or.inr (List.Sublist.cons₂ b (List.singleton_sublist.mpr hat))
      · have hat : a ∈ t := by
          rcases List.mem_cons.mp ha with h | h
          · exact absurd h hax
          · exact h
        have hbt : b ∈ t := by
          rcases List.mem_cons.mp hb with h | h
          · exact absurd h hbx
          · exact h
        rcases ih hat hbt with h | h
        · exact Or.inl (List.Sublist.cons x h)
        · exact Or.inr (List.Sublist.cons x h)

/-- C23, amended: whatever the visiting order of the map and the behaviour of the sort, in
the result of `GetPopularSubreddits` a subreddit with more members stands before every
subreddit with fewer members and never after it, and the sequence of member counts along the
result is the same for any two visiting orders and behaviours of the sort.  Nothing is said
about the order of subreddits with equal member counts. -/
theorem getPopularSubreddits_more_members_first (e : Engine) (iter iter2 : GoMap Subreddit)
    (shuffle shuffle2 : List (SubRef × Subreddit) → List (SubRef × Subreddit))
    (hperm : iter.Perm e.subreddits) (hperm2 : iter2.Perm e.subreddits)
    (hshuffle : ∀ l, (shuffle l).Perm l) (hshuffle2 : ∀ l, (shuffle2 l).Perm l) :
    (∀ a b, a ∈ e.subreddits → b ∈ e.subreddits →
      b.2.Members.length < a.2.Members.length →
        List.Sublist [a, b] (GetPopularSubreddits iter shuffle) ∧
        ¬ List.Sublist [b, a] (GetPopularSubreddits iter shuffle)) ∧
    (GetPopularSubreddits iter shuffle).map (fun kv => kv.2.Members.length)
      = (GetPopularSubreddits iter2 shuffle2).map (fun kv => kv.2.Members.length) := by
  have hp : (GetPopularSubreddits iter shuffle).Perm e.subreddits :=
    (sortSlice_perm _ hshuffle _).trans hperm
  have hp2 : (GetPopularSubreddits iter2 shuffle2).Perm e.subreddits :=
    (sortSlice_perm _ hshuffle2 _).trans hperm2
  have hs : (GetPopularSubreddits iter shuffle).Pairwise NotFewerMembers :=
    sortSlice_sorted NotFewerMembers shuffle _
  have hs2 : (GetPopularSubreddits iter2 shuffle2).Pairwise NotFewerMembers :=
    sortSlice_sorted NotFewerMembers shuffle2 _
  constructor
  · intro a b ha hb hlt
    have hnot : ¬ List.Sublist [b, a] (GetPopularSubreddits iter shuffle) := by
      intro hsub
      have hle : a.2.Members.length ≤ b.2.Members.length :=
        List.pairwise_iff_forall_sublist.mp hs hsub
      exact absurd hlt (Nat.not_lt.mpr hle)
    have hne : a ≠ b := by
      intro heq
      rw [heq] at hlt
      exact Nat.lt_irrefl _ hlt
    refine ⟨?_, hnot⟩
    rcases sublist_pair_of_mem (hp.mem_iff.mpr ha) (hp.mem_iff.mpr hb) hne with h | h
    · exact h
    · exact absurd h hnot
  · have hsorted : ((GetPopularSubreddits iter shuffle).map
        (fun kv => kv.2.Members.length)).Sorted (· ≥ ·) := List.pairwise_map.mpr hs
    have hsorted2 : ((GetPopularSubreddits iter2 shuffle2).map
        (fun kv => kv.2.Members.length)).Sorted (· ≥ ·) := List.pairwise_map.mpr hs2
    exact List.eq_of_perm_of_sorted ((hp.trans hp2.symm).map _) hsorted hsorted2

theorem getPopularSubreddits_more_members_first_witness :
    (demoThreeSubs.subreddits.rotate 1).map (fun kv => kv.1) = ["b", "c", "a"] ∧
    (GetPopularSubreddits demoThreeSubs.subreddits id).map (fun kv => kv.1)
      = ["b", "a", "c"] ∧
    (GetPopularSubreddits (demoThreeSubs.subreddits.rotate 1) id).map (fun kv => kv.1)
      = ["b", "c", "a"] ∧
    (∀ a b, a ∈ demoThreeSubs.subreddits → b ∈ demoThreeSubs.subreddits →
      b.2.Members.length < a.2.Members.length →
        List.Sublist [a, b] (GetPopularSubreddits demoThreeSubs.subreddits id) ∧
        ¬ List.Sublist [b, a] (GetPopularSubreddits demoThreeSubs.subreddits id)) ∧
    (GetPopularSubreddits demoThreeSubs.subreddits id).map (fun kv => kv.2.Members.length)
      = (GetPopularSubreddits (demoThreeSubs.subreddits.rotate 1) id).map
          (fun kv => kv.2.Members.length) :=
  ⟨by decide, by decide, by decide,
    getPopularSubreddits_more_members_first demoThreeSubs demoThreeSubs.subreddits
      (demoThreeSubs.subreddits.rotate 1) id id (List.Perm.refl _) (List.rotate_perm _ _)
      (fun l => List.Perm.refl l) (fun l => List.Perm.refl l)⟩

/-! ## Creation times -/

theorem postInSubreddit_cases (e : Engine) (rnd : Nat) (s a content : String) :
    PostInSubreddit e rnd s a content = (none, e) ∨
    PostInSubreddit e rnd s a content = (some e.postHeap.length,
      { e with
        postHeap := e.postHeap ++
          [{ ID := toString rnd, Author := some a, Subreddit := some s, Content := content,
             Timestamp := 0, Upvotes := 0, Downvotes := 0, Comments := [], IsRepost := false,
             OriginalPost := none }]
        subreddits := mapModify e.subreddits s
          (fun x => { x with Posts := x.Posts ++ [e.postHeap.length] })
        users := mapModify e.users a
          (fun x => { x with Posts := x.Posts ++ [e.postHeap.length] }) }) := by
  cases hu : e.users.lookup a with
  | none => left; simp [PostInSubreddit, hu]
  | some u =>
    cases hs : e.subreddits.lookup s with
    | none => left; simp [PostInSubreddit, hu, hs]
    | some sub => right; exact postInSubreddit_eq rnd content hs hu

theorem createdAt_zero_serve (s : Server) (req : Request)
    (h : ∀ kv ∈ s.posts, kv.2.CreatedAt = 0) : ∀ kv ∈ (serve s req).posts, kv.2.CreatedAt = 0 := by
  cases req with
  | createPost newID body xUser =>
    cases body with
    | none => exact h
    | some b =>
      obtain ⟨title, content, subreddit⟩ := b
      intro kv hkv
      rcases mem_mapSet hkv with h1 | h1
      · subst h1
        rfl
      · exact h kv h1
  | createComment postID body newID xUser =>
    cases postID with
    | none => exact h
    | some postID =>
      cases body with
      | none => exact h
      | some b =>
        obtain ⟨content, parentID⟩ := b
        cases hl : s.posts.lookup postID with
        | none =>
          simp only [serve, handleCreateComment, hl]
          exact h
        | some post =>
          simp only [serve, handleCreateComment, hl]
          intro kv hkv
          rcases mem_mapModify hkv with h1 | ⟨v, hv, hf⟩
          · exact h kv h1
          · rw [hf]
            exact h _ hv
  | votePost postID body username =>
    cases postID with
    | none => exact h
    | some postID =>
      cases body with
      | none => exact h
      | some isUpvote =>
        by_cases hu : username = ""
        · simp only [serve, handleVotePost, hu, beq_self_eq_true, if_true]
          exact h
        · have hb : (username == "") = false := by simpa using hu
          cases hl : s.posts.lookup postID with
          | none =>
            simp only [serve, handleVotePost, hb, hl]
            exact h
          | some post =>
            cases isUpvote
            all_goals
              simp only [serve, handleVotePost, hb, hl]
              intro kv hkv
              rcases mem_mapModify hkv with h1 | ⟨v, hv, hf⟩
              · exact h kv h1
              · rw [hf]
                exact h _ hv
  | voteComment commentID body username =>
    cases commentID with
    | none => exact h
    | some commentID =>
      cases body with
      | none => exact h
      | some isUpvote =>
        by_cases hu : username = ""
        · simp only [serve, handleVoteComment, hu, beq_self_eq_true, if_true]
          exact h
        · have hb : (username == "") = false := by simpa using hu
          cases hl : s.comments.lookup commentID with
          | none =>
            simp only [serve, handleVoteComment, hb, hl]
            exact h
          | some c =>
            cases isUpvote
            all_goals
              simp only [serve, handleVoteComment, hb, hl]
              exact h

theorem createdAt_zero_serveAll (requests : List Request) (s : Server)
    (h : ∀ kv ∈ s.posts, kv.2.CreatedAt = 0) :
    ∀ kv ∈ (serveAll s requests).posts, kv.2.CreatedAt = 0 := by
  induction requests generalizing s with
  | nil => exact h
  | cons req requests ih => exact ih _ (createdAt_zero_serve s req h)

/-- C29: no creation time is recorded.  A post returned by `PostInSubreddit` has the zero
timestamp; the post stored by `handleCreatePost`, and every post in the table of a server
after any sequence of requests, has the zero creation time.  Two posts with the zero timestamp
may each stand before the other in the newest-first order, so the order of such posts is not
determined: when all posts collected for the feed have the zero timestamp, every arrangement
of them is returned by `GetUserFeed` for some behaviour of the sort, and likewise every
arrangement of the matching posts is returned by the search handler. -/
theorem post_creation_records_no_time :
    (∀ (e : Engine) (rnd : Nat) (s a content : String) (r : PostRef) (e' : Engine),
      PostInSubreddit e rnd s a content = (some r, e') →
      (e'.postHeap[r]?).map (fun p => p.Timestamp) = some 0) ∧
    (∀ (s : Server) (newID : UUID) (title content subreddit xUser : String),
      ((handleCreatePost s newID (some (title, content, subreddit)) xUser).2.posts.lookup
        newID).map (fun p => p.CreatedAt) = some 0) ∧
    (∀ (requests : List Request), ∀ kv ∈ (serveAll NewServer requests).posts,
      kv.2.CreatedAt = 0) ∧
    (∀ (heap : List Post) (a b : PostRef), postTime heap a = 0 → postTime heap b = 0 →
      NotOlder heap a b ∧ NotOlder heap b a) ∧
    (∀ (e : Engine) (iter : GoMap Subreddit) (u : String) (uo : User),
      e.users.lookup u = some uo →
      (∀ pr ∈ GetFeed iter u, postTime e.postHeap pr = 0) →
      ∀ out : List PostRef, out.Perm (GetFeed iter u) →
      ∃ shuffle : List PostRef → List PostRef,
        (∀ l, (shuffle l).Perm l) ∧ GetUserFeed e iter shuffle u 0 = out) ∧
    (∀ (lower : String → String) (contains : String → String → Bool)
      (iter : GoMap models.Post) (q : String), q ≠ "" →
      (∀ kv ∈ iter, kv.2.CreatedAt = 0) →
      ∀ out : List models.Post,
        out.Perm ((iter.filter (fun kv => searchMatches lower contains q kv.2)).map
          (fun kv => kv.2)) →
      ∃ shuffle : List models.Post → List models.Post,
        (∀ l, (shuffle l).Perm l) ∧ (handleSearch lower contains iter shuffle q).2 = out) := by
  refine ⟨?_, ?_, ?_, ?_, ?_, ?_⟩
  · intro e rnd s a content r e' h
    rcases postInSubreddit_cases e rnd s a content with h0 | h1
    · rw [h0] at h
      cases h
    · rw [h1] at h
      cases h
      simp
  · intro s newID title content subreddit xUser
    simp [handleCreatePost, lookup_mapSet_self]
  · intro requests
    exact createdAt_zero_serveAll requests NewServer
      (fun _ h => absurd h (List.not_mem_nil _))
  · intro heap a b ha hb
    unfold NotOlder
    rw [ha, hb]
    exact ⟨le_refl 0, le_refl 0⟩
  · intro e iter u uo hu hzero out hout
    have hsorted : out.Sorted (NotOlder e.postHeap) := by
      apply List.pairwise_of_forall_mem_list
      intro a ha b hb
      unfold NotOlder
      rw [hzero a (hout.mem_iff.mp ha), hzero b (hout.mem_iff.mp hb)]
    obtain ⟨shuffle, h1, h2⟩ := sortNewestFirst_complete e.postHeap _ out hout hsorted
    exact ⟨shuffle, h1, by rw [getUserFeed_eq_all iter shuffle hu (le_refl 0)]; exact h2⟩
  · intro lower contains iter q hq hzero out hout
    have hsorted : out.Sorted NotCreatedBefore := by
      apply List.pairwise_of_forall_mem_list
      intro a ha b hb
      have hmem : ∀ x ∈ out, x.CreatedAt = 0 := by
        intro x hx
        obtain ⟨kv, hkv, rfl⟩ := List.mem_map.mp (hout.mem_iff.mp hx)
        exact hzero kv (List.mem_of_mem_filter hkv)
      unfold NotCreatedBefore
      rw [hmem a ha, hmem b hb]
    obtain ⟨shuffle, h1, h2⟩ := sortSlice_complete NotCreatedBefore _ out hout hsorted
    exact ⟨shuffle, h1, by rw [handleSearch_eq lower contains iter shuffle hq]; exact h2⟩

theorem reachable_demoTwoPosts : Reachable demoTwoPosts :=
  Reachable.postInSubreddit 8 "golang" "bob" "world" reachable_demoPost

theorem post_creation_records_no_time_witness :
    (demoTwoPosts.postHeap[1]?).map (fun p => p.Timestamp) = some 0 ∧
    (∃ shuffle : List PostRef → List PostRef,
      (∀ l, (shuffle l).Perm l) ∧
      GetUserFeed demoTwoPosts demoTwoPosts.subreddits shuffle "bob" 0 = [0, 1]) ∧
    (∃ shuffle : List PostRef → List PostRef,
      (∀ l, (shuffle l).Perm l) ∧
      GetUserFeed demoTwoPosts demoTwoPosts.subreddits shuffle "bob" 0 = [1, 0]) :=
  ⟨post_creation_records_no_time.1 demoPost 8 "golang" "bob" "world" 1 demoTwoPosts
      (by decide),
    post_creation_records_no_time.2.2.2.2.1 demoTwoPosts demoTwoPosts.subreddits "bob"
      { Username := "bob", Karma := 0, Posts := [1], Comments := [], Connected := false }
      (by decide) (by decide) [0, 1] (by decide),
    post_creation_records_no_time.2.2.2.2.1 demoTwoPosts demoTwoPosts.subreddits "bob"
      { Username := "bob", Karma := 0, Posts := [1], Comments := [], Connected := false }
      (by decide) (by decide) [1, 0] (by decide)⟩

/-! ## Members are registered users -/

theorem mem_keys_mapSet {V : Type} {m : GoMap V} {k x : String} {v : V}
    (h : x ∈ (mapSet m k v).map (fun kv => kv.1)) : x = k ∨ x ∈ m.map (fun kv => kv.1) := by
  obtain ⟨kv, hkv, rfl⟩ := List.mem_map.mp h
  rcases mem_mapSet hkv with h1 | h1
  · left
    rw [h1]
  · right
    exact List.mem_map.mpr ⟨kv, h1, rfl⟩

theorem keysNodup_mapSet {V : Type} {m : GoMap V} (k : String) (v : V) (h : KeysNodup m) :
    KeysNodup (mapSet m k v) := by
  induction m with
  | nil => simp [KeysNodup, mapSet]
  | cons kv m ih =>
    obtain ⟨k', v'⟩ := kv
    unfold KeysNodup at h ih ⊢
    simp only [List.map_cons, List.nodup_cons] at h
    by_cases hk : k' = k
    · subst hk
      simp only [mapSet, beq_self_eq_true, if_true, List.map_cons, List.nodup_cons]
      exact h
    · have hms : mapSet ((k', v') :: m) k v = (k', v') :: mapSet m k v := by
        simp [mapSet, hk]
      rw [hms]
      simp only [List.map_cons, List.nodup_cons]
      refine ⟨?_, ih h.2⟩
      intro hmem
      rcases mem_keys_mapSet hmem with h1 | h1
      · exact hk h1
      · exact h.1 h1

theorem keysNodup_mapDelete {V : Type} {m : GoMap V} (k : String) (h : KeysNodup m) :
    KeysNodup (mapDelete m k) := by
  unfold KeysNodup mapDelete at *
  exact List.Nodup.sublist ((List.filter_sublist m).map _) h

theorem lookup_mapModify_isSome {V : Type} (m : GoMap V) (k k' : String) (f : V → V) :
    ((mapModify m k f).lookup k').isSome = (m.lookup k').isSome := by
  by_cases h : k' = k
  · subst h
    rw [lookup_mapModify_self]
    cases m.lookup k' <;> rfl
  · rw [lookup_mapModify_ne _ _ _ _ h]

theorem registryInv_users_set {users : GoMap User} {subreddits : GoMap Subreddit}
    (h : RegistryInv users subreddits) {k : String} {u : User} (hname : u.Username = k) :
    RegistryInv (mapSet users k u) subreddits := by
  obtain ⟨h1, h2, h3⟩ := h
  refine ⟨?_, h2, ?_⟩
  · intro kv hkv
    rcases mem_mapSet hkv with hnew | hold
    · subst hnew
      exact hname
    · exact h1 kv hold
  · intro kv hkv m hm
    exact (lookup_mapSet_isSome users k m.1 u).mpr (Or.inr (h3 kv hkv m hm))

theorem registryInv_users_modify {users : GoMap User} {subreddits : GoMap Subreddit}
    (h : RegistryInv users subreddits) (k : String) {f : User → User}
    (hf : ∀ u, (f u).Username = u.Username) :
    RegistryInv (mapModify users k f) subreddits := by
  obtain ⟨h1, h2, h3⟩ := h
  refine ⟨?_, h2, ?_⟩
  · intro kv hkv
    rcases mem_mapModify hkv with hold | ⟨v, hv, hfv⟩
    · exact h1 kv hold
    · rw [hfv, hf]
      exact h1 _ hv
  · intro kv hkv m hm
    rw [lookup_mapModify_isSome]
    exact h3 kv hkv m hm

theorem registryInv_subs_create {users : GoMap User} {subreddits : GoMap Subreddit}
    (h : RegistryInv users subreddits) (name : String) :
    RegistryInv users (mapSet subreddits name { Name := name, Posts := [], Members := [] }) := by
  obtain ⟨h1, h2, h3⟩ := h
  refine ⟨h1, ?_, ?_⟩
  · intro kv hkv
    rcases mem_mapSet hkv with hnew | hold
    · subst hnew
      simp [KeysNodup]
    · exact h2 kv hold
  · intro kv hkv m hm
    rcases mem_mapSet hkv with hnew | hold
    · subst hnew
      cases hm
    · exact h3 kv hold m hm

theorem registryInv_subs_modify {users : GoMap User} {subreddits : GoMap Subreddit}
    (h : RegistryInv users subreddits) (s : String) {f : Subreddit → Subreddit}
    (hnd : ∀ sub, KeysNodup sub.Members → KeysNodup (f sub).Members)
    (hmem : ∀ sub, ∀ m ∈ (f sub).Members,
      m ∈ sub.Members ∨ (users.lookup m.1).isSome = true) :
    RegistryInv users (mapModify subreddits s f) := by
  obtain ⟨h1, h2, h3⟩ := h
  refine ⟨h1, ?_, ?_⟩
  · intro kv hkv
    rcases mem_mapModify hkv with hold | ⟨v, hv, hfv⟩
    · exact h2 kv hold
    · rw [hfv]
      exact hnd v (h2 _ hv)
  · intro kv hkv m hm
    rcases mem_mapModify hkv with hold | ⟨v, hv, hfv⟩
    · exact h3 kv hold m hm
    · rw [hfv] at hm
      rcases hmem v m hm with h4 | h4
      · exact h3 _ hv m h4
      · exact h4

theorem registryInv_upvote {e e' : Engine} {iter iter2 : GoMap Subreddit} {id : String}
    {b : Bool} {v : String} (h : RegistryInv e.users e.subreddits) (hl : ParentLinked e)
    (hperm : iter.Perm e.subreddits) (hperm2 : iter2.Perm e.subreddits)
    (hres : Upvote e iter iter2 id b v = some e') : RegistryInv e'.users e'.subreddits := by
  cases hv : e.users.lookup v with
  | none =>
    rw [upvote_of_unregistered e iter iter2 id b hv] at hres
    cases hres
    exact h
  | some vu =>
    cases hf : findPost e.postHeap iter id with
    | none =>
      have hno := findPost_none.mp hf
      rw [upvote_of_no_post hl hperm hperm2 id b v
        (fun kv hkv => hno kv (hperm.mem_iff.mpr hkv))] at hres
      cases hres
      exact h
    | some found =>
      obtain ⟨pr, post⟩ := found
      cases ha : post.Author with
      | none => cases b <;> simp [Upvote, hv, hf, ha, karmaThrough] at hres
      | some a =>
        cases b
        · rw [upvote_post_down iter2 hv hf ha] at hres
          cases hres
          refine registryInv_users_modify (registryInv_users_modify h a ?_) v ?_ <;>
            (intro u; rfl)
        · rw [upvote_post_up iter2 hv hf ha] at hres
          cases hres
          refine registryInv_users_modify (registryInv_users_modify h a ?_) v ?_ <;>
            (intro u; rfl)

/-- In every reachable store a user object carries the name it is stored under, no member map
binds a key twice, and every member key is a registered name. -/
theorem reachable_registryInv {e : Engine} (h : Reachable e) :
    RegistryInv e.users e.subreddits := by
  induction h with
  | init =>
    refine ⟨?_, ?_, ?_⟩ <;> intro kv hkv <;> simp [NewEngine] at hkv
  | @registerAccount e username _ ih =>
    cases hu : e.users.lookup username with
    | some uo => simpa [RegisterAccount, hu] using ih
    | none =>
      simp only [RegisterAccount, hu]
      exact registryInv_users_set ih rfl
  | @createSubreddit e name _ ih =>
    cases hs : e.subreddits.lookup name with
    | some sub => simpa [CreateSubreddit, hs] using ih
    | none =>
      simp only [CreateSubreddit, hs]
      exact registryInv_subs_create ih name
  | @joinSubreddit e username subredditName _ ih =>
    cases hu : e.users.lookup username with
    | none => simpa [JoinSubreddit, hu] using ih
    | some uo =>
      cases hs : e.subreddits.lookup subredditName with
      | none => simpa [JoinSubreddit, hu, hs] using ih
      | some sub =>
        rw [joinSubreddit_eq hu hs]
        refine registryInv_subs_modify ih subredditName ?_ ?_
        · intro sub hsub
          exact keysNodup_mapSet username username hsub
        intro x m hm
        rcases mem_mapSet hm with hnew | hold
        · right
          rw [hnew]
          simp [hu]
        · exact Or.inl hold
  | @leaveSubreddit e username subredditName _ ih =>
    cases hs : e.subreddits.lookup subredditName with
    | none => simpa [LeaveSubreddit, hs] using ih
    | some sub =>
      rw [leaveSubreddit_eq username hs]
      refine registryInv_subs_modify ih subredditName ?_ ?_
      · intro sub hsub
        exact keysNodup_mapDelete username hsub
      · intro x m hm
        exact Or.inl (List.mem_of_mem_filter hm)
  | @setUserConnection e username connected _ ih =>
    cases hu : e.users.lookup username with
    | none => simpa [SetUserConnection, hu] using ih
    | some uo =>
      simp only [SetUserConnection, hu]
      refine registryInv_users_modify ih username ?_
      intro u
      rfl
  | @postInSubreddit e rnd subredditName username content _ ih =>
    rcases postInSubreddit_cases e rnd subredditName username content with h0 | h1
    · rw [h0]
      exact ih
    · rw [h1]
      refine registryInv_subs_modify (registryInv_users_modify ih username ?_)
        subredditName ?_ ?_
      · intro u
        rfl
      · intro sub hsub
        exact hsub
      · intro x m hm
        exact Or.inl hm
  | @commentOnPost e subredditName postID username content _ ih =>
    cases hu : e.users.lookup username with
    | none => simpa [CommentOnPost, hu] using ih
    | some u =>
      cases hs : e.subreddits.lookup subredditName with
      | none => simpa [CommentOnPost, hu, hs] using ih
      | some sub =>
        cases hf : firstPostWithID e.postHeap sub.Posts postID with
        | none => simpa [CommentOnPost, hu, hs, hf] using ih
        | some found =>
          obtain ⟨pr, p⟩ := found
          rw [commentOnPost_eq content hu hs hf]
          refine registryInv_users_modify ih username ?_
          intro u
          rfl
  | @replyToComment e iter rnd now postID parentCommentID username content _ _ ih =>
    rcases replyToComment_cases e iter rnd now postID parentCommentID username content with
      h0 | ⟨pr, cr, parent, -, -, h1⟩
    · rw [h0]
      exact ih
    · rw [h1]
      refine registryInv_users_modify ih username ?_
      intro u
      rfl
  | @repost e e' iter rnd now originalPostID username subredditName r _ _ hres ih =>
    cases hf : findPost e.postHeap iter originalPostID with
    | none =>
      simp only [Repost, hf, Option.some.injEq, Prod.mk.injEq] at hres
      rw [← hres.2]
      exact ih
    | some found =>
      obtain ⟨o, originalPost⟩ := found
      cases hs : e.subreddits.lookup subredditName with
      | none => simp [Repost, hf, hs] at hres
      | some sub =>
        cases hu : e.users.lookup username with
        | none => simp [Repost, hf, hs, hu] at hres
        | some u =>
          rw [repost_eq rnd now hf hs hu] at hres
          simp only [Option.some.injEq, Prod.mk.injEq] at hres
          rw [← hres.2]
          refine registryInv_subs_modify (registryInv_users_modify ih username ?_)
            subredditName ?_ ?_
          · intro u
            rfl
          · intro sub hsub
            exact hsub
          · intro x m hm
            exact Or.inl hm
  | upvote iter iter2 postID upvote username hreach hperm hperm2 hres ih =>
    exact registryInv_upvote ih (reachable_parentLinked hreach) hperm hperm2 hres
  | @sendDirectMessage e fromUsername toUsername content _ ih =>
    have h1 : (SendDirectMessage e fromUsername toUsername content).users = e.users := by
      unfold SendDirectMessage
      repeat' split
      all_goals rfl
    have h2 : (SendDirectMessage e fromUsername toUsername content).subreddits
        = e.subreddits := by
      unfold SendDirectMessage
      repeat' split
      all_goals rfl
    rw [h1, h2]
    exact ih
  | @replyToDirectMessage e iter rnd now messageID fromUsername content _ _ ih =>
    have h1 : (ReplyToDirectMessage e iter rnd now messageID fromUsername content).users
        = e.users := by
      unfold ReplyToDirectMessage
      repeat' split
      all_goals rfl
    have h2 : (ReplyToDirectMessage e iter rnd now messageID fromUsername content).subreddits
        = e.subreddits := by
      unfold ReplyToDirectMessage
      repeat' split
      all_goals rfl
    rw [h1, h2]
    exact ih

/-- C30: in every store reachable from `NewEngine`, each key `k` of the member map of a
subreddit is the name of a registered user (the user table binds `k` to a user object named
`k`) and the member entry for `k` points to that user; hence `GetFeed` returns posts only for
registered usernames, as does `GetUserFeed`. -/
theorem reachable_members_are_registered (e : Engine) (hreach : Reachable e) :
    (∀ kv ∈ e.subreddits, ∀ m ∈ kv.2.Members,
      (∃ usr, e.users.lookup m.1 = some usr ∧ usr.Username = m.1) ∧ m.2 = m.1) ∧
    (∀ iter : GoMap Subreddit, iter.Perm e.subreddits → ∀ u, GetFeed iter u ≠ [] →
      ∃ usr, e.users.lookup u = some usr) ∧
    (∀ (iter : GoMap Subreddit) (shuffle : List PostRef → List PostRef) (u : String)
      (limit : Int), GetUserFeed e iter shuffle u limit ≠ [] →
      ∃ usr, e.users.lookup u = some usr) := by
  obtain ⟨h1, -, h3⟩ := reachable_registryInv hreach
  have hself := (reachable_storeInv hreach).2.1
  refine ⟨?_, ?_, ?_⟩
  · intro kv hkv m hm
    refine ⟨?_, hself kv hkv m hm⟩
    have hsome := h3 kv hkv m hm
    cases hl : e.users.lookup m.1 with
    | none => simp [hl] at hsome
    | some usr => exact ⟨usr, rfl, h1 (m.1, usr) (mem_of_lookup_some hl)⟩
  · intro iter hperm u hne
    obtain ⟨pr, hpr⟩ := List.exists_mem_of_ne_nil _ hne
    obtain ⟨kv, hkv, hmember, -⟩ :=
      mem_memberPosts ((getFeed_perm_memberPosts hperm u).mem_iff.mp hpr)
    cases hm : kv.2.Members.lookup u with
    | none => simp [hm] at hmember
    | some r =>
      have hsome := h3 kv hkv (u, r) (mem_of_lookup_some hm)
      cases hl : e.users.lookup u with
      | none => simp [hl] at hsome
      | some usr => exact ⟨usr, rfl⟩
  · intro iter shuffle u limit hne
    cases hl : e.users.lookup u with
    | none => exact absurd (getUserFeed_unregistered e iter shuffle limit hl) hne
    | some usr => exact ⟨usr, rfl⟩

theorem reachable_members_are_registered_witness :
    (∀ kv ∈ demoPost.subreddits, ∀ m ∈ kv.2.Members,
      (∃ usr, demoPost.users.lookup m.1 = some usr ∧ usr.Username = m.1) ∧ m.2 = m.1) ∧
    (∀ iter : GoMap Subreddit, iter.Perm demoPost.subreddits → ∀ u, GetFeed iter u ≠ [] →
      ∃ usr, demoPost.users.lookup u = some usr) ∧
    (∀ (iter : GoMap Subreddit) (shuffle : List PostRef → List PostRef) (u : String)
      (limit : Int), GetUserFeed demoPost iter shuffle u limit ≠ [] →
      ∃ usr, demoPost.users.lookup u = some usr) :=
  reachable_members_are_registered demoPost reachable_demoPost

/-! ## The hub: registration -/

theorem hubRegister_eq {h : Hub} {c : ClientRef} {client : Client}
    (hc : h.sessions[c]? = some client) :
    hubRegister h c =
      { h with
        clients := if c ∈ h.clients then h.clients else h.clients ++ [c]
        userMap := mapSet h.userMap client.username c } := by
  simp only [hubRegister, hc]

/-- C26: after the hub has handled the register event for the client `c` created under the
name `n`, `c` is in `clients` and `userMap` maps `n` to `c`, whatever was stored under `n`
before; every other client is in `clients` exactly if it was before (so a client registered
earlier under `n` stays), the entries of `userMap` under other names and all client objects
are unchanged. -/
theorem hubRegister_adds_session (h : Hub) (c : ClientRef) (client : Client)
    (hc : h.sessions[c]? = some client) :
    hubStep h (.register c) = some (hubRegister h c) ∧
    c ∈ (hubRegister h c).clients ∧
    (hubRegister h c).userMap.lookup client.username = some c ∧
    (∀ d, d ≠ c → (d ∈ (hubRegister h c).clients ↔ d ∈ h.clients)) ∧
    (∀ d, d ∈ h.clients → d ∈ (hubRegister h c).clients) ∧
    (∀ n, n ≠ client.username → (hubRegister h c).userMap.lookup n = h.userMap.lookup n) ∧
    (hubRegister h c).sessions = h.sessions := by
  refine ⟨rfl, ?_⟩
  rw [hubRegister_eq hc]
  refine ⟨?_, ?_, ?_, ?_, ?_, rfl⟩
  · by_cases hmem : c ∈ h.clients
    · simp [hmem]
    · simp [hmem]
  · exact lookup_mapSet_self _ _ _
  · intro d hd
    by_cases hmem : c ∈ h.clients
    · simp [hmem]
    · simp [hmem, hd]
  · intro d hd
    by_cases hmem : c ∈ h.clients
    · simpa [hmem] using hd
    · simp [hmem, hd]
  · intro n hn
    exact lookup_mapSet_ne _ _ _ _ hn

theorem hubRegister_adds_session_witness :
    hubStep
        (hubRegister { clients := [], userMap := []
                       sessions := [{ username := "n", send := [], closed := false },
                                    { username := "n", send := [], closed := false }] } 0)
        (.register 1) = some demoHubSameName ∧
    1 ∈ demoHubSameName.clients ∧
    demoHubSameName.userMap.lookup "n" = some 1 ∧
    (∀ d, d ≠ 1 → (d ∈ demoHubSameName.clients ↔
      d ∈ (hubRegister { clients := [], userMap := []
                         sessions := [{ username := "n", send := [], closed := false },
                                      { username := "n", send := [], closed := false }] }
            0).clients)) ∧
    (∀ d, d ∈ (hubRegister { clients := [], userMap := []
                             sessions := [{ username := "n", send := [], closed := false },
                                          { username := "n", send := [], closed := false }] }
                0).clients → d ∈ demoHubSameName.clients) ∧
    (∀ n, n ≠ "n" → demoHubSameName.userMap.lookup n
      = (hubRegister { clients := [], userMap := []
                       sessions := [{ username := "n", send := [], closed := false },
                                    { username := "n", send := [], closed := false }] }
          0).userMap.lookup n) ∧
    demoHubSameName.sessions
      = (hubRegister { clients := [], userMap := []
                       sessions := [{ username := "n", send := [], closed := false },
                                    { username := "n", send := [], closed := false }] }
          0).sessions :=
  hubRegister_adds_session
    (hubRegister { clients := [], userMap := []
                   sessions := [{ username := "n", send := [], closed := false },
                                { username := "n", send := [], closed := false }] } 0)
    1 { username := "n", send := [], closed := false } (by decide)

/-! ## The hub: the maps fit together -/

theorem nameOf_set {sessions : List Client} {c : ClientRef} {client client' : Client}
    (hc : sessions[c]? = some client) (hname : client'.username = client.username)
    (d : ClientRef) : nameOf (sessions.set c client') d = nameOf sessions d := by
  unfold nameOf
  by_cases hd : c = d
  · subst hd
    simp [List.getElem?_set, lt_length_of_lookup_some hc, hc, hname]
  · simp [List.getElem?_set, hd]

theorem nameOf_append {sessions : List Client} {d : ClientRef} {n : String}
    (extra : List Client) (h : nameOf sessions d = some n) :
    nameOf (sessions ++ extra) d = some n := by
  unfold nameOf at *
  cases hd : sessions[d]? with
  | none => simp [hd] at h
  | some client =>
    rw [lookup_append_of_some _ hd]
    simpa [hd] using h

theorem hubInv_drop {h : Hub} (hinv : HubInv h) {c : ClientRef} {client client' : Client}
    (hc : h.sessions[c]? = some client) (hname : client'.username = client.username) :
    HubInv { clients := h.clients.erase c
             userMap := mapDelete h.userMap client.username
             sessions := h.sessions.set c client' } := by
  obtain ⟨h1, h2⟩ := hinv
  refine ⟨h1.erase c, ?_⟩
  intro kv hkv
  have hkv' : kv ∈ h.userMap ∧ kv.1 ≠ client.username := by
    unfold mapDelete at hkv
    rw [List.mem_filter] at hkv
    exact ⟨hkv.1, by simpa using hkv.2⟩
  obtain ⟨hmem, hn⟩ := h2 kv hkv'.1
  have hne : kv.2 ≠ c := by
    intro heq
    rw [heq] at hn
    unfold nameOf at hn
    rw [hc] at hn
    exact hkv'.2 (Option.some.inj hn).symm
  refine ⟨(List.mem_erase_of_ne hne).mpr hmem, ?_⟩
  simp only
  rw [nameOf_set hc hname]
  exact hn

theorem hubInv_sessions_set {h : Hub} (hinv : HubInv h) {c : ClientRef}
    {client client' : Client}
    (hc : h.sessions[c]? = some client) (hname : client'.username = client.username) :
    HubInv { h with sessions := h.sessions.set c client' } := by
  obtain ⟨h1, h2⟩ := hinv
  refine ⟨h1, ?_⟩
  intro kv hkv
  obtain ⟨hmem, hn⟩ := h2 kv hkv
  refine ⟨hmem, ?_⟩
  simp only
  rw [nameOf_set hc hname]
  exact hn

theorem closeSend_open {sessions : List Client} {c : ClientRef} {client : Client}
    (hc : sessions[c]? = some client) (hopen : client.closed = false) :
    closeSend sessions c = some (sessions.set c { client with closed := true }) := by
  simp [closeSend, hc, hopen]

theorem closeSend_closed {sessions : List Client} {c : ClientRef} {client : Client}
    (hc : sessions[c]? = some client) (hclosed : client.closed = true) :
    closeSend sessions c = none := by
  simp [closeSend, hc, hclosed]

/-- The outcomes of the loop body of a broadcast for one client. -/
theorem deliver_cases (h : Hub) (message : Payload) (c : ClientRef) :
    (h.sessions[c]? = none ∧ deliver h message c = some h) ∨
    (∃ client, h.sessions[c]? = some client ∧ client.closed = true ∧
      deliver h message c = none) ∨
    (∃ client, h.sessions[c]? = some client ∧ client.closed = false ∧
      client.send.length < sendCapacity ∧
      deliver h message c = some
        { h with sessions := h.sessions.set c { client with send := client.send ++ [message] } }) ∨
    (∃ client, h.sessions[c]? = some client ∧ client.closed = false ∧
      ¬ client.send.length < sendCapacity ∧
      deliver h message c = some
        { clients := h.clients.erase c
          userMap := mapDelete h.userMap client.username
          sessions := h.sessions.set c { client with closed := true } }) := by
  cases hc : h.sessions[c]? with
  | none => left; simp [deliver, hc]
  | some client =>
    right
    cases hcl : client.closed with
    | true => left; exact ⟨client, rfl, hcl, by simp [deliver, hc, hcl]⟩
    | false =>
      right
      by_cases hfull : client.send.length < sendCapacity
      · left
        exact ⟨client, rfl, hcl, hfull, by simp [deliver, hc, hcl, hfull]⟩
      · right
        exact ⟨client, rfl, hcl, hfull, by
          simp [deliver, hc, hcl, hfull, closeSend_open hc hcl]⟩

theorem hubInv_deliver {h h' : Hub} {message : Payload} {c : ClientRef} (hinv : HubInv h)
    (hres : deliver h message c = some h') : HubInv h' := by
  rcases deliver_cases h message c with ⟨-, h0⟩ | ⟨cl, -, -, h0⟩ | ⟨cl, hc, -, -, h0⟩ |
    ⟨cl, hc, -, -, h0⟩
  · rw [h0] at hres
    cases hres
    exact hinv
  · rw [h0] at hres
    cases hres
  · rw [h0] at hres
    cases hres
    exact hubInv_sessions_set hinv hc rfl
  · rw [h0] at hres
    cases hres
    exact hubInv_drop hinv hc rfl

theorem hubInv_deliverAll {message : Payload} (l : List ClientRef) {h h' : Hub}
    (hinv : HubInv h) (hres : deliverAll message h l = some h') : HubInv h' := by
  induction l generalizing h with
  | nil =>
    simp only [deliverAll, Option.some.injEq] at hres
    rw [← hres]
    exact hinv
  | cons c rest ih =>
    cases hd : deliver h message c with
    | none => simp [deliverAll, hd] at hres
    | some h1 =>
      simp only [deliverAll, hd] at hres
      exact ih (hubInv_deliver hinv hd) hres

theorem hubUnregister_cases (h : Hub) (c : ClientRef) :
    ((c ∉ h.clients ∨ h.sessions[c]? = none) ∧ hubUnregister h c = some h) ∨
    (∃ client, c ∈ h.clients ∧ h.sessions[c]? = some client ∧ client.closed = true ∧
      hubUnregister h c = none) ∨
    (∃ client, c ∈ h.clients ∧ h.sessions[c]? = some client ∧ client.closed = false ∧
      hubUnregister h c = some
        { clients := h.clients.erase c
          userMap := mapDelete h.userMap client.username
          sessions := h.sessions.set c { client with closed := true } }) := by
  by_cases hmem : c ∈ h.clients
  · cases hc : h.sessions[c]? with
    | none => left; exact ⟨Or.inr rfl, by simp [hubUnregister, hmem, hc]⟩
    | some client =>
      right
      cases hcl : client.closed with
      | true =>
        left
        exact ⟨client, hmem, rfl, hcl, by
          simp [hubUnregister, hmem, hc, closeSend_closed hc hcl]⟩
      | false =>
        right
        exact ⟨client, hmem, rfl, hcl, by
          simp [hubUnregister, hmem, hc, closeSend_open hc hcl]⟩
  · left
    exact ⟨Or.inl hmem, by simp [hubUnregister, hmem]⟩

theorem hubInv_step {h h' : Hub} {ev : HubEvent} (hinv : HubInv h)
    (hres : hubStep h ev = some h') : HubInv h' := by
  cases ev with
  | connect username =>
    simp only [hubStep, Option.some.injEq] at hres
    rw [← hres]
    obtain ⟨h1, h2⟩ := hinv
    exact ⟨h1, fun kv hkv => ⟨(h2 kv hkv).1, nameOf_append _ (h2 kv hkv).2⟩⟩
  | register c =>
    simp only [hubStep, Option.some.injEq] at hres
    rw [← hres]
    cases hc : h.sessions[c]? with
    | none => simpa [hubRegister, hc] using hinv
    | some client =>
      rw [hubRegister_eq hc]
      obtain ⟨h1, h2⟩ := hinv
      have hsub : ∀ d, d ∈ h.clients →
          d ∈ (if c ∈ h.clients then h.clients else h.clients ++ [c]) := by
        intro d hd
        by_cases hmem : c ∈ h.clients
        · simpa [hmem] using hd
        · simp [hmem, hd]
      refine ⟨?_, ?_⟩
      · by_cases hmem : c ∈ h.clients
        · simpa [hmem] using h1
        · simp only [hmem, if_false]
          exact List.Nodup.append h1 (List.nodup_singleton c) (by simpa using hmem)
      · intro kv hkv
        rcases mem_mapSet hkv with hnew | hold
        · subst hnew
          refine ⟨?_, ?_⟩
          · by_cases hmem : c ∈ h.clients
            · simp [hmem]
            · simp [hmem]
          · simp [nameOf, hc]
        · exact ⟨hsub _ (h2 kv hold).1, (h2 kv hold).2⟩
  | unregister c =>
    simp only [hubStep] at hres
    rcases hubUnregister_cases h c with ⟨-, h0⟩ | ⟨cl, -, -, -, h0⟩ | ⟨cl, -, hc, -, h0⟩
    · rw [h0] at hres
      cases hres
      exact hinv
    · rw [h0] at hres
      cases hres
    · rw [h0] at hres
      cases hres
      exact hubInv_drop hinv hc rfl
  | broadcast message order =>
    simp only [hubStep] at hres
    exact hubInv_deliverAll _ hinv hres
  | receive c =>
    cases hc : h.sessions[c]? with
    | none =>
      simp only [hubStep, hc, Option.some.injEq] at hres
      rw [← hres]
      exact hinv
    | some client =>
      simp only [hubStep, hc, Option.some.injEq] at hres
      rw [← hres]
      exact hubInv_sessions_set hinv hc rfl

theorem hubInv_run (events : List HubEvent) {h h' : Hub} (hinv : HubInv h)
    (hres : hubRun h events = some h') : HubInv h' := by
  induction events generalizing h with
  | nil =>
    simp only [hubRun, Option.some.injEq] at hres
    rw [← hres]
    exact hinv
  | cons ev rest ih =>
    cases hs : hubStep h ev with
    | none => simp [hubRun, hs] at hres
    | some h1 =>
      simp only [hubRun, hs] at hres
      exact ih (hubInv_step hinv hs) hres

/-! ## The hub: broadcast -/

theorem deliver_open {h : Hub} {c : ClientRef} {client : Client} (message : Payload)
    (hc : h.sessions[c]? = some client) (hopen : client.closed = false) :
    deliver h message c = some
      { clients := if client.send.length < sendCapacity then h.clients else h.clients.erase c
        userMap := if client.send.length < sendCapacity then h.userMap
                   else mapDelete h.userMap client.username
        sessions := h.sessions.set c (afterBroadcast message client) } := by
  by_cases hfull : client.send.length < sendCapacity
  · simp [deliver, hc, hopen, hfull, afterBroadcast]
  · simp [deliver, hc, hopen, hfull, afterBroadcast, closeSend_open hc hopen]

/-- The loop of a broadcast over clients that exist and whose channels are open, each visited
once. -/
theorem deliverAll_spec (message : Payload) (l : List ClientRef) :
    ∀ h : Hub, l.Nodup → h.clients.Nodup →
      (∀ c ∈ l, (h.sessions[c]?).map (fun client => client.closed) = some false) →
      ∃ h', deliverAll message h l = some h' ∧
        h'.clients.Nodup ∧
        (∀ d, d ∈ h'.clients ↔ d ∈ h.clients ∧ ¬ (d ∈ l ∧ queueFull h.sessions d = true)) ∧
        (∀ d, d ∈ l → h'.sessions[d]? = (h.sessions[d]?).map (afterBroadcast message)) ∧
        (∀ d, d ∉ l → h'.sessions[d]? = h.sessions[d]?) ∧
        (∀ n, (∃ c ∈ l, queueFull h.sessions c = true ∧ nameOf h.sessions c = some n) →
          h'.userMap.lookup n = none) ∧
        (∀ n, (¬ ∃ c ∈ l, queueFull h.sessions c = true ∧ nameOf h.sessions c = some n) →
          h'.userMap.lookup n = h.userMap.lookup n) := by
  induction l with
  | nil =>
    intro h _ hn _
    exact ⟨h, rfl, hn, by simp, by simp, by simp, by simp, by simp⟩
  | cons c rest ih =>
    intro h hl hn hvalid
    have hcrest : c ∉ rest := (List.nodup_cons.mp hl).1
    have hrest : rest.Nodup := (List.nodup_cons.mp hl).2
    have hvc := hvalid c (List.mem_cons_self c rest)
    cases hc : h.sessions[c]? with
    | none => simp [hc] at hvc
    | some client =>
      have hopen : client.closed = false := by simpa [hc] using hvc
      obtain ⟨h1, hd, hcl, hum, hss⟩ : ∃ h1, deliver h message c = some h1 ∧
          h1.clients = (if client.send.length < sendCapacity then h.clients
                        else h.clients.erase c) ∧
          h1.userMap = (if client.send.length < sendCapacity then h.userMap
                        else mapDelete h.userMap client.username) ∧
          h1.sessions = h.sessions.set c (afterBroadcast message client) :=
        ⟨_, deliver_open message hc hopen, rfl, rfl, rfl⟩
      have hne : ∀ d, d ≠ c → h1.sessions[d]? = h.sessions[d]? := by
        intro d hdc
        rw [hss]
        exact List.getElem?_set_ne (Ne.symm hdc)
      have hself : h1.sessions[c]? = some (afterBroadcast message client) := by
        rw [hss]
        simp [List.getElem?_set, lt_length_of_lookup_some hc]
      have hqf : ∀ d, d ≠ c → queueFull h1.sessions d = queueFull h.sessions d := by
        intro d hdc
        unfold queueFull
        rw [hne d hdc]
      have hnm : ∀ d, d ≠ c → nameOf h1.sessions d = nameOf h.sessions d := by
        intro d hdc
        unfold nameOf
        rw [hne d hdc]
      have hqc : queueFull h.sessions c = decide (sendCapacity ≤ client.send.length) := by
        simp [queueFull, hc]
      have hnc : nameOf h.sessions c = some client.username := by
        simp [nameOf, hc]
      have hn1 : h1.clients.Nodup := by
        rw [hcl]
        split
        · exact hn
        · exact hn.erase c
      obtain ⟨h', hres, hn', hmem, hin, hout, hdel, hkeep⟩ := ih h1 hrest hn1 (by
        intro d hdr
        rw [hne d (ne_of_mem_of_not_mem hdr hcrest)]
        exact hvalid d (List.mem_cons_of_mem _ hdr))
      refine ⟨h', by simp [deliverAll, hd, hres], hn', ?_, ?_, ?_, ?_, ?_⟩
      · intro d
        rw [hmem d]
        by_cases hdc : d = c
        · subst hdc
          by_cases hfull : client.send.length < sendCapacity
          · have hq : queueFull h.sessions d = false := by
              rw [hqc]
              simpa using hfull
            simp [hcl, hfull, hcrest, hq]
          · have hq : queueFull h.sessions d = true := by
              rw [hqc]
              simpa using hfull
            simp [hcl, hfull, hq, hn.mem_erase_iff]
        · rw [hqf d hdc]
          have hiff : d ∈ h1.clients ↔ d ∈ h.clients := by
            rw [hcl]
            split
            · exact Iff.rfl
            · exact List.mem_erase_of_ne hdc
          simp [hiff, hdc]
      · intro d hdl
        rcases List.mem_cons.mp hdl with hdc | hdr
        · subst hdc
          rw [hout d hcrest, hself, hc]
          rfl
        · rw [hin d hdr, hne d (ne_of_mem_of_not_mem hdr hcrest)]
      · intro d hdl
        have hdc : d ≠ c := fun e => hdl (e ▸ List.mem_cons_self _ _)
        have hdr : d ∉ rest := fun e => hdl (List.mem_cons_of_mem _ e)
        rw [hout d hdr, hne d hdc]
      · rintro n ⟨d, hdl, hfulld, hnamed⟩
        by_cases hex : ∃ c' ∈ rest, queueFull h1.sessions c' = true ∧
            nameOf h1.sessions c' = some n
        · exact hdel n hex
        · rw [hkeep n hex]
          rcases List.mem_cons.mp hdl with hdc | hdr
          · subst hdc
            have hfull : ¬ client.send.length < sendCapacity := by
              rw [hqc] at hfulld
              simpa using hfulld
            have hname : n = client.username := by
              rw [hnc] at hnamed
              exact (Option.some.inj hnamed).symm
            rw [hum, if_neg hfull, lookup_mapDelete, if_pos hname]
          · exfalso
            apply hex
            have hdc := ne_of_mem_of_not_mem hdr hcrest
            exact ⟨d, hdr, by rw [hqf d hdc]; exact hfulld, by rw [hnm d hdc]; exact hnamed⟩
      · intro n hno
        have hex : ¬ ∃ c' ∈ rest, queueFull h1.sessions c' = true ∧
            nameOf h1.sessions c' = some n := by
          rintro ⟨d, hdr, hf, hnn⟩
          have hdc := ne_of_mem_of_not_mem hdr hcrest
          exact hno ⟨d, List.mem_cons_of_mem _ hdr, by rw [← hqf d hdc]; exact hf,
            by rw [← hnm d hdc]; exact hnn⟩
        rw [hkeep n hex, hum]
        by_cases hfull : client.send.length < sendCapacity
        · rw [if_pos hfull]
        · rw [if_neg hfull, lookup_mapDelete]
          have hn' : n ≠ client.username := by
            intro e
            apply hno
            refine ⟨c, List.mem_cons_self _ _, ?_, ?_⟩
            · rw [hqc]
              simpa using hfull
            · rw [hnc, e]
          rw [if_neg hn']

/-- C24: when the hub handles a broadcast of `message` in a state whose listed clients all
have an open channel, whatever the order in which the map `clients` is visited: a listed
client whose channel already holds 256 payloads is taken out of `clients`, the entry of
`userMap` under its name is deleted and its channel is closed; a listed client with room
stays in `clients` and `message` is put at the end of its channel; clients that are not
listed are left alone; an entry of `userMap` is kept unless a dropped client carries its
name; and the client objects after the broadcast are the same for every visiting order. -/
theorem broadcast_drops_full_delivers_rest (h : Hub) (message : Payload)
    (order : List ClientRef → List ClientRef)
    (hnodup : h.clients.Nodup) (hopen : MembersOpen h) (horder : ∀ l, (order l).Perm l) :
    ∃ h', hubStep h (.broadcast message order) = some h' ∧
      (∀ c client, c ∈ h.clients → h.sessions[c]? = some client →
        sendCapacity ≤ client.send.length →
          c ∉ h'.clients ∧ h'.userMap.lookup client.username = none ∧
          h'.sessions[c]? = some { client with closed := true }) ∧
      (∀ c client, c ∈ h.clients → h.sessions[c]? = some client →
        client.send.length < sendCapacity →
          c ∈ h'.clients ∧
          h'.sessions[c]? = some { client with send := client.send ++ [message] }) ∧
      (∀ c, c ∉ h.clients → c ∉ h'.clients ∧ h'.sessions[c]? = h.sessions[c]?) ∧
      (∀ n, (∀ c ∈ h.clients, queueFull h.sessions c = true → nameOf h.sessions c ≠ some n) →
        h'.userMap.lookup n = h.userMap.lookup n) ∧
      (∀ order2 : List ClientRef → List ClientRef, (∀ l, (order2 l).Perm l) →
        ∃ h2, hubStep h (.broadcast message order2) = some h2 ∧ h2.sessions = h'.sessions) := by
  have hspec : ∀ o : List ClientRef → List ClientRef, (∀ l, (o l).Perm l) →
      ∃ h', deliverAll message h (o h.clients) = some h' ∧
        (∀ d, d ∈ h'.clients ↔ d ∈ h.clients ∧ ¬ (d ∈ h.clients ∧ queueFull h.sessions d = true)) ∧
        (∀ d, d ∈ h.clients → h'.sessions[d]? = (h.sessions[d]?).map (afterBroadcast message)) ∧
        (∀ d, d ∉ h.clients → h'.sessions[d]? = h.sessions[d]?) ∧
        (∀ n, (∃ c ∈ h.clients, queueFull h.sessions c = true ∧ nameOf h.sessions c = some n) →
          h'.userMap.lookup n = none) ∧
        (∀ n, (¬ ∃ c ∈ h.clients, queueFull h.sessions c = true ∧
            nameOf h.sessions c = some n) → h'.userMap.lookup n = h.userMap.lookup n) := by
    intro o ho
    have hmemo : ∀ d, d ∈ o h.clients ↔ d ∈ h.clients := fun d => (ho h.clients).mem_iff
    obtain ⟨h', hres, -, hmem, hin, hout, hdel, hkeep⟩ :=
      deliverAll_spec message (o h.clients) h ((ho h.clients).nodup_iff.mpr hnodup) hnodup
        (fun c hc => hopen c ((hmemo c).mp hc))
    refine ⟨h', hres, ?_, ?_, ?_, ?_, ?_⟩
    · intro d
      rw [hmem d, hmemo d]
    · intro d hd
      exact hin d ((hmemo d).mpr hd)
    · intro d hd
      exact hout d (fun e => hd ((hmemo d).mp e))
    · rintro n ⟨c, hc, hf, hnn⟩
      exact hdel n ⟨c, (hmemo c).mpr hc, hf, hnn⟩
    · intro n hno
      apply hkeep n
      rintro ⟨c, hc, hf, hnn⟩
      exact hno ⟨c, (hmemo c).mp hc, hf, hnn⟩
  obtain ⟨h', hres, hmem, hin, hout, hdel, hkeep⟩ := hspec order horder
  refine ⟨h', hres, ?_, ?_, ?_, ?_, ?_⟩
  · intro c client hc hs hfull
    have hq : queueFull h.sessions c = true := by
      simp [queueFull, hs, hfull]
    refine ⟨?_, ?_, ?_⟩
    · rw [hmem c]
      simp [hc, hq]
    · exact hdel _ ⟨c, hc, hq, by simp [nameOf, hs]⟩
    · rw [hin c hc, hs]
      simp [afterBroadcast, Nat.not_lt.mpr hfull]
  · intro c client hc hs hroom
    have hq : queueFull h.sessions c = false := by
      simp [queueFull, hs, hroom]
    refine ⟨?_, ?_⟩
    · rw [hmem c]
      simp [hc, hq]
    · rw [hin c hc, hs]
      simp [afterBroadcast, hroom]
  · intro c hc
    refine ⟨?_, hout c hc⟩
    rw [hmem c]
    simp [hc]
  · intro n hno
    apply hkeep n
    rintro ⟨c, hc, hf, hnn⟩
    exact hno c hc hf hnn
  · intro order2 horder2
    obtain ⟨h2, hres2, -, hin2, hout2, -, -⟩ := hspec order2 horder2
    refine ⟨h2, hres2, ?_⟩
    apply List.ext_getElem?
    intro d
    by_cases hd : d ∈ h.clients
    · rw [hin2 d hd, hin d hd]
    · rw [hout2 d hd, hout d hd]

theorem broadcast_drops_full_delivers_rest_witness :
    ∃ h', hubStep demoHubFull (.broadcast [7] id) = some h' ∧
      (∀ c client, c ∈ demoHubFull.clients → demoHubFull.sessions[c]? = some client →
        sendCapacity ≤ client.send.length →
          c ∉ h'.clients ∧ h'.userMap.lookup client.username = none ∧
          h'.sessions[c]? = some { client with closed := true }) ∧
      (∀ c client, c ∈ demoHubFull.clients → demoHubFull.sessions[c]? = some client →
        client.send.length < sendCapacity →
          c ∈ h'.clients ∧
          h'.sessions[c]? = some { client with send := client.send ++ [[7]] }) ∧
      (∀ c, c ∉ demoHubFull.clients →
        c ∉ h'.clients ∧ h'.sessions[c]? = demoHubFull.sessions[c]?) ∧
      (∀ n, (∀ c ∈ demoHubFull.clients, queueFull demoHubFull.sessions c = true →
          nameOf demoHubFull.sessions c ≠ some n) →
        h'.userMap.lookup n = demoHubFull.userMap.lookup n) ∧
      (∀ order2 : List ClientRef → List ClientRef, (∀ l, (order2 l).Perm l) →
        ∃ h2, hubStep demoHubFull (.broadcast [7] order2) = some h2 ∧
          h2.sessions = h'.sessions) :=
  broadcast_drops_full_delivers_rest demoHubFull [7] id (by decide) (by decide)
    (fun l => List.Perm.refl l)

/-! ## The hub: channels are closed once -/

theorem closed_set {sessions : List Client} {c : ClientRef} {client client' : Client}
    (hc : sessions[c]? = some client) (hcl : client'.closed = client.closed) (d : ClientRef) :
    ((sessions.set c client')[d]?).map (fun x => x.closed)
      = (sessions[d]?).map (fun x => x.closed) := by
  by_cases hd : c = d
  · subst hd
    simp [List.getElem?_set, lt_length_of_lookup_some hc, hc, hcl]
  · simp [List.getElem?_set, hd]

theorem closed_append_of_some {sessions : List Client} {d : ClientRef} {b : Bool}
    (extra : List Client) (h : (sessions[d]?).map (fun x => x.closed) = some b) :
    ((sessions ++ extra)[d]?).map (fun x => x.closed) = some b := by
  cases hd : sessions[d]? with
  | none => simp [hd] at h
  | some client =>
    rw [lookup_append_of_some _ hd]
    simpa [hd] using h

theorem closed_of_append_open {sessions : List Client} {d : ClientRef} {x : Client}
    (hx : x.closed = false)
    (h : ((sessions ++ [x])[d]?).map (fun y => y.closed) = some true) :
    (sessions[d]?).map (fun y => y.closed) = some true := by
  rcases Nat.lt_trichotomy d sessions.length with hlt | heq | hgt
  · rw [List.getElem?_append_left hlt] at h
    exact h
  · subst heq
    simp [hx] at h
  · rw [List.getElem?_eq_none (by simp; omega)] at h
    simp at h

theorem hubStep_register {h : Hub} {c : ClientRef} {client : Client}
    (hc : h.sessions[c]? = some client) :
    hubStep h (.register c) = some
      { h with
        clients := if c ∈ h.clients then h.clients else h.clients ++ [c]
        userMap := mapSet h.userMap client.username c } := by
  simp only [hubStep]
  rw [hubRegister_eq hc]

theorem hubStep_receive {h : Hub} {c : ClientRef} {client : Client}
    (hc : h.sessions[c]? = some client) :
    hubStep h (.receive c) = some
      { h with sessions := h.sessions.set c { client with send := client.send.tail } } := by
  simp [hubStep, hc]

/-- What one event does to the set of listed clients and to the channels, in a state whose
listed clients all have an open channel. -/
theorem hubStep_facts {h : Hub} (ev : HubEvent) (hnd : h.clients.Nodup) (hopen : MembersOpen h)
    (hord : ∀ m o, ev = .broadcast m o → ∀ l, (o l).Perm l)
    (hnew : ∀ c, ev = .register c → (h.sessions[c]?).map (fun x => x.closed) ≠ some true) :
    ∃ h1, hubStep h ev = some h1 ∧ h1.clients.Nodup ∧ MembersOpen h1 ∧
      (∀ c : ClientRef, c ∈ h1.clients → c ∈ h.clients ∨ ev = .register c) ∧
      (∀ c : ClientRef, (h1.sessions[c]?).map (fun x => x.closed) = some true →
        (h.sessions[c]?).map (fun x => x.closed) = some true ∨
          (c ∈ h.clients ∧ c ∉ h1.clients)) ∧
      (∀ c : ClientRef, (h.sessions[c]?).map (fun x => x.closed) = some true →
        (h1.sessions[c]?).map (fun x => x.closed) = some true) ∧
      (∀ c : ClientRef, c ∈ h.clients → c ∉ h1.clients →
        (h1.sessions[c]?).map (fun x => x.closed) = some true ∧
        (ev = .unregister c ∨ ∃ m o, ev = .broadcast m o ∧ queueFull h.sessions c = true)) := by
  cases ev with
  | connect username =>
    refine ⟨_, rfl, hnd, ?_, ?_, ?_, ?_, ?_⟩
    · intro c hc
      exact closed_append_of_some _ (hopen c hc)
    · intro c hc
      exact Or.inl hc
    · intro c hc
      exact Or.inl (closed_of_append_open rfl hc)
    · intro c hc
      exact closed_append_of_some _ hc
    · intro c hc hnc
      exact absurd hc hnc
  | register c0 =>
    cases hc0 : h.sessions[c0]? with
    | none =>
      have he : hubStep h (.register c0) = some h := by simp [hubStep, hubRegister, hc0]
      exact ⟨h, he, hnd, hopen, fun c hc => Or.inl hc, fun c hc => Or.inl hc,
        fun c hc => hc, fun c hc hnc => absurd hc hnc⟩
    | some client =>
      have hop : (h.sessions[c0]?).map (fun x => x.closed) = some false := by
        have hne := hnew c0 rfl
        rw [hc0] at hne ⊢
        cases hb : client.closed with
        | false => simp [hb]
        | true => exact absurd (by simp [hb]) hne
      obtain ⟨h1, he, hcl, hss⟩ : ∃ h1, hubStep h (.register c0) = some h1 ∧
          h1.clients = (if c0 ∈ h.clients then h.clients else h.clients ++ [c0]) ∧
          h1.sessions = h.sessions :=
        ⟨_, hubStep_register hc0, rfl, rfl⟩
      have hmem : ∀ d, d ∈ h1.clients ↔ d ∈ h.clients ∨ d = c0 := by
        intro d
        rw [hcl]
        by_cases hm : c0 ∈ h.clients
        · simp only [hm, if_true]
          constructor
          · exact Or.inl
          · rintro (hd | hd)
            · exact hd
            · rw [hd]
              exact hm
        · simp [hm]
      refine ⟨h1, he, ?_, ?_, ?_, ?_, ?_, ?_⟩
      · rw [hcl]
        by_cases hm : c0 ∈ h.clients
        · simpa [hm] using hnd
        · simp only [hm, if_false]
          exact List.Nodup.append hnd (List.nodup_singleton c0) (by simpa using hm)
      · intro c hc
        rw [hss]
        rcases (hmem c).mp hc with hd | hd
        · exact hopen c hd
        · rw [hd]
          exact hop
      · intro c hc
        rcases (hmem c).mp hc with hd | hd
        · exact Or.inl hd
        · exact Or.inr (by rw [hd])
      · intro c hc
        rw [hss] at hc
        exact Or.inl hc
      · intro c hc
        rw [hss]
        exact hc
      · intro c hc hnc
        exact absurd ((hmem c).mpr (Or.inl hc)) hnc
  | unregister c0 =>
    rcases hubUnregister_cases h c0 with ⟨-, h0⟩ | ⟨cl, hm, hc0, hclosed, -⟩ |
      ⟨cl, hm, hc0, hclopen, h0⟩
    · exact ⟨h, h0, hnd, hopen, fun c hc => Or.inl hc, fun c hc => Or.inl hc,
        fun c hc => hc, fun c hc hnc => absurd hc hnc⟩
    · have := hopen c0 hm
      simp [hc0, hclosed] at this
    · obtain ⟨h1, he, hcl, hss⟩ : ∃ h1, hubStep h (.unregister c0) = some h1 ∧
          h1.clients = h.clients.erase c0 ∧
          h1.sessions = h.sessions.set c0 { cl with closed := true } :=
        ⟨_, h0, rfl, rfl⟩
      have hne : ∀ d, d ≠ c0 → h1.sessions[d]? = h.sessions[d]? := by
        intro d hd
        rw [hss]
        exact List.getElem?_set_ne (Ne.symm hd)
      have hself : (h1.sessions[c0]?).map (fun x => x.closed) = some true := by
        rw [hss]
        simp [List.getElem?_set, lt_length_of_lookup_some hc0]
      have hmem : ∀ d, d ∈ h1.clients ↔ d ≠ c0 ∧ d ∈ h.clients := by
        intro d
        rw [hcl]
        exact hnd.mem_erase_iff
      refine ⟨h1, he, ?_, ?_, ?_, ?_, ?_, ?_⟩
      · rw [hcl]
        exact hnd.erase c0
      · intro c hc
        obtain ⟨hd, hcm⟩ := (hmem c).mp hc
        rw [hne c hd]
        exact hopen c hcm
      · intro c hc
        exact Or.inl ((hmem c).mp hc).2
      · intro c hc
        by_cases hd : c = c0
        · right
          rw [hd]
          exact ⟨hm, fun e => ((hmem c0).mp e).1 rfl⟩
        · left
          rw [hne c hd] at hc
          exact hc
      · intro c hc
        by_cases hd : c = c0
        · rw [hd]
          exact hself
        · rw [hne c hd]
          exact hc
      · intro c hc hnc
        have hd : c = c0 := by
          by_contra hd
          exact hnc ((hmem c).mpr ⟨hd, hc⟩)
        rw [hd]
        exact ⟨hself, Or.inl rfl⟩
  | broadcast message order =>
    have ho := hord message order rfl
    have hmemo : ∀ d, d ∈ order h.clients ↔ d ∈ h.clients := fun d => (ho h.clients).mem_iff
    obtain ⟨h1, hres, hn1, hmem, hin, hout, -, -⟩ :=
      deliverAll_spec message (order h.clients) h ((ho h.clients).nodup_iff.mpr hnd) hnd
        (fun c hc => hopen c ((hmemo c).mp hc))
    have hafter : ∀ c, c ∈ h.clients →
        (h1.sessions[c]?).map (fun x => x.closed) = some (queueFull h.sessions c) := by
      intro c hc
      have hco := hopen c hc
      rw [hin c ((hmemo c).mpr hc)]
      cases hs : h.sessions[c]? with
      | none => simp [hs] at hco
      | some client =>
        have hcl : client.closed = false := by simpa [hs] using hco
        by_cases hfull : client.send.length < sendCapacity
        · simp [afterBroadcast, queueFull, hs, hfull, hcl]
        · simp [afterBroadcast, queueFull, hs, hfull, Nat.not_lt.mp hfull]
    refine ⟨h1, hres, hn1, ?_, ?_, ?_, ?_, ?_⟩
    · intro c hc
      obtain ⟨hcm, hnf⟩ := (hmem c).mp hc
      rw [hafter c hcm]
      have hq : queueFull h.sessions c ≠ true := fun e => hnf ⟨(hmemo c).mpr hcm, e⟩
      simpa using hq
    · intro c hc
      exact Or.inl ((hmem c).mp hc).1
    · intro c hc
      by_cases hcm : c ∈ h.clients
      · right
        rw [hafter c hcm] at hc
        refine ⟨hcm, fun e => ((hmem c).mp e).2 ⟨(hmemo c).mpr hcm, Option.some.inj hc⟩⟩
      · left
        rw [hout c (fun e => hcm ((hmemo c).mp e))] at hc
        exact hc
    · intro c hc
      by_cases hcm : c ∈ h.clients
      · have := hopen c hcm
        rw [hc] at this
        cases this
      · rw [hout c (fun e => hcm ((hmemo c).mp e))]
        exact hc
    · intro c hc hnc
      have hq : queueFull h.sessions c = true := by
        by_contra hq
        exact hnc ((hmem c).mpr ⟨hc, fun e => hq e.2⟩)
      refine ⟨?_, Or.inr ⟨message, order, rfl, hq⟩⟩
      rw [hafter c hc, hq]
  | receive c0 =>
    cases hc0 : h.sessions[c0]? with
    | none =>
      have he : hubStep h (.receive c0) = some h := by simp [hubStep, hc0]
      exact ⟨h, he, hnd, hopen, fun c hc => Or.inl hc, fun c hc => Or.inl hc,
        fun c hc => hc, fun c hc hnc => absurd hc hnc⟩
    | some client =>
      obtain ⟨h1, he, hcl, hss⟩ : ∃ h1, hubStep h (.receive c0) = some h1 ∧
          h1.clients = h.clients ∧
          h1.sessions = h.sessions.set c0 { client with send := client.send.tail } :=
        ⟨_, hubStep_receive hc0, rfl, rfl⟩
      have hsame : ∀ d : ClientRef, (h1.sessions[d]?).map (fun x => x.closed)
          = (h.sessions[d]?).map (fun x => x.closed) := by
        intro d
        rw [hss]
        refine closed_set hc0 ?_ d
        rfl
      refine ⟨h1, he, by rw [hcl]; exact hnd, ?_, ?_, ?_, ?_, ?_⟩
      · intro c hc
        rw [hcl] at hc
        rw [hsame c]
        exact hopen c hc
      · intro c hc
        rw [hcl] at hc
        exact Or.inl hc
      · intro c hc
        rw [hsame c] at hc
        exact Or.inl hc
      · intro c hc
        rw [hsame c]
        exact hc
      · intro c hc hnc
        rw [hcl] at hnc
        exact absurd hc hnc

theorem registered_cons_subset (ev : HubEvent) {rest : List HubEvent} {c : ClientRef}
    (h : c ∈ registered rest) : c ∈ registered (ev :: rest) := by
  cases ev <;> simp [registered, h]

theorem registered_cons_nodup {ev : HubEvent} {rest : List HubEvent}
    (h : (registered (ev :: rest)).Nodup) : (registered rest).Nodup := by
  cases ev with
  | register c => exact (List.nodup_cons.mp h).2
  | connect username => exact h
  | unregister c => exact h
  | broadcast message order => exact h
  | receive c => exact h

theorem ordersValid_cons {ev : HubEvent} {rest : List HubEvent}
    (h : OrdersValid (ev :: rest)) :
    OrdersValid rest ∧ (∀ m o, ev = .broadcast m o → ∀ l, (o l).Perm l) := by
  cases ev with
  | broadcast message order =>
    have h' : (∀ l, (order l).Perm l) ∧ OrdersValid rest := h
    refine ⟨h'.2, ?_⟩
    intro m o e
    cases e
    exact h'.1
  | connect username => exact ⟨h, fun m o e => by cases e⟩
  | register c => exact ⟨h, fun m o e => by cases e⟩
  | unregister c => exact ⟨h, fun m o e => by cases e⟩
  | receive c => exact ⟨h, fun m o e => by cases e⟩

/-- One event of a sequence that registers no client twice, in a state whose listed clients
all have an open channel: the event runs to its end and the next state is such a state
again. -/
theorem hubStep_safe {h : Hub} {ev : HubEvent} {rest : List HubEvent}
    (hnd : h.clients.Nodup) (hopen : MembersOpen h)
    (hnra : NotRegisteredAgain h (ev :: rest))
    (hreg : (registered (ev :: rest)).Nodup) (hord : OrdersValid (ev :: rest)) :
    ∃ h1, hubStep h ev = some h1 ∧ h1.clients.Nodup ∧ MembersOpen h1 ∧
      NotRegisteredAgain h1 rest ∧ (registered rest).Nodup ∧ OrdersValid rest := by
  have hnew : ∀ c, ev = .register c →
      (h.sessions[c]?).map (fun x => x.closed) ≠ some true := by
    intro c e hcl
    apply hnra c (Or.inr hcl)
    rw [e]
    exact List.mem_cons_self _ _
  obtain ⟨h1, he, hn1, ho1, hmem, hclosed, -, -⟩ :=
    hubStep_facts ev hnd hopen (ordersValid_cons hord).2 hnew
  have hold : ∀ c, c ∈ h.clients → c ∉ registered rest :=
    fun c hc e => hnra c (Or.inl hc) (registered_cons_subset ev e)
  refine ⟨h1, he, hn1, ho1, ?_, registered_cons_nodup hreg, (ordersValid_cons hord).1⟩
  intro c hc
  rcases hc with hc | hc
  · rcases hmem c hc with hm | hm
    · exact hold c hm
    · rw [hm] at hreg
      exact (List.nodup_cons.mp hreg).1
  · rcases hclosed c hc with hcl | hcl
    · exact fun e => hnra c (Or.inr hcl) (registered_cons_subset ev e)
    · exact hold c hcl.1

theorem hubRun_prefix (pre : List HubEvent) :
    ∀ (h : Hub) (rem : List HubEvent), h.clients.Nodup → MembersOpen h →
      NotRegisteredAgain h (pre ++ rem) → (registered (pre ++ rem)).Nodup →
      OrdersValid (pre ++ rem) →
      ∃ h', hubRun h pre = some h' ∧ h'.clients.Nodup ∧ MembersOpen h' ∧
        NotRegisteredAgain h' rem ∧ (registered rem).Nodup ∧ OrdersValid rem := by
  induction pre with
  | nil =>
    intro h rem hnd hopen hnra hreg hord
    exact ⟨h, rfl, hnd, hopen, hnra, hreg, hord⟩
  | cons ev pre ih =>
    intro h rem hnd hopen hnra hreg hord
    obtain ⟨h1, he, hn1, ho1, hnra1, hreg1, hord1⟩ :=
      @hubStep_safe h ev (pre ++ rem) hnd hopen hnra hreg hord
    obtain ⟨h', hres, hrest⟩ := ih h1 rem hn1 ho1 hnra1 hreg1 hord1
    exact ⟨h', by simp [hubRun, he, hres], hrest⟩

/-- C25: in a run of the hub from its initial state over events that register no client
twice, no event closes a channel that is closed already (every event runs to its end, and
in the final state the listed clients have open channels).  At every event of such a run a
channel goes from open to closed exactly if the event takes its client out of `clients`,
which only the unregister event for that client or a broadcast that finds its channel full
does; a channel that is closed stays closed and its client is never listed again.  The
unregister event for a client that is not in `clients` leaves the hub as it is. -/
theorem hub_closes_each_channel_once (events : List HubEvent)
    (hreg : (registered events).Nodup) (hord : OrdersValid events) :
    (∃ hfinal, hubRun newHub events = some hfinal ∧ MembersOpen hfinal) ∧
    (∀ pre ev post, events = pre ++ ev :: post →
      ∃ h h1, hubRun newHub pre = some h ∧ hubStep h ev = some h1 ∧
        (∀ c : ClientRef,
          ((h.sessions[c]?).map (fun x => x.closed) = some false ∧
            (h1.sessions[c]?).map (fun x => x.closed) = some true) ↔
          (c ∈ h.clients ∧ c ∉ h1.clients)) ∧
        (∀ c : ClientRef, c ∈ h.clients → c ∉ h1.clients →
          ev = .unregister c ∨
            ∃ m o, ev = .broadcast m o ∧ queueFull h.sessions c = true) ∧
        (∀ c : ClientRef, (h.sessions[c]?).map (fun x => x.closed) = some true →
          (h1.sessions[c]?).map (fun x => x.closed) = some true ∧ c ∉ h1.clients)) ∧
    (∀ (h : Hub) (c : ClientRef), c ∉ h.clients → hubStep h (.unregister c) = some h) := by
  have hnd0 : newHub.clients.Nodup := List.nodup_nil
  have hopen0 : MembersOpen newHub := by
    intro c hc
    cases hc
  have hnra0 : ∀ evs, NotRegisteredAgain newHub evs := by
    intro evs c hc
    rcases hc with hc | hc
    · cases hc
    · simp [newHub] at hc
  refine ⟨?_, ?_, ?_⟩
  · obtain ⟨h', hres, -, ho, -⟩ := hubRun_prefix events newHub [] hnd0 hopen0 (hnra0 _)
      (by rw [List.append_nil]; exact hreg) (by rw [List.append_nil]; exact hord)
    exact ⟨h', hres, ho⟩
  · intro pre ev post hsplit
    subst hsplit
    obtain ⟨h, hres, hnd, hopen, hnra, hreg', hord'⟩ :=
      hubRun_prefix pre newHub (ev :: post) hnd0 hopen0 (hnra0 _) hreg hord
    have hnew : ∀ c, ev = .register c →
        (h.sessions[c]?).map (fun x => x.closed) ≠ some true := by
      intro c e hcl
      apply hnra c (Or.inr hcl)
      rw [e]
      exact List.mem_cons_self _ _
    obtain ⟨h1, he, -, -, hmem, hclosed, hstay, hleave⟩ :=
      hubStep_facts ev hnd hopen (ordersValid_cons hord').2 hnew
    refine ⟨h, h1, hres, he, ?_, ?_, ?_⟩
    · intro c
      constructor
      · rintro ⟨hwas, hnow⟩
        rcases hclosed c hnow with hcl | hcl
        · rw [hcl] at hwas
          cases hwas
        · exact hcl
      · rintro ⟨hc, hnc⟩
        exact ⟨hopen c hc, (hleave c hc hnc).1⟩
    · intro c hc hnc
      exact (hleave c hc hnc).2
    · intro c hcl
      refine ⟨hstay c hcl, ?_⟩
      intro hc1
      rcases hmem c hc1 with hm | hm
      · have := hopen c hm
        rw [hcl] at this
        cases this
      · exact hnew c hm hcl
  · intro h c hc
    simp [hubStep, hubUnregister, hc]

theorem hub_closes_each_channel_once_witness :
    (∃ hfinal,
      hubRun newHub [.connect "a", .connect "b", .register 0, .register 1, .broadcast [7] id,
        .unregister 0, .unregister 0] = some hfinal ∧ MembersOpen hfinal) ∧
    (∀ pre ev post,
      [HubEvent.connect "a", .connect "b", .register 0, .register 1, .broadcast [7] id,
        .unregister 0, .unregister 0] = pre ++ ev :: post →
      ∃ h h1, hubRun newHub pre = some h ∧ hubStep h ev = some h1 ∧
        (∀ c : ClientRef,
          ((h.sessions[c]?).map (fun x => x.closed) = some false ∧
            (h1.sessions[c]?).map (fun x => x.closed) = some true) ↔
          (c ∈ h.clients ∧ c ∉ h1.clients)) ∧
        (∀ c : ClientRef, c ∈ h.clients → c ∉ h1.clients →
          ev = .unregister c ∨
            ∃ m o, ev = .broadcast m o ∧ queueFull h.sessions c = true) ∧
        (∀ c : ClientRef, (h.sessions[c]?).map (fun x => x.closed) = some true →
          (h1.sessions[c]?).map (fun x => x.closed) = some true ∧ c ∉ h1.clients)) ∧
    (∀ (h : Hub) (c : ClientRef), c ∉ h.clients → hubStep h (.unregister c) = some h) :=
  hub_closes_each_channel_once
    [.connect "a", .connect "b", .register 0, .register 1, .broadcast [7] id,
      .unregister 0, .unregister 0]
    (by decide) ⟨fun l => List.Perm.refl l, trivial⟩

/-! ## The hub: two clients under one name -/

theorem hubUnregister_open {h : Hub} {c : ClientRef} {client : Client}
    (hm : c ∈ h.clients) (hc : h.sessions[c]? = some client) (hopen : client.closed = false) :
    hubUnregister h c = some
      { clients := h.clients.erase c
        userMap := mapDelete h.userMap client.username
        sessions := h.sessions.set c { client with closed := true } } := by
  simp [hubUnregister, hm, hc, closeSend_open hc hopen]

/-- C28: for two different clients `c1` and `c2` created under the same name, with the
channel of `c1` open, the hub handles register `c1`, register `c2`, unregister `c1` as
follows: after the two register events `userMap` files `c2` under the name; after the
unregister event `c1` is no longer in `clients`, `c2` still is, `userMap` has no entry under
the name, and no entry of `userMap` holds `c2`.  In every state that the hub reaches from its
initial state, every client held by `userMap` is in `clients`. -/
theorem hubUnregister_removes_shared_name (h : Hub) (c1 c2 : ClientRef) (cl1 cl2 : Client)
    (hinv : HubInv h)
    (h1 : h.sessions[c1]? = some cl1) (h2 : h.sessions[c2]? = some cl2) (hne : c1 ≠ c2)
    (hname : cl2.username = cl1.username) (hopen : cl1.closed = false) :
    (hubRegister (hubRegister h c1) c2).userMap.lookup cl1.username = some c2 ∧
    (∃ h', hubRun h [.register c1, .register c2, .unregister c1] = some h' ∧
      c1 ∉ h'.clients ∧ c2 ∈ h'.clients ∧ h'.userMap.lookup cl1.username = none ∧
      (∀ kv ∈ h'.userMap, kv.2 ≠ c2)) ∧
    (∀ events hfinal, hubRun newHub events = some hfinal →
      ∀ kv ∈ hfinal.userMap, kv.2 ∈ hfinal.clients) := by
  obtain ⟨ha, hae, hacl, -, hass⟩ : ∃ ha, hubRegister h c1 = ha ∧
      ha.clients = (if c1 ∈ h.clients then h.clients else h.clients ++ [c1]) ∧
      ha.userMap = mapSet h.userMap cl1.username c1 ∧ ha.sessions = h.sessions :=
    ⟨_, hubRegister_eq h1, rfl, rfl, rfl⟩
  have h2a : ha.sessions[c2]? = some cl2 := by
    rw [hass]
    exact h2
  obtain ⟨hb, hbe, hbcl, hbum, hbss⟩ : ∃ hb, hubRegister ha c2 = hb ∧
      hb.clients = (if c2 ∈ ha.clients then ha.clients else ha.clients ++ [c2]) ∧
      hb.userMap = mapSet ha.userMap cl2.username c2 ∧ hb.sessions = ha.sessions :=
    ⟨_, hubRegister_eq h2a, rfl, rfl, rfl⟩
  have hinva : HubInv ha := by
    refine @hubInv_step h ha (HubEvent.register c1) hinv ?_
    rw [← hae]
    rfl
  have hinvb : HubInv hb := by
    refine @hubInv_step ha hb (HubEvent.register c2) hinva ?_
    rw [← hbe]
    rfl
  have hc1a : c1 ∈ ha.clients := by
    rw [hacl]
    by_cases hm : c1 ∈ h.clients
    · simp [hm]
    · simp [hm]
  have hc1b : c1 ∈ hb.clients := by
    rw [hbcl]
    by_cases hm : c2 ∈ ha.clients
    · simpa [hm] using hc1a
    · simp [hm, hc1a]
  have hc2b : c2 ∈ hb.clients := by
    rw [hbcl]
    by_cases hm : c2 ∈ ha.clients
    · simp [hm]
    · simp [hm]
  have hs1b : hb.sessions[c1]? = some cl1 := by
    rw [hbss, hass]
    exact h1
  have hs2b : hb.sessions[c2]? = some cl2 := by
    rw [hbss]
    exact h2a
  have hlook : hb.userMap.lookup cl1.username = some c2 := by
    rw [hbum, hname]
    exact lookup_mapSet_self _ _ _
  obtain ⟨h', hun, hcl', hum', hss'⟩ : ∃ h', hubUnregister hb c1 = some h' ∧
      h'.clients = hb.clients.erase c1 ∧
      h'.userMap = mapDelete hb.userMap cl1.username ∧
      h'.sessions = hb.sessions.set c1 { cl1 with closed := true } :=
    ⟨_, hubUnregister_open hc1b hs1b hopen, rfl, rfl, rfl⟩
  have hrun : hubRun h [.register c1, .register c2, .unregister c1] = some h' := by
    simp only [hubRun, hubStep, hae, hbe, hun]
  have hinv' : HubInv h' := hubInv_run _ hinv hrun
  refine ⟨?_, ?_, ?_⟩
  · rw [hae, hbe]
    exact hlook
  · refine ⟨h', hrun, ?_, ?_, ?_, ?_⟩
    · rw [hcl']
      exact fun e => (hinvb.1.mem_erase_iff.mp e).1 rfl
    · rw [hcl']
      exact (List.mem_erase_of_ne (Ne.symm hne)).mpr hc2b
    · rw [hum', lookup_mapDelete, if_pos rfl]
    · intro kv hkv heq
      have hn := (hinv'.2 kv hkv).2
      rw [hss', nameOf_set hs1b (by rfl), heq] at hn
      have hkey : kv.1 = cl1.username := by
        unfold nameOf at hn
        rw [hs2b] at hn
        rw [← hname]
        exact (Option.some.inj hn).symm
      rw [hum'] at hkv
      unfold mapDelete at hkv
      rw [List.mem_filter] at hkv
      have hkne : kv.1 ≠ cl1.username := by simpa using hkv.2
      exact hkne hkey
  · intro events hfinal hres kv hkv
    have hinv0 : HubInv newHub := ⟨List.nodup_nil, fun kv hkv => by cases hkv⟩
    exact ((hubInv_run events hinv0 hres).2 kv hkv).1

theorem hubUnregister_removes_shared_name_witness :
    (hubRegister (hubRegister demoHubTwoSessions 0) 1).userMap.lookup "n" = some 1 ∧
    (∃ h', hubRun demoHubTwoSessions [.register 0, .register 1, .unregister 0] = some h' ∧
      0 ∉ h'.clients ∧ 1 ∈ h'.clients ∧ h'.userMap.lookup "n" = none ∧
      (∀ kv ∈ h'.userMap, kv.2 ≠ 1)) ∧
    (∀ events hfinal, hubRun newHub events = some hfinal →
      ∀ kv ∈ hfinal.userMap, kv.2 ∈ hfinal.clients) :=
  hubUnregister_removes_shared_name demoHubTwoSessions 0 1
    { username := "n", send := [], closed := false }
    { username := "n", send := [], closed := false }
    (by decide) (by decide) (by decide) (by decide) rfl rfl

end Reddit
